import Mathlib

/-!
A verification development for the network-facing substrate of the x0
RISC-V simulator: the single-threaded event reactor (`src/app-event.c`),
the asynchronous stream layer (`app-stream.c`), the TCP service/session
manager (`app-service.c`) and the bind-address parser
(`app-net-utils.c`).

The C code is shallowly embedded as follows.

* The reactor's static tables (`m_io_records`/`m_io_pfds`,
  `m_timer_records`, `m_id_counter`) become the fields of `X0.RState`.
  The parallel arrays `m_io_records` and `m_io_pfds` are always indexed
  together and swap-removed together, so they are merged into a single
  record list whose entries carry both the record fields and the pollfd
  fields (`fd`, `events`, `revents`).
* `clock_gettime(CLOCK_MONOTONIC_COARSE)` is an oracle `Clk : Nat → Int`;
  the state carries the index of the next reading, and every call of
  `app_event_clock` consumes one reading.
* The readiness outcome of the `poll(2)` system call is an oracle
  `Nat → Nat` giving the `revents` mask assigned to each table index.
  The `EINTR` retry loop and the fatal-error branch of `app_event_poll`
  are elided: an interrupted wait is transparently retried in the C code
  and the fatal branch aborts the process.
* Callback function pointers become small-integer callback identifiers;
  a `CbEnv` interprets an identifier as a state transformer over the
  reactor plus an instance-specific external state, returning the list
  of observable events the callback generates.  Dispatch loops whose
  iteration space can grow while they run (callbacks may append records)
  take a fuel argument and report whether they ran to completion.
-/

namespace X0

open scoped List

/-- Result codes (`app_result_t`) used by the stream, service and
net-utils layers. -/
inductive AppResult where
  | ok
  | hup
  | ioError
  | timeout
  | invalidArg
deriving DecidableEq, Repr

/-- `APP_EVENT_IN`: readable-interest bit, passed straight through to
`poll(2)` (`POLLIN`). -/
def appEventIn : Nat := 1

/-- `APP_EVENT_OUT`: writable-interest bit (`POLLOUT`). -/
def appEventOut : Nat := 4

/-- `APP_EVENT_HUP`: hangup bit (`POLLHUP`). -/
def appEventHup : Nat := 16

/-- One entry of the reactor's I/O table: the `app_event_io_t` record
merged with its parallel `struct pollfd` entry (same index, moved
together by the swap-remove compaction). -/
structure IORec where
  id : Nat
  fd : Int
  events : Nat
  revents : Nat
  cb : Nat
deriving DecidableEq, Repr

/-- One entry of the reactor's timer table (`app_event_timer_t`). -/
structure TimerRec where
  id : Nat
  cb : Nat
  expiry : Int
deriving DecidableEq, Repr

/-- The reactor's static state: `m_id_counter`, the I/O record table and
the timer record table, plus the index of the next monotonic-clock
reading to be consumed. -/
structure RState where
  idCounter : Nat
  ios : List IORec
  timers : List TimerRec
  clkIdx : Nat
deriving DecidableEq, Repr

/-- A monotonic-clock oracle: the value returned by the n-th call of
`app_event_clock`. -/
def Clk : Type := Nat → Int

/-- `app_event_clock()`: consume the next clock reading. -/
def clockRead (clk : Clk) (s : RState) : Int × RState :=
  (clk s.clkIdx, { s with clkIdx := s.clkIdx + 1 })

/-- `app_event_register_io`: append a fresh record carrying id
`m_id_counter + 1` and a pollfd with the requested events and a zero
`revents`, and return the new id. -/
def registerIo (fd : Int) (events : Nat) (cb : Nat) (s : RState) :
    Nat × RState :=
  let id := s.idCounter + 1
  (id, { s with
          idCounter := id
          ios := s.ios ++ [⟨id, fd, events, 0, cb⟩] })

/-- The marking loop of `app_event_unregister_io`: zero the id of the
first record whose id matches, then stop (the C loop breaks). -/
def unregIoList : List IORec → Nat → List IORec
  | [], _ => []
  | r :: rs, id =>
      if r.id = id then { r with id := 0 } :: rs
      else r :: unregIoList rs id

/-- `app_event_unregister_io`: mark the first matching I/O record for
garbage collection. -/
def unregisterIo (id : Nat) (s : RState) : RState :=
  { s with ios := unregIoList s.ios id }

/-- `app_event_register_timer`: read the clock, append a fresh timer
record with expiry `now + period`, and return the new id. -/
def registerTimer (clk : Clk) (period : Int) (cb : Nat) (s : RState) :
    Nat × RState :=
  let p := clockRead clk s
  let id := p.2.idCounter + 1
  (id, { p.2 with
          idCounter := id
          timers := p.2.timers ++ [⟨id, cb, p.1 + period⟩] })

/-- The marking loop of `app_event_unregister_timer`: zero the id of
every matching record (this loop has no break). -/
def unregTimerList (l : List TimerRec) (id : Nat) : List TimerRec :=
  l.map (fun r => if r.id = id then { r with id := 0 } else r)

/-- `app_event_unregister_timer`: mark every matching timer record for
garbage collection. -/
def unregisterTimer (id : Nat) (s : RState) : RState :=
  { s with timers := unregTimerList s.timers id }

/-- The swap-remove compaction shared by `gc_io` and `gc_timers`:
starting at index `i`, a record satisfying `dead` is overwritten by the
last record and the list shrinks by one (the index is re-examined);
otherwise the index advances. -/
def gcAux (dead : α → Bool) : Nat → List α → Nat → List α
  | 0, l, _ => l
  | Nat.succ fuel, l, i =>
    if h : i < l.length then
      if dead (l.get ⟨i, h⟩) then
        gcAux dead fuel
          ((l.set i (l.getLast (List.ne_nil_of_length_pos (by omega)))).dropLast) i
      else
        gcAux dead fuel l (i + 1)
    else
      l

/-- `gc_io`: compact away the records marked dead (id zero).  The loop's
step count is bounded by the table length, which therefore serves as
structural fuel. -/
def gcIos (l : List IORec) : List IORec :=
  gcAux (fun r => r.id = 0) l.length l 0

/-- `gc_timers`: compact away the timer records marked dead. -/
def gcTimers (l : List TimerRec) : List TimerRec :=
  gcAux (fun r => r.id = 0) l.length l 0

/-- `INT64_MAX`, the initial accumulator of the poll-timeout fold. -/
def int64Max : Int := 9223372036854775807

/-- `INT_MAX`, the cap applied to the computed poll timeout. -/
def intMax : Int := 2147483647

/-- The timeout-computation loop of `app_event_poll`: a negative
remaining time forces the accumulator to zero, otherwise a smaller
non-negative remaining time replaces it. -/
def timeoutFold (now : Int) : List TimerRec → Int → Int
  | [], acc => acc
  | r :: rs, acc =>
      let rem := r.expiry - now
      if rem < 0 then timeoutFold now rs 0
      else if rem < acc then timeoutFold now rs rem
      else timeoutFold now rs acc

/-- Observable events of a model run: reactor dispatches, handle
registrations, stream completion callbacks and service-level actions. -/
inductive Ev where
  | ioFired (id : Nat) (cb : Nat) (revents : Nat)
  | timerFired (id : Nat) (cb : Nat)
  | regdIo (id : Nat)
  | regdTimer (id : Nat)
  | streamDone (isRead : Bool) (res : AppResult) (n : Int)
  | svcCreateCb (socket : Int)
  | svcDestroyCb (sid : Nat)
  | sockClosed (socket : Int)
  | streamCreated (socket : Int)
  | streamDestroyed (sid : Nat)
deriving DecidableEq, Repr

/-- The reactor state paired with the external state a callback
environment operates on. -/
structure Sys (σ : Type) where
  rs : RState
  ext : σ
deriving DecidableEq, Repr

/-- A callback environment: the interpretation of I/O- and
timer-callback identifiers as state transformers that also emit
events. -/
structure CbEnv (σ : Type) where
  onIo : Nat → Nat → Sys σ → Sys σ × List Ev
  onTimer : Nat → Sys σ → Sys σ × List Ev

/-- Result of one dispatch loop: final state, emitted events, and
whether the loop ran to completion within its fuel. -/
structure DispOut (σ : Type) where
  sys : Sys σ
  trace : List Ev
  completed : Bool

/-- The I/O dispatch loop of `app_event_poll`: each record with a
non-zero `revents` and a non-zero id is marked dead and only then has
its callback invoked.  The loop bound re-reads the table length, so
records appended by callbacks are examined too (they carry a zero
`revents`). -/
def dispatchIos (env : CbEnv σ) : Nat → Nat → Sys σ → DispOut σ
  | 0, _, s => ⟨s, [], false⟩
  | Nat.succ fuel, i, s =>
    if h : i < s.rs.ios.length then
      let r := s.rs.ios.get ⟨i, h⟩
      if r.revents ≠ 0 ∧ r.id ≠ 0 then
        let s1 : Sys σ :=
          { s with rs := { s.rs with ios := s.rs.ios.set i { r with id := 0 } } }
        let p := env.onIo r.cb r.revents s1
        let rest := dispatchIos env fuel (i + 1) p.1
        ⟨rest.sys, Ev.ioFired r.id r.cb r.revents :: (p.2 ++ rest.trace),
          rest.completed⟩
      else
        dispatchIos env fuel (i + 1) s
    else
      ⟨s, [], true⟩

/-- The timer dispatch loop of `app_event_poll`: `now` is the single
clock reading taken before the loop; each record whose expiry is not in
the future and whose id is non-zero is marked dead and dispatched.  The
loop bound re-reads the table length. -/
def dispatchTimers (env : CbEnv σ) (now : Int) : Nat → Nat → Sys σ → DispOut σ
  | 0, _, s => ⟨s, [], false⟩
  | Nat.succ fuel, i, s =>
    if h : i < s.rs.timers.length then
      let r := s.rs.timers.get ⟨i, h⟩
      if r.expiry ≤ now ∧ r.id ≠ 0 then
        let s1 : Sys σ :=
          { s with rs := { s.rs with timers := s.rs.timers.set i { r with id := 0 } } }
        let p := env.onTimer r.cb s1
        let rest := dispatchTimers env now fuel (i + 1) p.1
        ⟨rest.sys, Ev.timerFired r.id r.cb :: (p.2 ++ rest.trace),
          rest.completed⟩
      else
        dispatchTimers env now fuel (i + 1) s
    else
      ⟨s, [], true⟩

/-- Result of one `app_event_poll` call: final state, the dispatch
trace, whether both dispatch loops completed, and the wait passed to the
readiness check (`-1` requests an indefinite wait). -/
structure PollOut (σ : Type) where
  sys : Sys σ
  trace : List Ev
  completed : Bool
  wait : Int

/-- `app_event_poll`: garbage-collect both tables, reset `revents`,
compute the wait (zero when not blocking; indefinite when blocking with
no timers; otherwise the fold over remaining times, capped at
`INT_MAX`), let the readiness oracle assign `revents`, dispatch I/O
callbacks, read the clock, and dispatch expired timers. -/
def pollStep (env : CbEnv σ) (clk : Clk) (rv : Nat → Nat) (fuel : Nat)
    (block : Bool) (sys : Sys σ) : PollOut σ :=
  let rs0 : RState :=
    { sys.rs with ios := gcIos sys.rs.ios, timers := gcTimers sys.rs.timers }
  let rs1 : RState :=
    { rs0 with ios := rs0.ios.map (fun r => { r with revents := 0 }) }
  let wp : Int × RState :=
    if block then
      if rs1.timers.length = 0 then (-1, rs1)
      else
        let p := clockRead clk rs1
        (timeoutFold p.1 p.2.timers int64Max, p.2)
    else (0, rs1)
  let wait := if wp.1 > intMax then intMax else wp.1
  let rs3 : RState :=
    { wp.2 with ios := wp.2.ios.mapIdx (fun i r => { r with revents := rv i }) }
  let dio := dispatchIos env fuel 0 ⟨rs3, sys.ext⟩
  let p2 := clockRead clk dio.sys.rs
  let dtm := dispatchTimers env p2.1 fuel 0 ⟨p2.2, dio.sys.ext⟩
  ⟨dtm.sys, dio.trace ++ dtm.trace, dio.completed && dtm.completed, wait⟩

/-- Reactor-API calls a callback body may perform (register/unregister
of I/O interests and timers); used to quantify over arbitrary
well-behaved callback implementations. -/
inductive Act where
  | aRegIo (fd : Int) (events : Nat) (cb : Nat)
  | aUnregIo (id : Nat)
  | aRegTimer (period : Int) (cb : Nat)
  | aUnregTimer (id : Nat)
deriving DecidableEq, Repr

/-- Interpret one reactor-API call, emitting a registration event when a
fresh id is handed out. -/
def runAct (clk : Clk) (s : RState) : Act → RState × List Ev
  | .aRegIo fd ev cb =>
      let p := registerIo fd ev cb s
      (p.2, [Ev.regdIo p.1])
  | .aUnregIo id => (unregisterIo id s, [])
  | .aRegTimer per cb =>
      let p := registerTimer clk per cb s
      (p.2, [Ev.regdTimer p.1])
  | .aUnregTimer id => (unregisterTimer id s, [])

/-- Interpret a list of reactor-API calls in order. -/
def runActs (clk : Clk) : List Act → RState → RState × List Ev
  | [], s => (s, [])
  | a :: rest, s =>
      let p := runAct clk s a
      let q := runActs clk rest p.1
      (q.1, p.2 ++ q.2)

/-- The callback environment in which every callback body is an
arbitrary (state-dependent) sequence of reactor-API calls. -/
def actEnv (clk : Clk) (ioProg : Nat → Nat → RState → List Act)
    (tmProg : Nat → RState → List Act) : CbEnv Unit :=
  { onIo := fun cb rvts sys =>
      let p := runActs clk (ioProg cb rvts sys.rs) sys.rs
      (⟨p.1, ()⟩, p.2)
    onTimer := fun cb sys =>
      let p := runActs clk (tmProg cb sys.rs) sys.rs
      (⟨p.1, ()⟩, p.2) }

/-- A top-level operation of a reactor run: an API call made between
poll steps, or one `app_event_poll` call (with its readiness oracle and
dispatch fuel). -/
inductive ROp where
  | opAct (a : Act)
  | opPoll (block : Bool) (rv : Nat → Nat) (fuel : Nat)

/-- Run a sequence of top-level operations against the reactor, using
`actEnv` callbacks, accumulating the full event trace. -/
def runOps (clk : Clk) (ioProg : Nat → Nat → RState → List Act)
    (tmProg : Nat → RState → List Act) : List ROp → RState → RState × List Ev
  | [], s => (s, [])
  | ROp.opAct a :: rest, s =>
      let p := runAct clk s a
      let q := runOps clk ioProg tmProg rest p.1
      (q.1, p.2 ++ q.2)
  | ROp.opPoll block rv fuel :: rest, s =>
      let po := pollStep (actEnv clk ioProg tmProg) clk rv fuel block ⟨s, ()⟩
      let q := runOps clk ioProg tmProg rest po.sys.rs
      (q.1, po.trace ++ q.2)

/-! ## The asynchronous stream layer (`app-stream.c`) -/

/-- Outcome of one `read(2)`/`write(2)` call, after the transparent
`EINTR` retry loop: a non-negative transfer count, an `EAGAIN` failure,
or any other failure. -/
inductive RWOut where
  | rwOk (n : Int)
  | rwEagain
  | rwErr
deriving DecidableEq, Repr

/-- The fields of `struct app_stream` that the control flow depends on.
The data-plane fields (buffer pointers, callback pointers, user data)
are opaque to the control flow; the caller's completion callback is
modelled by the `Ev.streamDone` event.  `rdIdx`/`wrIdx` index the
syscall-outcome oracles. -/
structure StreamSt where
  readFd : Int
  readN : Int
  readIoId : Nat
  readTimeoutId : Nat
  writeFd : Int
  writeN : Int
  writeIoId : Nat
  writeTimeoutId : Nat
  rdIdx : Nat
  wrIdx : Nat
deriving DecidableEq, Repr

/-- Callback identifier for `read_io_callback`. -/
def cbReadIo : Nat := 1

/-- Callback identifier for `read_timeout_callback`. -/
def cbReadTimeout : Nat := 2

/-- Callback identifier for `write_io_callback`. -/
def cbWriteIo : Nat := 3

/-- Callback identifier for `write_timeout_callback`. -/
def cbWriteTimeout : Nat := 4

/-- `read_io_callback`: cancel the competing read timer and clear both
handle ids, then decode the readiness: hangup reports `Hup`; otherwise a
readable descriptor is read, with `EAGAIN` reported as a zero-byte `Ok`
and other failures as `IoError`; readiness without `IN` or `HUP` is an
`IoError`.  Exactly one completion callback is dispatched. -/
def readIoCb (rdO : Nat → RWOut) (revents : Nat) (sys : Sys StreamSt) :
    Sys StreamSt × List Ev :=
  let rs1 := unregisterTimer sys.ext.readTimeoutId sys.rs
  let st1 := { sys.ext with readIoId := 0, readTimeoutId := 0 }
  if revents &&& appEventHup ≠ 0 then
    (⟨rs1, st1⟩, [Ev.streamDone true AppResult.hup 0])
  else if revents &&& appEventIn ≠ 0 then
    let st2 := { st1 with rdIdx := st1.rdIdx + 1 }
    match rdO sys.ext.rdIdx with
    | RWOut.rwOk n => (⟨rs1, st2⟩, [Ev.streamDone true AppResult.ok n])
    | RWOut.rwEagain => (⟨rs1, st2⟩, [Ev.streamDone true AppResult.ok 0])
    | RWOut.rwErr => (⟨rs1, st2⟩, [Ev.streamDone true AppResult.ioError 0])
  else
    (⟨rs1, st1⟩, [Ev.streamDone true AppResult.ioError 0])

/-- `read_timeout_callback`: cancel the competing read I/O interest,
clear both handle ids, and report `Timeout`. -/
def readTimeoutCb (sys : Sys StreamSt) : Sys StreamSt × List Ev :=
  let rs1 := unregisterIo sys.ext.readIoId sys.rs
  let st1 := { sys.ext with readIoId := 0, readTimeoutId := 0 }
  (⟨rs1, st1⟩, [Ev.streamDone true AppResult.timeout 0])

/-- `write_io_callback`: the write-direction counterpart of
`read_io_callback`. -/
def writeIoCb (wrO : Nat → RWOut) (revents : Nat) (sys : Sys StreamSt) :
    Sys StreamSt × List Ev :=
  let rs1 := unregisterTimer sys.ext.writeTimeoutId sys.rs
  let st1 := { sys.ext with writeIoId := 0, writeTimeoutId := 0 }
  if revents &&& appEventHup ≠ 0 then
    (⟨rs1, st1⟩, [Ev.streamDone false AppResult.hup 0])
  else if revents &&& appEventOut ≠ 0 then
    let st2 := { st1 with wrIdx := st1.wrIdx + 1 }
    match wrO sys.ext.wrIdx with
    | RWOut.rwOk n => (⟨rs1, st2⟩, [Ev.streamDone false AppResult.ok n])
    | RWOut.rwEagain => (⟨rs1, st2⟩, [Ev.streamDone false AppResult.ok 0])
    | RWOut.rwErr => (⟨rs1, st2⟩, [Ev.streamDone false AppResult.ioError 0])
  else
    (⟨rs1, st1⟩, [Ev.streamDone false AppResult.ioError 0])

/-- `write_timeout_callback`: the write-direction counterpart of
`read_timeout_callback`. -/
def writeTimeoutCb (sys : Sys StreamSt) : Sys StreamSt × List Ev :=
  let rs1 := unregisterIo sys.ext.writeIoId sys.rs
  let st1 := { sys.ext with writeIoId := 0, writeTimeoutId := 0 }
  (⟨rs1, st1⟩, [Ev.streamDone false AppResult.timeout 0])

/-- The callback environment of a single stream: the four stream
callbacks act on the stream's state; every other callback identifier
belongs to an unrelated component and is inert with respect to this
stream and its handles. -/
def streamEnv (rdO wrO : Nat → RWOut) : CbEnv StreamSt :=
  { onIo := fun cb rvts sys =>
      if cb = cbReadIo then readIoCb rdO rvts sys
      else if cb = cbWriteIo then writeIoCb wrO rvts sys
      else (sys, [])
    onTimer := fun cb sys =>
      if cb = cbReadTimeout then readTimeoutCb sys
      else if cb = cbWriteTimeout then writeTimeoutCb sys
      else (sys, []) }

/-- `app_stream_create`: a fresh stream with no operation outstanding on
either direction. -/
def streamCreate (readFd writeFd : Int) : StreamSt :=
  ⟨readFd, 0, 0, 0, writeFd, 0, 0, 0, 0, 0⟩

/-- `app_stream_read`: `abort()` (modelled as `none`) if a read is
already outstanding; otherwise record the operation, register the read
I/O interest, and register the competing timeout timer when a timeout is
supplied (`timeoutMs` stands for `app_timeout_remaining_ms(timeout)`). -/
def streamRead (clk : Clk) (n : Int) (timeoutMs : Option Int)
    (sys : Sys StreamSt) : Option (Sys StreamSt) :=
  if sys.ext.readIoId ≠ 0 then none
  else
    let p := registerIo sys.ext.readFd appEventIn cbReadIo sys.rs
    let q : Nat × RState :=
      match timeoutMs with
      | some ms => registerTimer clk ms cbReadTimeout p.2
      | none => (0, p.2)
    some ⟨q.2, { sys.ext with readN := n, readIoId := p.1, readTimeoutId := q.1 }⟩

/-- `app_stream_write`: the write-direction counterpart of
`app_stream_read`. -/
def streamWrite (clk : Clk) (n : Int) (timeoutMs : Option Int)
    (sys : Sys StreamSt) : Option (Sys StreamSt) :=
  if sys.ext.writeIoId ≠ 0 then none
  else
    let p := registerIo sys.ext.writeFd appEventOut cbWriteIo sys.rs
    let q : Nat × RState :=
      match timeoutMs with
      | some ms => registerTimer clk ms cbWriteTimeout p.2
      | none => (0, p.2)
    some ⟨q.2, { sys.ext with writeN := n, writeIoId := p.1, writeTimeoutId := q.1 }⟩

/-- `app_stream_write_sync`: `abort()` (modelled as `none`) if an
asynchronous write is outstanding; otherwise one direct `write(2)` call,
whose raw result is returned (`-1` on any failure). -/
def streamWriteSync (wrO : Nat → RWOut) (n : Int) (sys : Sys StreamSt) :
    Option (Int × Sys StreamSt) :=
  if sys.ext.writeIoId ≠ 0 then none
  else
    let res : Int :=
      match wrO sys.ext.wrIdx with
      | RWOut.rwOk m => m
      | RWOut.rwEagain => -1
      | RWOut.rwErr => -1
    some (res, ⟨sys.rs, { sys.ext with wrIdx := sys.ext.wrIdx + 1 }⟩)

/-! ## The TCP service layer (`app-service.c`, session-list version) -/

/-- Outcome of one `accept(2)` call (after the `EINTR` retry loop). -/
inductive AcceptOut where
  | noConn
  | conn (socket : Int)
deriving DecidableEq, Repr

/-- The fields of `struct app_service` the control flow depends on.
Sessions are the doubly linked list in first-to-last order; each session
record is abstracted to (identity of the heap record, client socket).
`sidCounter` allocates record identities; `acceptIdx` indexes the
`accept(2)` outcome oracle and the session-object creation oracle. -/
structure ServiceSt where
  maxConns : Nat
  listenSocket : Int
  listenId : Nat
  sessions : List (Nat × Int)
  sessionCount : Nat
  sidCounter : Nat
  acceptIdx : Nat
deriving DecidableEq, Repr

/-- Callback identifier for the service's `accept_callback`. -/
def cbAccept : Nat := 7

/-- `schedule_accept`: register the one-shot listen interest. -/
def scheduleAccept (sys : Sys ServiceSt) : Sys ServiceSt × List Ev :=
  let p := registerIo sys.ext.listenSocket appEventIn cbAccept sys.rs
  (⟨p.2, { sys.ext with listenId := p.1 }⟩, [Ev.regdIo p.1])

/-- `cleanup_session` for a session record that never got a session
object (the create callback declined): no destroy callback, the stream
is destroyed and the socket closed. -/
def cleanupDeclined (sid : Nat) (socket : Int) : List Ev :=
  [Ev.streamDestroyed sid, Ev.sockClosed socket]

/-- `accept_callback`: on a readable listen socket, accept exactly one
connection.  Accept failure only logs; at capacity the accepted socket
is closed immediately; otherwise a record and stream are created and the
collaborator's create callback decides whether the session is linked at
the tail or torn down.  The listen interest is re-armed unconditionally
before returning. -/
def acceptCb (acceptO : Nat → AcceptOut) (createO : Nat → Bool)
    (events : Nat) (sys : Sys ServiceSt) : Sys ServiceSt × List Ev :=
  let p : Sys ServiceSt × List Ev :=
    if events &&& appEventIn ≠ 0 then
      let ext0 := { sys.ext with acceptIdx := sys.ext.acceptIdx + 1 }
      match acceptO sys.ext.acceptIdx with
      | AcceptOut.noConn => (⟨sys.rs, ext0⟩, [])
      | AcceptOut.conn skt =>
          if ext0.sessionCount ≥ ext0.maxConns then
            (⟨sys.rs, ext0⟩, [Ev.sockClosed skt])
          else
            let sid := ext0.sidCounter + 1
            let ext1 := { ext0 with sidCounter := sid }
            if createO sys.ext.acceptIdx then
              (⟨sys.rs,
                 { ext1 with
                    sessions := ext1.sessions ++ [(sid, skt)]
                    sessionCount := ext1.sessionCount + 1 }⟩,
               [Ev.streamCreated skt, Ev.svcCreateCb skt])
            else
              (⟨sys.rs, ext1⟩,
               [Ev.streamCreated skt, Ev.svcCreateCb skt] ++
                 cleanupDeclined sid skt)
    else (sys, [])
  let q := scheduleAccept ⟨p.1.rs, { p.1.ext with listenId := 0 }⟩
  (q.1, p.2 ++ q.2)

/-- `app_service_close_session`: decrement the live count, unlink the
session record, and destroy it (destroy callback, stream teardown,
socket close, record free). -/
def closeSession (p : Nat × Int) (sys : Sys ServiceSt) :
    Sys ServiceSt × List Ev :=
  (⟨sys.rs,
     { sys.ext with
        sessionCount := sys.ext.sessionCount - 1
        sessions := sys.ext.sessions.erase p }⟩,
   [Ev.svcDestroyCb p.1, Ev.streamDestroyed p.1, Ev.sockClosed p.2])

/-- The service state built by the success path of `app_service_new`,
before `schedule_accept` runs. -/
def svcInit (maxConns : Nat) (listenSocket : Int) : ServiceSt :=
  ⟨maxConns, listenSocket, 0, [], 0, 0, 0⟩

/-! ## Bind-address parsing (`app-net-utils.c`) -/

/-- The whitespace class accepted by `strtol`. -/
def isSpaceC (c : Char) : Bool :=
  c = ' ' ∨ c = '\t' ∨ c = '\n' ∨ c = '\x0b' ∨ c = '\x0c' ∨ c = '\r'

/-- Decimal digits. -/
def isDigitC (c : Char) : Bool :=
  '0' ≤ c ∧ c ≤ '9'

/-- `LONG_MAX` on the 64-bit targets this code builds for. -/
def longMax : Int := 9223372036854775807

/-- `LONG_MIN`. -/
def longMin : Int := -9223372036854775808

/-- `strtol(str, &endptr, 10)`: skip whitespace, consume an optional
sign and a maximal run of digits; with no digits the value is zero and
`endptr` is the original string; on overflow the value saturates at
`LONG_MAX`/`LONG_MIN`.  Returns the value and the unconsumed suffix
(`endptr`). -/
def strtol10 (s : List Char) : Int × List Char :=
  let afterWs := s.dropWhile isSpaceC
  let sgn : Bool × List Char :=
    match afterWs with
    | '-' :: t => (true, t)
    | '+' :: t => (false, t)
    | _ => (false, afterWs)
  let digs := sgn.2.takeWhile isDigitC
  if digs = [] then (0, s)
  else
    let v : Int :=
      Int.ofNat (digs.foldl (fun a c => a * 10 + (c.toNat - 48)) 0)
    let sv := if sgn.1 then -v else v
    let cl := if sv > longMax then longMax else if sv < longMin then longMin else sv
    (cl, sgn.2.dropWhile isDigitC)

/-- The implementation-defined `long`-to-`int` conversion performed by
`int port = strtol(...)`: reduction modulo 2^32 into
[-2^31, 2^31). -/
def toInt32 (v : Int) : Int :=
  let m := v % 4294967296
  if m ≥ 2147483648 then m - 4294967296 else m

/-- `strrchr(str_copy, ':')`: split at the last colon, when there is
one. -/
def splitLastColon : List Char → Option (List Char × List Char)
  | [] => none
  | c :: rest =>
      match splitLastColon rest with
      | some p => some (c :: p.1, p.2)
      | none => if c = ':' then some ([], rest) else none

/-- Result of `app_net_utils_str_to_addr`: the populated
`sockaddr_in` is abstracted to the resolved address and the host-order
port. -/
inductive AddrOut where
  | invalid
  | okAddr (ip : Nat) (port : Nat)
deriving DecidableEq, Repr

/-- The port-conversion and address-resolution tail of
`app_net_utils_str_to_addr`: `strtol` the port, narrow it to `int`,
range-check it, then resolve the address via `inet_pton` and, failing
that, `gethostbyname` (both external, supplied as oracles). -/
def resolvePort (pton ghbn : List Char → Option Nat)
    (address portStr : List Char) : AddrOut :=
  let p := strtol10 portStr
  let port := toInt32 p.1
  if p.2 ≠ [] ∨ port < 1 ∨ port > 65535 then AddrOut.invalid
  else
    match pton address with
    | some ip => AddrOut.okAddr ip port.toNat
    | none =>
        match ghbn address with
        | some ip => AddrOut.okAddr ip port.toNat
        | none => AddrOut.invalid

/-- `app_net_utils_str_to_addr`: copy at most 255 characters of the
input (`strncpy` into a 256-byte buffer), split at the last colon; with
no colon the whole copy is the port and the caller's default address is
substituted, or the call fails if there is none. -/
def strToAddr (pton ghbn : List Char → Option Nat) (str : List Char)
    (defaultAddress : Option (List Char)) : AddrOut :=
  let strCopy := str.take 255
  match splitLastColon strCopy with
  | some p => resolvePort pton ghbn p.1 p.2
  | none =>
      match defaultAddress with
      | some d => resolvePort pton ghbn d strCopy
      | none => AddrOut.invalid

/-- A sequence of `app_event_poll` calls (block flag, readiness oracle,
dispatch fuel) run against a fixed callback environment, accumulating
the full event trace. -/
def runPolls (env : CbEnv σ) (clk : Clk) :
    List (Bool × (Nat → Nat) × Nat) → Sys σ → Sys σ × List Ev
  | [], sys => (sys, [])
  | c :: rest, sys =>
      let po := pollStep env clk c.2.1 c.2.2 c.1 sys
      let q := runPolls env clk rest po.sys
      (q.1, po.trace ++ q.2)

/-! ## Observables and invariants -/

/-- The ids of the I/O interests dispatched in a trace. -/
def ioFiredIds (tr : List Ev) : List Nat :=
  tr.filterMap (fun e =>
    match e with
    | Ev.ioFired id _ _ => some id
    | _ => none)

/-- The ids of the timers dispatched in a trace. -/
def timerFiredIds (tr : List Ev) : List Nat :=
  tr.filterMap (fun e =>
    match e with
    | Ev.timerFired id _ => some id
    | _ => none)

/-- The handle ids handed out by `register_io`/`register_timer` calls in
a trace, in order. -/
def regIds (tr : List Ev) : List Nat :=
  tr.filterMap (fun e =>
    match e with
    | Ev.regdIo i => some i
    | Ev.regdTimer i => some i
    | _ => none)

/-- The stream completion callbacks of one direction recorded in a
trace, with their result and transfer count. -/
def streamDones (isRead : Bool) (tr : List Ev) : List (AppResult × Int) :=
  tr.filterMap (fun e =>
    match e with
    | Ev.streamDone d res n => if d = isRead then some (res, n) else none
    | _ => none)

/-- All record ids currently in the reactor's two tables (zero marks a
dead record awaiting compaction). -/
def idsOf (s : RState) : List Nat :=
  s.ios.map IORec.id ++ s.timers.map TimerRec.id

/-- The ids of the live handles: zero is the dead-record sentinel and is
never the id of a live handle. -/
def liveIds (s : RState) : List Nat :=
  (idsOf s).filter (fun n => n ≠ 0)

/-- The reactor's representation invariant: live handle ids are pairwise
distinct (across both tables — they are drawn from the one shared
counter) and never exceed the counter. -/
def Inv (s : RState) : Prop :=
  (liveIds s).Nodup ∧ ∀ n ∈ liveIds s, n ≤ s.idCounter

/-- Handle id `k` is retired as an I/O id: it was handed out (is at most
the counter) and no I/O record carries it any more, so — ids never being
reused — no I/O dispatch can ever fire it again. -/
def IoRetired (k : Nat) (s : RState) : Prop :=
  k ≠ 0 ∧ k ≤ s.idCounter ∧ ∀ r ∈ s.ios, r.id ≠ k

/-- Handle id `k` is retired as a timer id. -/
def TimerRetired (k : Nat) (s : RState) : Prop :=
  k ≠ 0 ∧ k ≤ s.idCounter ∧ ∀ r ∈ s.timers, r.id ≠ k

/-- Registration discipline of a trace segment executed between counter
values `c0` and `c1`: the ids handed out are strictly increasing and lie
in `(c0, c1]`. -/
def RegSpec (c0 c1 : Nat) (tr : List Ev) : Prop :=
  List.Pairwise (fun a b => a < b) (regIds tr) ∧
    ∀ i ∈ regIds tr, c0 < i ∧ i ≤ c1

/-- Environment obligation: every callback's trace obeys the
registration discipline between the counter values before and after the
callback, and the counter never decreases. -/
def EnvReg (env : CbEnv σ) : Prop :=
  (∀ cb rvts sys, sys.rs.idCounter ≤ (env.onIo cb rvts sys).1.rs.idCounter ∧
      RegSpec sys.rs.idCounter (env.onIo cb rvts sys).1.rs.idCounter
        (env.onIo cb rvts sys).2) ∧
  (∀ cb sys, sys.rs.idCounter ≤ (env.onTimer cb sys).1.rs.idCounter ∧
      RegSpec sys.rs.idCounter (env.onTimer cb sys).1.rs.idCounter
        (env.onTimer cb sys).2)

/-- Environment obligation: callbacks preserve the reactor invariant. -/
def EnvInv (env : CbEnv σ) : Prop :=
  (∀ cb rvts sys, Inv sys.rs → Inv (env.onIo cb rvts sys).1.rs) ∧
  (∀ cb sys, Inv sys.rs → Inv (env.onTimer cb sys).1.rs)

/-- Environment obligation: callbacks never resurrect a retired I/O id
nor a retired timer id. -/
def EnvRetire (env : CbEnv σ) : Prop :=
  (∀ k cb rvts sys, IoRetired k sys.rs → IoRetired k (env.onIo cb rvts sys).1.rs) ∧
  (∀ k cb sys, IoRetired k sys.rs → IoRetired k (env.onTimer cb sys).1.rs) ∧
  (∀ k cb rvts sys, TimerRetired k sys.rs → TimerRetired k (env.onIo cb rvts sys).1.rs) ∧
  (∀ k cb sys, TimerRetired k sys.rs → TimerRetired k (env.onTimer cb sys).1.rs)

/-- Environment obligation: callback traces contain no dispatch events
(only the reactor's dispatch loops emit those). -/
def EnvNoFired (env : CbEnv σ) : Prop :=
  (∀ cb rvts sys, ioFiredIds (env.onIo cb rvts sys).2 = [] ∧
      timerFiredIds (env.onIo cb rvts sys).2 = []) ∧
  (∀ cb sys, ioFiredIds (env.onTimer cb sys).2 = [] ∧
      timerFiredIds (env.onTimer cb sys).2 = [])

/-- Modelled from the spec (§4.1 `poll`): the minimum over all
registered timers of the non-negative remaining time until expiry; an
already-expired timer contributes zero. -/
def specMinWait (now : Int) (ts : List TimerRec) : Option Int :=
  (ts.map (fun r => max (r.expiry - now) 0)).min?

/-- Modelled from the spec (§6): the PORT component of a `[HOST:]PORT`
bind-address string as written — the part after the last colon, or the
whole string when there is no colon. -/
def portOf (str : List Char) : List Char :=
  match splitLastColon str with
  | some p => p.2
  | none => str

/-- Modelled from the spec (§6): "ports must parse as integers in
`1..=65535`" — the port string parses entirely (nothing left at
`endptr`) to a value in range. -/
def portParses (p : List Char) : Prop :=
  (strtol10 p).2 = [] ∧ 1 ≤ (strtol10 p).1 ∧ (strtol10 p).1 ≤ 65535

instance (s : RState) : Decidable (Inv s) := by
  unfold Inv
  infer_instance

instance (k : Nat) (s : RState) : Decidable (IoRetired k s) := by
  unfold IoRetired
  infer_instance

instance (k : Nat) (s : RState) : Decidable (TimerRetired k s) := by
  unfold TimerRetired
  infer_instance

instance (p : List Char) : Decidable (portParses p) := by
  unfold portParses
  infer_instance

/-- A concrete `inet_pton` oracle that resolves only the literal
`127.0.0.1`, used to instantiate the parsing theorems. -/
def ptonLoopback : List Char → Option Nat := fun s =>
  if s = "127.0.0.1".toList then some 2130706433 else none

/-- A concrete `gethostbyname` oracle that resolves nothing. -/
def ghbnNone : List Char → Option Nat := fun _ => none

/-- The service's session-accounting invariant: the live count matches
the session list and never exceeds the configured maximum. -/
def SvcInv (ext : ServiceSt) : Prop :=
  ext.sessionCount = ext.sessions.length ∧ ext.sessionCount ≤ ext.maxConns

instance (ext : ServiceSt) : Decidable (SvcInv ext) := by
  unfold SvcInv
  infer_instance

/-- Well-formedness of the read direction: any live I/O record carrying
the read callback is the stream's read interest, and any live timer
carrying the read-timeout callback is its competing timer. -/
def ReadWf (rid tid : Nat) (sys : Sys StreamSt) : Prop :=
  (∀ r ∈ sys.rs.ios, r.id ≠ 0 → r.cb = cbReadIo → r.id = rid) ∧
  (∀ t ∈ sys.rs.timers, t.id ≠ 0 → t.cb = cbReadTimeout → t.id = tid)

/-- A read operation with timeout is outstanding: the stream holds both
handle ids, both records are live in the reactor, and neither id
collides with the write direction's handles. -/
def ReadPending (rid tid : Nat) (sys : Sys StreamSt) : Prop :=
  rid ≠ 0 ∧ tid ≠ 0 ∧
  sys.ext.readIoId = rid ∧ sys.ext.readTimeoutId = tid ∧
  rid ≤ sys.rs.idCounter ∧ tid ≤ sys.rs.idCounter ∧
  (∃ r ∈ sys.rs.ios, r.id = rid ∧ r.cb = cbReadIo) ∧
  (∃ t ∈ sys.rs.timers, t.id = tid ∧ t.cb = cbReadTimeout) ∧
  sys.ext.writeIoId ≠ rid ∧ sys.ext.writeTimeoutId ≠ tid

/-- The read operation has completed: the stream's handle ids were
cleared and both handles are retired in the reactor. -/
def ReadDone (rid tid : Nat) (sys : Sys StreamSt) : Prop :=
  sys.ext.readIoId = 0 ∧ sys.ext.readTimeoutId = 0 ∧
  IoRetired rid sys.rs ∧ TimerRetired tid sys.rs

/-- Well-formedness of the write direction. -/
def WriteWf (wid wtd : Nat) (sys : Sys StreamSt) : Prop :=
  (∀ r ∈ sys.rs.ios, r.id ≠ 0 → r.cb = cbWriteIo → r.id = wid) ∧
  (∀ t ∈ sys.rs.timers, t.id ≠ 0 → t.cb = cbWriteTimeout → t.id = wtd)

/-- A write operation with timeout is outstanding. -/
def WritePending (wid wtd : Nat) (sys : Sys StreamSt) : Prop :=
  wid ≠ 0 ∧ wtd ≠ 0 ∧
  sys.ext.writeIoId = wid ∧ sys.ext.writeTimeoutId = wtd ∧
  wid ≤ sys.rs.idCounter ∧ wtd ≤ sys.rs.idCounter ∧
  (∃ r ∈ sys.rs.ios, r.id = wid ∧ r.cb = cbWriteIo) ∧
  (∃ t ∈ sys.rs.timers, t.id = wtd ∧ t.cb = cbWriteTimeout) ∧
  sys.ext.readIoId ≠ wid ∧ sys.ext.readTimeoutId ≠ wtd

/-- The write operation has completed. -/
def WriteDone (wid wtd : Nat) (sys : Sys StreamSt) : Prop :=
  sys.ext.writeIoId = 0 ∧ sys.ext.writeTimeoutId = 0 ∧
  IoRetired wid sys.rs ∧ TimerRetired wtd sys.rs

instance (rid tid : Nat) (sys : Sys StreamSt) : Decidable (ReadWf rid tid sys) := by
  unfold ReadWf
  infer_instance

instance (rid tid : Nat) (sys : Sys StreamSt) :
    Decidable (ReadPending rid tid sys) := by
  unfold ReadPending
  infer_instance

instance (rid tid : Nat) (sys : Sys StreamSt) : Decidable (ReadDone rid tid sys) := by
  unfold ReadDone
  infer_instance

instance (wid wtd : Nat) (sys : Sys StreamSt) : Decidable (WriteWf wid wtd sys) := by
  unfold WriteWf
  infer_instance

instance (wid wtd : Nat) (sys : Sys StreamSt) :
    Decidable (WritePending wid wtd sys) := by
  unfold WritePending
  infer_instance

instance (wid wtd : Nat) (sys : Sys StreamSt) :
    Decidable (WriteDone wid wtd sys) := by
  unfold WriteDone
  infer_instance

/-! ## Theorems -/

/-- C1 (divergence witness): a timer registered with period 0 from
inside another timer's callback IS dispatched within the same
`app_event_poll` call when the monotonic clock has not advanced past the
`now` snapshot taken before the timer loop: the loop bound re-reads the
growing record count and the appended record's expiry equals `now`.
Here timer 1 (callback 5) expires at 100 with the clock constant at 100;
its callback registers a zero-period timer (id 2, callback 6), and that
timer's dispatch event appears in the same poll's trace. -/
theorem zero_period_timer_fires_in_same_poll :
    Ev.timerFired 2 6 ∈
      (pollStep
        (actEnv (fun _ => 100) (fun _ _ _ => [])
          (fun cb _ => if cb = 5 then [Act.aRegTimer 0 6] else []))
        (fun _ => 100) (fun _ => 0) 10 true
        ⟨⟨1, [], [⟨1, 5, 100⟩], 0⟩, ()⟩).trace := by
  decide

/-- C5 (counterexample to the claim as stated): with one registered
timer 2^31 ms from expiry, the blocking wait is the `INT_MAX` cap, not
the minimum remaining time. -/
theorem poll_wait_not_min_remaining :
    (pollStep (actEnv (fun _ => 0) (fun _ _ _ => []) (fun _ _ => []))
        (fun _ => 0) (fun _ => 0) 5 true
        ⟨⟨1, [], [⟨1, 5, 2147483648⟩], 0⟩, ()⟩).wait = 2147483647 ∧
    specMinWait 0 [⟨1, 5, 2147483648⟩] = some 2147483648 ∧
    (2147483647 : Int) ≠ 2147483648 := by
  refine ⟨by decide, by decide, by decide⟩

/-- The timeout-computation loop is the fold of `min` over the
non-negative remaining times, for a non-negative accumulator. -/
theorem timeoutFold_eq_foldl (now : Int) :
    ∀ (ts : List TimerRec) (acc : Int), 0 ≤ acc →
      timeoutFold now ts acc =
        (ts.map (fun r => max (r.expiry - now) 0)).foldl min acc := by
  intro ts
  induction ts with
  | nil => intro acc _; simp [timeoutFold]
  | cons r rs ih =>
      intro acc hacc
      by_cases h1 : r.expiry - now < 0
      · have hm : max (r.expiry - now) 0 = 0 := by omega
        simp only [timeoutFold, if_pos h1, List.map_cons, List.foldl_cons, hm]
        rw [ih 0 le_rfl]
        have : min acc 0 = 0 := by omega
        rw [this]
      · have hm : max (r.expiry - now) 0 = r.expiry - now := by omega
        by_cases h2 : r.expiry - now < acc
        · simp only [timeoutFold, if_neg h1, if_pos h2, List.map_cons,
            List.foldl_cons, hm]
          rw [ih (r.expiry - now) (by omega)]
          have : min acc (r.expiry - now) = r.expiry - now := by omega
          rw [this]
        · simp only [timeoutFold, if_neg h1, if_neg h2, List.map_cons,
            List.foldl_cons, hm]
          rw [ih acc hacc]
          have : min acc (r.expiry - now) = acc := by omega
          rw [this]

/-- Folding `min` over a list starting from `a` computes `min a` of the
list minimum. -/
theorem foldl_min_hoist :
    ∀ (l : List Int) (a x : Int), l.foldl min (min a x) = min a (l.foldl min x) := by
  intro l
  induction l with
  | nil => intro a x; simp
  | cons y t ih =>
      intro a x
      simp only [List.foldl_cons]
      rw [min_assoc, ih]

/-- `List.min?` of a nonempty list is the fold of `min`. -/
theorem foldl_min_of_min?_eq (l : List Int) (m : Int) (h : l.min? = some m) :
    ∀ a : Int, l.foldl min a = min a m := by
  cases l with
  | nil => simp [List.min?] at h
  | cons x t =>
      simp only [List.min?] at h
      intro a
      have : min a x = min a x := rfl
      simp only [List.foldl_cons]
      have h2 := foldl_min_hoist t a x
      rw [h2, Option.some_inj.mp h]

/-- The wait computed by one poll call, extracted. -/
theorem pollStep_wait {σ : Type} (env : CbEnv σ) (clk : Clk) (rv : Nat → Nat)
    (fuel : Nat) (block : Bool) (sys : Sys σ) :
    (pollStep env clk rv fuel block sys).wait =
      if block then
        (if (gcTimers sys.rs.timers).length = 0 then -1
         else
           let w := timeoutFold (clk sys.rs.clkIdx) (gcTimers sys.rs.timers) int64Max
           if w > intMax then intMax else w)
      else 0 := by
  cases block with
  | false =>
      have h0 : ¬ ((0 : Int) > intMax) := by decide
      simp [pollStep, h0]
  | true =>
      by_cases h : (gcTimers sys.rs.timers).length = 0
      · have h1 : ¬ ((-1 : Int) > intMax) := by decide
        simp [pollStep, h, h1]
      · simp [pollStep, h, clockRead]

/-- C5 (amended): in every poll call, a non-blocking call uses a zero
wait; a blocking call with no live timers waits indefinitely (`-1`);
otherwise the wait is the minimum non-negative remaining time over the
live timers, capped above at `INT_MAX`. -/
theorem poll_wait_spec {σ : Type} (env : CbEnv σ) (clk : Clk) (rv : Nat → Nat)
    (fuel : Nat) (block : Bool) (sys : Sys σ) :
    (block = false → (pollStep env clk rv fuel block sys).wait = 0) ∧
    (block = true → gcTimers sys.rs.timers = [] →
      (pollStep env clk rv fuel block sys).wait = -1) ∧
    (block = true → ∀ m,
      specMinWait (clk sys.rs.clkIdx) (gcTimers sys.rs.timers) = some m →
      (pollStep env clk rv fuel block sys).wait = min m intMax) := by
  refine ⟨?_, ?_, ?_⟩
  · intro hb
    subst hb
    simp [pollStep_wait]
  · intro hb hts
    subst hb
    simp [pollStep_wait, hts]
  · intro hb m hm
    subst hb
    have hne : (gcTimers sys.rs.timers).length ≠ 0 := by
      intro h0
      rw [List.length_eq_zero] at h0
      rw [h0] at hm
      simp [specMinWait] at hm
    have hfold :
        timeoutFold (clk sys.rs.clkIdx) (gcTimers sys.rs.timers) int64Max =
          min int64Max m := by
      rw [timeoutFold_eq_foldl _ _ int64Max (by decide)]
      exact foldl_min_of_min?_eq _ m hm int64Max
    rw [pollStep_wait]
    simp only [if_true, if_neg hne, hfold]
    by_cases hgt : min int64Max m > intMax
    · rw [if_pos hgt]
      have hmgt : intMax < m := lt_of_lt_of_le hgt (min_le_right _ _)
      rw [min_eq_right (le_of_lt hmgt)]
    · rw [if_neg hgt]
      push_neg at hgt
      have hmin : min int64Max m = m := by
        rcases min_choice int64Max m with h | h
        · exfalso
          rw [h] at hgt
          exact absurd hgt (by decide)
        · exact h
      rw [hmin] at hgt ⊢
      rw [min_eq_left hgt]

/-- Witness for `poll_wait_spec`: a blocking poll with one live timer 50
ms out waits 50 ms. -/
theorem poll_wait_spec_witness :
    (pollStep (actEnv (fun _ => 0) (fun _ _ _ => []) (fun _ _ => []))
        (fun _ => 0) (fun _ => 0) 3 true
        ⟨⟨1, [], [⟨1, 5, 50⟩], 0⟩, ()⟩).wait = min 50 intMax :=
  (poll_wait_spec (actEnv (fun _ => 0) (fun _ _ _ => []) (fun _ _ => []))
      (fun _ => 0) (fun _ => 0) 3 true
      ⟨⟨1, [], [⟨1, 5, 50⟩], 0⟩, ()⟩).2.2 rfl 50 (by decide)

/-- C6: starting an asynchronous read while a read is outstanding,
starting an asynchronous write while a write is outstanding, or calling
`write_sync` while an asynchronous write is outstanding, hits the
`abort()` branch (modelled as `none`); when the direction is free the
abort branch is not taken and the operation registers its readiness
interest. -/
theorem stream_single_outstanding (clk : Clk) (wrO : Nat → RWOut) (n : Int)
    (tms : Option Int) (sys : Sys StreamSt) :
    (sys.ext.readIoId ≠ 0 → streamRead clk n tms sys = none) ∧
    (sys.ext.readIoId = 0 →
      ∃ s2, streamRead clk n tms sys = some s2 ∧
        s2.ext.readIoId = sys.rs.idCounter + 1 ∧ s2.ext.readIoId ≠ 0 ∧
        ∃ r, r ∈ s2.rs.ios ∧ r.id = s2.ext.readIoId ∧ r.cb = cbReadIo ∧
          r.fd = sys.ext.readFd ∧ r.events = appEventIn) ∧
    (sys.ext.writeIoId ≠ 0 → streamWrite clk n tms sys = none) ∧
    (sys.ext.writeIoId = 0 →
      ∃ s2, streamWrite clk n tms sys = some s2 ∧
        s2.ext.writeIoId = sys.rs.idCounter + 1 ∧ s2.ext.writeIoId ≠ 0 ∧
        ∃ r, r ∈ s2.rs.ios ∧ r.id = s2.ext.writeIoId ∧ r.cb = cbWriteIo ∧
          r.fd = sys.ext.writeFd ∧ r.events = appEventOut) ∧
    (sys.ext.writeIoId ≠ 0 → streamWriteSync wrO n sys = none) ∧
    (sys.ext.writeIoId = 0 → (streamWriteSync wrO n sys).isSome = true) := by
  refine ⟨?_, ?_, ?_, ?_, ?_, ?_⟩
  · intro h
    simp [streamRead, h]
  · intro h
    cases tms with
    | none =>
        refine ⟨⟨(registerIo sys.ext.readFd appEventIn cbReadIo sys.rs).2,
          { sys.ext with
              readN := n
              readIoId := (registerIo sys.ext.readFd appEventIn cbReadIo sys.rs).1
              readTimeoutId := 0 }⟩, ?_, rfl, by simp [registerIo], ?_⟩
        · simp [streamRead, h]
        · exact ⟨⟨sys.rs.idCounter + 1, sys.ext.readFd, appEventIn, 0, cbReadIo⟩,
            by simp [registerIo], rfl, rfl, rfl, rfl⟩
    | some ms =>
        refine ⟨⟨(registerTimer clk ms cbReadTimeout
              (registerIo sys.ext.readFd appEventIn cbReadIo sys.rs).2).2,
          { sys.ext with
              readN := n
              readIoId := (registerIo sys.ext.readFd appEventIn cbReadIo sys.rs).1
              readTimeoutId := (registerTimer clk ms cbReadTimeout
                (registerIo sys.ext.readFd appEventIn cbReadIo sys.rs).2).1 }⟩,
          ?_, rfl, by simp [registerIo], ?_⟩
        · simp [streamRead, h]
        · exact ⟨⟨sys.rs.idCounter + 1, sys.ext.readFd, appEventIn, 0, cbReadIo⟩,
            by simp [registerIo, registerTimer, clockRead], rfl, rfl, rfl, rfl⟩
  · intro h
    simp [streamWrite, h]
  · intro h
    cases tms with
    | none =>
        refine ⟨⟨(registerIo sys.ext.writeFd appEventOut cbWriteIo sys.rs).2,
          { sys.ext with
              writeN := n
              writeIoId := (registerIo sys.ext.writeFd appEventOut cbWriteIo sys.rs).1
              writeTimeoutId := 0 }⟩, ?_, rfl, by simp [registerIo], ?_⟩
        · simp [streamWrite, h]
        · exact ⟨⟨sys.rs.idCounter + 1, sys.ext.writeFd, appEventOut, 0, cbWriteIo⟩,
            by simp [registerIo], rfl, rfl, rfl, rfl⟩
    | some ms =>
        refine ⟨⟨(registerTimer clk ms cbWriteTimeout
              (registerIo sys.ext.writeFd appEventOut cbWriteIo sys.rs).2).2,
          { sys.ext with
              writeN := n
              writeIoId := (registerIo sys.ext.writeFd appEventOut cbWriteIo sys.rs).1
              writeTimeoutId := (registerTimer clk ms cbWriteTimeout
                (registerIo sys.ext.writeFd appEventOut cbWriteIo sys.rs).2).1 }⟩,
          ?_, rfl, by simp [registerIo], ?_⟩
        · simp [streamWrite, h]
        · exact ⟨⟨sys.rs.idCounter + 1, sys.ext.writeFd, appEventOut, 0, cbWriteIo⟩,
            by simp [registerIo, registerTimer, clockRead], rfl, rfl, rfl, rfl⟩
  · intro h
    simp [streamWriteSync, h]
  · intro h
    simp [streamWriteSync, h]

/-- Witness for `stream_single_outstanding`: a stream with a read and a
write outstanding rejects all three entry points, and a fresh stream
accepts a read. -/
theorem stream_single_outstanding_witness :
    streamRead (fun _ => 0) 1 none ⟨⟨0, [], [], 0⟩, ⟨3, 0, 5, 0, 3, 0, 7, 0, 0, 0⟩⟩ = none ∧
    streamWrite (fun _ => 0) 1 none ⟨⟨0, [], [], 0⟩, ⟨3, 0, 5, 0, 3, 0, 7, 0, 0, 0⟩⟩ = none ∧
    streamWriteSync (fun _ => RWOut.rwOk 1) 1
      ⟨⟨0, [], [], 0⟩, ⟨3, 0, 5, 0, 3, 0, 7, 0, 0, 0⟩⟩ = none ∧
    ∃ s2, streamRead (fun _ => 0) 1 none
        ⟨⟨0, [], [], 0⟩, streamCreate 3 3⟩ = some s2 ∧
      s2.ext.readIoId = 1 ∧ s2.ext.readIoId ≠ 0 ∧
      ∃ r, r ∈ s2.rs.ios ∧ r.id = s2.ext.readIoId ∧ r.cb = cbReadIo ∧
        r.fd = 3 ∧ r.events = appEventIn := by
  refine ⟨?_, ?_, ?_, ?_⟩
  · exact (stream_single_outstanding (fun _ => 0) (fun _ => RWOut.rwOk 1) 1 none
      ⟨⟨0, [], [], 0⟩, ⟨3, 0, 5, 0, 3, 0, 7, 0, 0, 0⟩⟩).1 (by decide)
  · exact (stream_single_outstanding (fun _ => 0) (fun _ => RWOut.rwOk 1) 1 none
      ⟨⟨0, [], [], 0⟩, ⟨3, 0, 5, 0, 3, 0, 7, 0, 0, 0⟩⟩).2.2.1 (by decide)
  · exact (stream_single_outstanding (fun _ => 0) (fun _ => RWOut.rwOk 1) 1 none
      ⟨⟨0, [], [], 0⟩, ⟨3, 0, 5, 0, 3, 0, 7, 0, 0, 0⟩⟩).2.2.2.2.1 (by decide)
  · exact (stream_single_outstanding (fun _ => 0) (fun _ => RWOut.rwOk 1) 1 none
      ⟨⟨0, [], [], 0⟩, streamCreate 3 3⟩).2.1 (by decide)

/-- C7: when a stream readiness handler runs with the direction
readable/writable (no hangup) and the transfer call fails with `EAGAIN`,
the operation completes as `Ok` with zero bytes: exactly one completion
callback, no error surfaced, the operation cleared, and no internal
retry (the I/O table is left untouched — in particular no re-registered
interest). -/
theorem eagain_is_zero_byte_ok (rdO wrO : Nat → RWOut) (rvts : Nat)
    (sysR sysW : Sys StreamSt) :
    (rvts &&& appEventHup = 0 → rvts &&& appEventIn ≠ 0 →
      rdO sysR.ext.rdIdx = RWOut.rwEagain →
      (readIoCb rdO rvts sysR).2 = [Ev.streamDone true AppResult.ok 0] ∧
      (readIoCb rdO rvts sysR).1.rs.ios = sysR.rs.ios ∧
      (readIoCb rdO rvts sysR).1.ext.readIoId = 0 ∧
      (readIoCb rdO rvts sysR).1.ext.readTimeoutId = 0) ∧
    (rvts &&& appEventHup = 0 → rvts &&& appEventOut ≠ 0 →
      wrO sysW.ext.wrIdx = RWOut.rwEagain →
      (writeIoCb wrO rvts sysW).2 = [Ev.streamDone false AppResult.ok 0] ∧
      (writeIoCb wrO rvts sysW).1.rs.ios = sysW.rs.ios ∧
      (writeIoCb wrO rvts sysW).1.ext.writeIoId = 0 ∧
      (writeIoCb wrO rvts sysW).1.ext.writeTimeoutId = 0) := by
  constructor
  · intro h1 h2 h3
    simp [readIoCb, h1, h2, h3, unregisterTimer]
  · intro h1 h2 h3
    simp [writeIoCb, h1, h2, h3, unregisterTimer]

/-- Witness for `eagain_is_zero_byte_ok`: a readable-and-writable
readiness mask with `EAGAIN` oracles on a concrete stream. -/
theorem eagain_is_zero_byte_ok_witness :
    (readIoCb (fun _ => RWOut.rwEagain) 1 ⟨⟨0, [], [], 0⟩, streamCreate 3 3⟩).2 =
      [Ev.streamDone true AppResult.ok 0] ∧
    (writeIoCb (fun _ => RWOut.rwEagain) 4 ⟨⟨0, [], [], 0⟩, streamCreate 3 3⟩).2 =
      [Ev.streamDone false AppResult.ok 0] := by
  constructor
  · exact ((eagain_is_zero_byte_ok (fun _ => RWOut.rwEagain) (fun _ => RWOut.rwEagain)
      1 ⟨⟨0, [], [], 0⟩, streamCreate 3 3⟩ ⟨⟨0, [], [], 0⟩, streamCreate 3 3⟩).1
      (by decide) (by decide) (by decide)).1
  · exact ((eagain_is_zero_byte_ok (fun _ => RWOut.rwEagain) (fun _ => RWOut.rwEagain)
      4 ⟨⟨0, [], [], 0⟩, streamCreate 3 3⟩ ⟨⟨0, [], [], 0⟩, streamCreate 3 3⟩).2
      (by decide) (by decide) (by decide)).1

/-- The timer-marking loop does nothing when no record matches. -/
theorem unregTimerList_of_not_mem (l : List TimerRec) (k : Nat) :
    (∀ r ∈ l, r.id ≠ k) → unregTimerList l k = l := by
  induction l with
  | nil => intro _; rfl
  | cons r t ih =>
      intro h
      have h1 : r.id ≠ k := h r (List.mem_cons_self r t)
      have h2 : ∀ x ∈ t, x.id ≠ k := fun x hx => h x (List.mem_cons_of_mem r hx)
      simp only [unregTimerList, List.map_cons, if_neg h1]
      have h3 := ih h2
      simp only [unregTimerList] at h3
      rw [h3]

/-- The I/O-marking loop does nothing when no record matches. -/
theorem unregIoList_of_not_mem (l : List IORec) (k : Nat) :
    (∀ r ∈ l, r.id ≠ k) → unregIoList l k = l := by
  induction l with
  | nil => intro _; rfl
  | cons r t ih =>
      intro h
      have h1 : r.id ≠ k := h r (List.mem_cons_self r t)
      have h2 : ∀ x ∈ t, x.id ≠ k := fun x hx => h x (List.mem_cons_of_mem r hx)
      simp only [unregIoList, if_neg h1]
      rw [ih h2]

/-- `app_event_unregister_timer` on an id no timer record carries leaves
the state unchanged. -/
theorem unregisterTimer_eq_self (k : Nat) (s : RState)
    (h : ∀ r ∈ s.timers, r.id ≠ k) : unregisterTimer k s = s := by
  unfold unregisterTimer
  rw [unregTimerList_of_not_mem _ _ h]

/-- `app_event_unregister_io` on an id no I/O record carries leaves the
state unchanged. -/
theorem unregisterIo_eq_self (k : Nat) (s : RState)
    (h : ∀ r ∈ s.ios, r.id ≠ k) : unregisterIo k s = s := by
  unfold unregisterIo
  rw [unregIoList_of_not_mem _ _ h]

/-- Under the invariant, a live I/O id never coincides with any timer
record's id. -/
theorem inv_cross_disjoint (s : RState) (hInv : Inv s) :
    ∀ io ∈ s.ios, io.id ≠ 0 → ∀ t ∈ s.timers, io.id ≠ t.id := by
  intro io hio hne t ht heq
  obtain ⟨hnd, _⟩ := hInv
  rw [liveIds, idsOf, List.filter_append, List.nodup_append] at hnd
  obtain ⟨_, _, hdisj⟩ := hnd
  have hmem1 : io.id ∈ (s.ios.map IORec.id).filter (fun n => n ≠ 0) := by
    rw [List.mem_filter]
    exact ⟨List.mem_map_of_mem IORec.id hio, by simpa using hne⟩
  have hmem2 : io.id ∈ (s.timers.map TimerRec.id).filter (fun n => n ≠ 0) := by
    rw [List.mem_filter]
    refine ⟨?_, by simpa using hne⟩
    rw [heq]
    exact List.mem_map_of_mem TimerRec.id ht
  exact hdisj hmem1 hmem2

/-- C10: I/O interests and timers draw ids from the one shared counter,
so under the reactor invariant no live I/O handle shares its id with any
timer record; consequently `unregister_timer` on a live I/O handle's id,
and `unregister_io` on a live timer's id, leave the state unchanged. -/
theorem shared_counter_unregister_noop (s : RState) (hInv : Inv s) :
    (∀ io ∈ s.ios, io.id ≠ 0 → ∀ t ∈ s.timers, io.id ≠ t.id) ∧
    (∀ k, k ≠ 0 → (∃ r ∈ s.ios, r.id = k) → unregisterTimer k s = s) ∧
    (∀ k, k ≠ 0 → (∃ t ∈ s.timers, t.id = k) → unregisterIo k s = s) := by
  refine ⟨inv_cross_disjoint s hInv, ?_, ?_⟩
  · rintro k hk ⟨r, hr, hrk⟩
    subst hrk
    apply unregisterTimer_eq_self
    intro t ht htk
    exact inv_cross_disjoint s hInv r hr hk t ht htk.symm
  · rintro k hk ⟨t, ht, htk⟩
    subst htk
    apply unregisterIo_eq_self
    intro r hr hrk
    have hr0 : r.id ≠ 0 := by
      rw [hrk]
      exact hk
    exact inv_cross_disjoint s hInv r hr hr0 t ht hrk

/-- Witness for `shared_counter_unregister_noop`: a state with live I/O
handle 1 and live timer 2. -/
theorem shared_counter_unregister_noop_witness :
    unregisterTimer 1 ⟨2, [⟨1, 3, 1, 0, 9⟩], [⟨2, 8, 50⟩], 0⟩ =
      (⟨2, [⟨1, 3, 1, 0, 9⟩], [⟨2, 8, 50⟩], 0⟩ : RState) ∧
    unregisterIo 2 ⟨2, [⟨1, 3, 1, 0, 9⟩], [⟨2, 8, 50⟩], 0⟩ =
      (⟨2, [⟨1, 3, 1, 0, 9⟩], [⟨2, 8, 50⟩], 0⟩ : RState) := by
  constructor
  · exact (shared_counter_unregister_noop ⟨2, [⟨1, 3, 1, 0, 9⟩], [⟨2, 8, 50⟩], 0⟩
      (by decide)).2.1 1 (by decide) ⟨⟨1, 3, 1, 0, 9⟩, by decide, rfl⟩
  · exact (shared_counter_unregister_noop ⟨2, [⟨1, 3, 1, 0, 9⟩], [⟨2, 8, 50⟩], 0⟩
      (by decide)).2.2 2 (by decide) ⟨⟨2, 8, 50⟩, by decide, rfl⟩

/-- C9 (counterexample to the claim as stated): the input
`127.0.0.1:4294967377` is accepted as port 81 — `strtol` returns
4294967377 and the `int port = strtol(...)` narrowing wraps it modulo
2^32 — although its PORT component does not parse as an integer in
1..65535. -/
theorem port_wraparound_accepted :
    strToAddr ptonLoopback ghbnNone ("127.0.0.1:4294967377".toList) none =
      AddrOut.okAddr 2130706433 81 ∧
    ¬ portParses (portOf ("127.0.0.1:4294967377".toList)) := by
  constructor
  · decide
  · decide

/-- The `long`-to-`int` narrowing is the identity on values that fit. -/
theorem toInt32_eq_self (v : Int) (h1 : -2147483648 ≤ v)
    (h2 : v < 2147483648) : toInt32 v = v := by
  have h : toInt32 v =
      if v % 4294967296 ≥ 2147483648 then v % 4294967296 - 4294967296
      else v % 4294967296 := rfl
  rw [h]
  split_ifs with hv <;> omega

/-- C9 (amended): for bind-address inputs shorter than 256 characters
whose `strtol` port value fits in a 32-bit int: if HOST is omitted and
no default applies the input is rejected with the invalid-argument
result; if HOST is omitted and a default address is supplied, the
default is what gets resolved; and the input is accepted only if its
PORT component parses entirely (under `strtol` semantics) as an integer
in 1..65535, which is then the bound port. -/
theorem bind_address_parse (pton ghbn : List Char → Option Nat)
    (str : List Char) (hlen : str.length < 256) :
    (splitLastColon str = none → strToAddr pton ghbn str none = AddrOut.invalid) ∧
    (splitLastColon str = none → ∀ d,
      strToAddr pton ghbn str (some d) = AddrOut.invalid ∨
      ∃ ip p, strToAddr pton ghbn str (some d) = AddrOut.okAddr ip p ∧
        (pton d = some ip ∨ (pton d = none ∧ ghbn d = some ip))) ∧
    (∀ dflt ip p, -2147483648 ≤ (strtol10 (portOf str)).1 →
      (strtol10 (portOf str)).1 < 2147483648 →
      strToAddr pton ghbn str dflt = AddrOut.okAddr ip p →
      portParses (portOf str) ∧ p = (strtol10 (portOf str)).1.toNat) := by
  have htake : str.take 255 = str := List.take_of_length_le (by omega)
  refine ⟨?_, ?_, ?_⟩
  · intro hsc
    simp [strToAddr, htake, hsc]
  · intro hsc d
    simp only [strToAddr, htake, hsc]
    by_cases hrej : (strtol10 str).2 ≠ [] ∨ toInt32 (strtol10 str).1 < 1 ∨
        toInt32 (strtol10 str).1 > 65535
    · left
      simp [resolvePort, hrej]
    · cases hp : pton d with
      | some ip =>
          right
          exact ⟨ip, (toInt32 (strtol10 str).1).toNat,
            by simp [resolvePort, hrej, hp], Or.inl rfl⟩
      | none =>
          cases hg : ghbn d with
          | some ip =>
              right
              exact ⟨ip, (toInt32 (strtol10 str).1).toNat,
                by simp [resolvePort, hrej, hp, hg], Or.inr ⟨rfl, rfl⟩⟩
          | none =>
              left
              simp [resolvePort, hrej, hp, hg]
  · intro dflt ip p hb1 hb2 hok
    have hval : ∀ a ps, portOf str = ps →
        resolvePort pton ghbn a ps = AddrOut.okAddr ip p →
        portParses (portOf str) ∧ p = (strtol10 (portOf str)).1.toNat := by
      intro a ps hps hres
      subst hps
      by_cases hrej : (strtol10 (portOf str)).2 ≠ [] ∨
          toInt32 (strtol10 (portOf str)).1 < 1 ∨
          toInt32 (strtol10 (portOf str)).1 > 65535
      · simp [resolvePort, hrej] at hres
      · push_neg at hrej
        obtain ⟨he, h1, h2⟩ := hrej
        have hid : toInt32 (strtol10 (portOf str)).1 = (strtol10 (portOf str)).1 :=
          toInt32_eq_self _ hb1 hb2
        rw [hid] at h1 h2
        refine ⟨⟨he, h1, h2⟩, ?_⟩
        have hrej2 : ¬ ((strtol10 (portOf str)).2 ≠ [] ∨
            toInt32 (strtol10 (portOf str)).1 < 1 ∨
            toInt32 (strtol10 (portOf str)).1 > 65535) := by
          rw [hid]
          push_neg
          exact ⟨he, h1, h2⟩
        simp only [resolvePort, if_neg hrej2] at hres
        rw [hid] at hres
        cases hp : pton a with
        | some ip2 =>
            rw [hp] at hres
            cases hres
            rfl
        | none =>
            rw [hp] at hres
            cases hg : ghbn a with
            | some ip2 =>
                rw [hg] at hres
                cases hres
                rfl
            | none =>
                rw [hg] at hres
                cases hres
    cases hsc : splitLastColon str with
    | some pr =>
        have hps : portOf str = pr.2 := by
          simp [portOf, hsc]
        simp only [strToAddr, htake, hsc] at hok
        exact hval pr.1 pr.2 hps hok
    | none =>
        have hps : portOf str = str := by
          simp [portOf, hsc]
        simp only [strToAddr, htake, hsc] at hok
        cases dflt with
        | some d =>
            simp only [] at hok
            exact hval d str hps hok
        | none => cases hok

/-- Witness for `bind_address_parse`: `127.0.0.1:80` is accepted and its
port parses to 80; a bare `80` with no default is rejected. -/
theorem bind_address_parse_witness :
    (portParses (portOf ("127.0.0.1:80".toList)) ∧
      80 = ((strtol10 (portOf ("127.0.0.1:80".toList))).1.toNat)) ∧
    strToAddr ptonLoopback ghbnNone ("80".toList) none = AddrOut.invalid := by
  constructor
  · exact (bind_address_parse ptonLoopback ghbnNone ("127.0.0.1:80".toList)
      (by decide)).2.2 none 2130706433 80 (by decide) (by decide) (by decide)
  · exact (bind_address_parse ptonLoopback ghbnNone ("80".toList)
      (by decide)).1 (by decide)

/-- C4: a freshly created service satisfies the session-accounting
invariant; the invariant (live count equals the session list, never
exceeding the maximum) is preserved by every accept event and by every
session closure; and a connection arriving while the count equals the
maximum is accepted at the socket level (the accept call is consumed)
and its socket immediately closed, with no stream created, no
session-create callback invoked, and the session list and count
unchanged — only the listen interest is re-armed. -/
theorem service_capacity (m : Nat) (lskt : Int) (acceptO : Nat → AcceptOut)
    (createO : Nat → Bool) (events : Nat) (sys : Sys ServiceSt)
    (p : Nat × Int) (skt : Int) :
    SvcInv (svcInit m lskt) ∧
    (SvcInv sys.ext → SvcInv (acceptCb acceptO createO events sys).1.ext) ∧
    (SvcInv sys.ext → p ∈ sys.ext.sessions →
      SvcInv (closeSession p sys).1.ext) ∧
    (sys.ext.sessionCount = sys.ext.maxConns →
      events &&& appEventIn ≠ 0 →
      acceptO sys.ext.acceptIdx = AcceptOut.conn skt →
      (acceptCb acceptO createO events sys).2 =
        [Ev.sockClosed skt, Ev.regdIo (sys.rs.idCounter + 1)] ∧
      (acceptCb acceptO createO events sys).1.ext.sessions = sys.ext.sessions ∧
      (acceptCb acceptO createO events sys).1.ext.sessionCount =
        sys.ext.sessionCount ∧
      (acceptCb acceptO createO events sys).1.ext.acceptIdx =
        sys.ext.acceptIdx + 1 ∧
      (∀ s, Ev.streamCreated s ∉ (acceptCb acceptO createO events sys).2) ∧
      (∀ s, Ev.svcCreateCb s ∉ (acceptCb acceptO createO events sys).2)) := by
  refine ⟨⟨rfl, Nat.zero_le m⟩, ?_, ?_, ?_⟩
  · intro hInv
    obtain ⟨hlen, hmax⟩ := hInv
    by_cases hIn : events &&& appEventIn ≠ 0
    · cases hacc : acceptO sys.ext.acceptIdx with
      | noConn =>
          simp [acceptCb, hIn, hacc, scheduleAccept, SvcInv]
          omega
      | conn s =>
          by_cases hge : sys.ext.sessionCount ≥ sys.ext.maxConns
          · simp [acceptCb, hIn, hacc, hge, scheduleAccept, SvcInv]
            omega
          · by_cases hcr : createO sys.ext.acceptIdx
            · simp [acceptCb, hIn, hacc, hge, hcr, scheduleAccept, SvcInv]
              omega
            · simp [acceptCb, hIn, hacc, hge, hcr, scheduleAccept, SvcInv,
                cleanupDeclined]
              omega
    · simp [acceptCb, hIn, scheduleAccept, SvcInv]
      omega
  · intro hInv hmem
    obtain ⟨hlen, hmax⟩ := hInv
    have herase := List.length_erase_of_mem hmem
    simp [closeSession, SvcInv]
    constructor
    · rw [herase]
      have : 0 < sys.ext.sessions.length := List.length_pos_of_mem hmem
      omega
    · omega
  · intro hcap hIn hacc
    have hge : sys.ext.sessionCount ≥ sys.ext.maxConns := le_of_eq hcap.symm
    refine ⟨?_, ?_, ?_, ?_, ?_, ?_⟩ <;>
      simp [acceptCb, hIn, hacc, hge, scheduleAccept, registerIo]

/-- Witness for `service_capacity`: a one-connection service at capacity
closes the next accepted socket without touching its session list. -/
theorem service_capacity_witness :
    (acceptCb (fun _ => AcceptOut.conn 9) (fun _ => true) 1
        ⟨⟨0, [], [], 0⟩, ⟨1, 4, 1, [(1, 8)], 1, 1, 0⟩⟩).2 =
      [Ev.sockClosed 9, Ev.regdIo 1] ∧
    (acceptCb (fun _ => AcceptOut.conn 9) (fun _ => true) 1
        ⟨⟨0, [], [], 0⟩, ⟨1, 4, 1, [(1, 8)], 1, 1, 0⟩⟩).1.ext.sessions =
      [(1, 8)] := by
  constructor
  · exact ((service_capacity 1 4 (fun _ => AcceptOut.conn 9) (fun _ => true) 1
      ⟨⟨0, [], [], 0⟩, ⟨1, 4, 1, [(1, 8)], 1, 1, 0⟩⟩ (1, 8) 9).2.2.2
      (by decide) (by decide) (by decide)).1
  · exact ((service_capacity 1 4 (fun _ => AcceptOut.conn 9) (fun _ => true) 1
      ⟨⟨0, [], [], 0⟩, ⟨1, 4, 1, [(1, 8)], 1, 1, 0⟩⟩ (1, 8) 9).2.2.2
      (by decide) (by decide) (by decide)).2.1

/-! ### List-level helpers for the reactor invariant -/

/-- Subpermutations are preserved by `map`. -/
theorem subperm_map (f : α → β) {l₁ l₂ : List α} (h : l₁ <+~ l₂) :
    l₁.map f <+~ l₂.map f := by
  obtain ⟨m, hp, hs⟩ := h
  exact ⟨m.map f, hp.map f, hs.map f⟩

/-- Subpermutations preserve `Nodup` downwards. -/
theorem subperm_nodup {l₁ l₂ : List α} (h : l₁ <+~ l₂) (hn : l₂.Nodup) :
    l₁.Nodup := by
  obtain ⟨m, hp, hs⟩ := h
  exact hp.nodup_iff.mp (hn.sublist hs)

/-- Subpermutations are inclusions on members. -/
theorem subperm_subset {l₁ l₂ : List α} (h : l₁ <+~ l₂) :
    ∀ a ∈ l₁, a ∈ l₂ := by
  obtain ⟨m, hp, hs⟩ := h
  intro a ha
  exact hs.mem (hp.mem_iff.mpr ha)

/-- Zeroing one position only shrinks the nonzero-filtered view. -/
theorem filter_set_zero_sublist :
    ∀ (A : List Nat) (i : Nat),
      (A.set i 0).filter (fun n => n ≠ 0) <+ A.filter (fun n => n ≠ 0) := by
  intro A
  induction A with
  | nil => intro i; simp
  | cons a t ih =>
      intro i
      cases i with
      | zero =>
          simp only [List.set_cons_zero, List.filter_cons]
          have h0 : (decide ((0 : Nat) ≠ 0)) = false := by decide
          rw [h0]
          by_cases ha : a ≠ 0
          · simp only [decide_eq_true ha]
            exact (List.sublist_cons_self a _).trans
              (List.Sublist.cons₂ a (List.Sublist.refl _))
          · push_neg at ha
            subst ha
            rw [h0]
      | succ j =>
          simp only [List.set_cons_succ, List.filter_cons]
          by_cases ha : a ≠ 0
          · simp only [decide_eq_true ha]
            exact List.Sublist.cons₂ a (ih j)
          · push_neg at ha
            subst ha
            have h0 : (decide ((0 : Nat) ≠ 0)) = false := by decide
            rw [h0]
            exact ih j

/-- Marking the first matching I/O record only shrinks the live-id
view. -/
theorem unregIoList_ids_sublist :
    ∀ (l : List IORec) (k : Nat),
      ((unregIoList l k).map IORec.id).filter (fun n => n ≠ 0) <+
        ((l.map IORec.id).filter (fun n => n ≠ 0)) := by
  intro l
  induction l with
  | nil => intro k; simp [unregIoList]
  | cons r t ih =>
      intro k
      by_cases hr : r.id = k
      · simp only [unregIoList, if_pos hr, List.map_cons, List.filter_cons]
        have h0 : (decide ((0 : Nat) ≠ 0)) = false := by decide
        rw [h0]
        by_cases hk : r.id ≠ 0
        · simp only [decide_eq_true hk]
          exact List.sublist_cons_self r.id _
        · push_neg at hk
          rw [hk]
          rw [h0]
      · simp only [unregIoList, if_neg hr, List.map_cons, List.filter_cons]
        by_cases hk : r.id ≠ 0
        · simp only [decide_eq_true hk]
          exact List.Sublist.cons₂ r.id (ih k)
        · push_neg at hk
          rw [hk]
          have h0 : (decide ((0 : Nat) ≠ 0)) = false := by decide
          rw [h0]
          exact ih k

/-- Marking every matching timer record only shrinks the live-id
view. -/
theorem unregTimerList_ids_sublist :
    ∀ (l : List TimerRec) (k : Nat),
      ((unregTimerList l k).map TimerRec.id).filter (fun n => n ≠ 0) <+
        ((l.map TimerRec.id).filter (fun n => n ≠ 0)) := by
  intro l
  induction l with
  | nil => intro k; simp [unregTimerList]
  | cons r t ih =>
      intro k
      by_cases hr : r.id = k
      · simp only [unregTimerList, List.map_cons, if_pos hr, List.filter_cons]
        have h0 : (decide ((0 : Nat) ≠ 0)) = false := by decide
        rw [h0]
        by_cases hk : r.id ≠ 0
        · simp only [decide_eq_true hk]
          have h2 := ih k
          simp only [unregTimerList] at h2
          exact h2.trans (List.sublist_cons_self r.id _)
        · push_neg at hk
          rw [hk, h0]
          have h2 := ih k
          simp only [unregTimerList] at h2
          exact h2
      · simp only [unregTimerList, List.map_cons, if_neg hr, List.filter_cons]
        by_cases hk : r.id ≠ 0
        · simp only [decide_eq_true hk]
          have h2 := ih k
          simp only [unregTimerList] at h2
          exact List.Sublist.cons₂ r.id h2
        · push_neg at hk
          rw [hk]
          have h0 : (decide ((0 : Nat) ≠ 0)) = false := by decide
          rw [h0]
          have h2 := ih k
          simp only [unregTimerList] at h2
          exact h2

/-- Marking records (either loop) never introduces a given nonzero
id. -/
theorem unregIoList_keep_ne (l : List IORec) (k j : Nat) (hj : j ≠ 0)
    (h : ∀ r ∈ l, r.id ≠ j) : ∀ q ∈ unregIoList l k, q.id ≠ j := by
  induction l with
  | nil => intro q hq; cases hq
  | cons r t ih =>
      intro q hq
      have ht : ∀ x ∈ t, x.id ≠ j := fun x hx => h x (List.mem_cons_of_mem r hx)
      by_cases hr : r.id = k
      · rw [unregIoList, if_pos hr] at hq
        rcases List.mem_cons.mp hq with hq | hq
        · rw [hq]
          exact fun hc => hj hc.symm
        · exact ht q hq
      · rw [unregIoList, if_neg hr] at hq
        rcases List.mem_cons.mp hq with hq | hq
        · rw [hq]
          exact h r (List.mem_cons_self r t)
        · exact ih ht q hq

/-- The timer-marking loop never introduces a given nonzero id. -/
theorem unregTimerList_keep_ne (l : List TimerRec) (k j : Nat) (hj : j ≠ 0)
    (h : ∀ r ∈ l, r.id ≠ j) : ∀ q ∈ unregTimerList l k, q.id ≠ j := by
  intro q hq
  rw [unregTimerList, List.mem_map] at hq
  obtain ⟨r, hr, hrq⟩ := hq
  by_cases hk : r.id = k
  · rw [if_pos hk] at hrq
    rw [← hrq]
    exact fun hc => hj hc.symm
  · rw [if_neg hk] at hrq
    rw [← hrq]
    exact h r hr

/-- A value appearing at two distinct positions has count at least
two. -/
theorem two_le_count_of_get (A : List Nat) (k : Nat) :
    ∀ (j1 j2 : Nat) (h1 : j1 < A.length) (h2 : j2 < A.length), j1 < j2 →
      A.get ⟨j1, h1⟩ = k → A.get ⟨j2, h2⟩ = k → 2 ≤ A.count k := by
  intro j1 j2 h1 h2 hlt e1 e2
  have hAt : ∀ (m : Nat) (hm : m < A.length), m = j1 ∨ m = j2 → A[m] = k := by
    intro m hm he
    rcases he with he | he <;> subst he
    · exact e1
    · exact e2
  have hsub : [k, k] <+ A := by
    have hsplit : A.take (j1 + 1) ++ A.drop (j1 + 1) = A := A.take_append_drop (j1 + 1)
    have hk1 : k ∈ A.take (j1 + 1) := by
      rw [List.mem_iff_getElem]
      refine ⟨j1, by rw [List.length_take]; omega, ?_⟩
      rw [← List.getElem_take' A h1 (by omega)]
      exact hAt j1 h1 (Or.inl rfl)
    have hk2 : k ∈ A.drop (j1 + 1) := by
      rw [List.mem_iff_getElem]
      have hlen : j2 - (j1 + 1) < (A.drop (j1 + 1)).length := by
        rw [List.length_drop]
        omega
      refine ⟨j2 - (j1 + 1), hlen, ?_⟩
      rw [List.getElem_drop]
      exact hAt _ (by omega) (Or.inr (by omega))
    have hs1 : [k] <+ A.take (j1 + 1) := List.singleton_sublist.mpr hk1
    have hs2 : [k] <+ A.drop (j1 + 1) := List.singleton_sublist.mpr hk2
    have := hs1.append hs2
    rw [hsplit] at this
    exact this
  have := hsub.count_le k
  simp at this
  omega

/-! ### Invariant preservation by the reactor primitives -/

/-- `liveIds`, split across the two tables. -/
theorem liveIds_eq (s : RState) :
    liveIds s = (s.ios.map IORec.id).filter (fun n => n ≠ 0) ++
      (s.timers.map TimerRec.id).filter (fun n => n ≠ 0) := by
  rw [liveIds, idsOf, List.filter_append]

/-- The live ids handed to `registerIo`'s successor state. -/
theorem liveIds_registerIo (fd : Int) (ev cb : Nat) (s : RState) :
    liveIds (registerIo fd ev cb s).2 =
      (s.ios.map IORec.id).filter (fun n => n ≠ 0) ++
        (s.idCounter + 1) ::
          (s.timers.map TimerRec.id).filter (fun n => n ≠ 0) := by
  rw [liveIds_eq]
  simp [registerIo]

/-- The live ids of `registerTimer`'s successor state. -/
theorem liveIds_registerTimer (clk : Clk) (per : Int) (cb : Nat) (s : RState) :
    liveIds (registerTimer clk per cb s).2 =
      (s.ios.map IORec.id).filter (fun n => n ≠ 0) ++
        ((s.timers.map TimerRec.id).filter (fun n => n ≠ 0) ++
          [s.idCounter + 1]) := by
  rw [liveIds_eq]
  simp [registerTimer, clockRead]

/-- `register_io` preserves the invariant; the returned id is the
incremented counter. -/
theorem inv_registerIo (fd : Int) (ev cb : Nat) (s : RState) (h : Inv s) :
    Inv (registerIo fd ev cb s).2 := by
  obtain ⟨hnd, hle⟩ := h
  rw [liveIds_eq] at hnd
  constructor
  · rw [liveIds_registerIo]
    refine (List.perm_middle).nodup_iff.mpr (List.nodup_cons.mpr ⟨?_, hnd⟩)
    intro hmem
    have hb : s.idCounter + 1 ≤ s.idCounter := by
      apply hle
      rw [liveIds_eq]
      exact hmem
    omega
  · intro n hn
    rw [liveIds_registerIo] at hn
    have hc : (registerIo fd ev cb s).2.idCounter = s.idCounter + 1 := rfl
    rw [hc]
    rcases List.mem_append.mp hn with hn | hn
    · have : n ≤ s.idCounter := by
        apply hle
        rw [liveIds_eq]
        exact List.mem_append_left _ hn
      omega
    · rcases List.mem_cons.mp hn with hn | hn
      · omega
      · have : n ≤ s.idCounter := by
          apply hle
          rw [liveIds_eq]
          exact List.mem_append_right _ hn
        omega

/-- `register_timer` preserves the invariant. -/
theorem inv_registerTimer (clk : Clk) (per : Int) (cb : Nat) (s : RState)
    (h : Inv s) : Inv (registerTimer clk per cb s).2 := by
  obtain ⟨hnd, hle⟩ := h
  rw [liveIds_eq] at hnd
  constructor
  · rw [liveIds_registerTimer, ← List.append_assoc]
    have hperm := List.perm_append_singleton (s.idCounter + 1)
      ((s.ios.map IORec.id).filter (fun n => n ≠ 0) ++
        (s.timers.map TimerRec.id).filter (fun n => n ≠ 0))
    refine hperm.nodup_iff.mpr (List.nodup_cons.mpr ⟨?_, hnd⟩)
    intro hmem
    have hb : s.idCounter + 1 ≤ s.idCounter := by
      apply hle
      rw [liveIds_eq]
      exact hmem
    omega
  · intro n hn
    rw [liveIds_registerTimer] at hn
    have hc : (registerTimer clk per cb s).2.idCounter = s.idCounter + 1 := rfl
    rw [hc]
    rcases List.mem_append.mp hn with hn | hn
    · have : n ≤ s.idCounter := by
        apply hle
        rw [liveIds_eq]
        exact List.mem_append_left _ hn
      omega
    · rcases List.mem_append.mp hn with hn | hn
      · have : n ≤ s.idCounter := by
          apply hle
          rw [liveIds_eq]
          exact List.mem_append_right _ hn
        omega
      · rcases List.mem_singleton.mp hn with rfl
        omega

/-- `unregister_io` preserves the invariant. -/
theorem inv_unregisterIo (k : Nat) (s : RState) (h : Inv s) :
    Inv (unregisterIo k s) := by
  obtain ⟨hnd, hle⟩ := h
  rw [liveIds_eq] at hnd
  have hsub := (unregIoList_ids_sublist s.ios k).append_right
    ((s.timers.map TimerRec.id).filter (fun n => n ≠ 0))
  constructor
  · rw [liveIds_eq]
    exact hnd.sublist hsub
  · intro n hn
    rw [liveIds_eq] at hn
    have : n ∈ liveIds s := by
      rw [liveIds_eq]
      exact hsub.mem hn
    exact hle n this

/-- `unregister_timer` preserves the invariant. -/
theorem inv_unregisterTimer (k : Nat) (s : RState) (h : Inv s) :
    Inv (unregisterTimer k s) := by
  obtain ⟨hnd, hle⟩ := h
  rw [liveIds_eq] at hnd
  have hsub := (unregTimerList_ids_sublist s.timers k).append_left
    ((s.ios.map IORec.id).filter (fun n => n ≠ 0))
  constructor
  · rw [liveIds_eq]
    exact hnd.sublist hsub
  · intro n hn
    rw [liveIds_eq] at hn
    have : n ∈ liveIds s := by
      rw [liveIds_eq]
      exact hsub.mem hn
    exact hle n this

/-- Retired I/O ids stay retired across each primitive. -/
theorem retired_io_registerIo (k : Nat) (fd : Int) (ev cb : Nat) (s : RState)
    (h : IoRetired k s) : IoRetired k (registerIo fd ev cb s).2 := by
  obtain ⟨h0, hle, hno⟩ := h
  refine ⟨h0, by simp [registerIo]; omega, ?_⟩
  intro r hr
  simp only [registerIo] at hr
  rcases List.mem_append.mp hr with hr | hr
  · exact hno r hr
  · rcases List.mem_singleton.mp hr with rfl
    simp only []
    omega

/-- `register_timer` leaves the I/O table alone and only grows the
counter. -/
theorem retired_io_registerTimer (k : Nat) (clk : Clk) (per : Int) (cb : Nat)
    (s : RState) (h : IoRetired k s) :
    IoRetired k (registerTimer clk per cb s).2 := by
  obtain ⟨h0, hle, hno⟩ := h
  exact ⟨h0, by simp [registerTimer, clockRead]; omega,
    by simpa [registerTimer, clockRead] using hno⟩

/-- `unregister_io` only zeroes ids. -/
theorem retired_io_unregisterIo (k j : Nat) (s : RState) (h : IoRetired k s) :
    IoRetired k (unregisterIo j s) := by
  obtain ⟨h0, hle, hno⟩ := h
  exact ⟨h0, hle, unregIoList_keep_ne s.ios j k h0 hno⟩

/-- `unregister_timer` leaves the I/O table alone. -/
theorem retired_io_unregisterTimer (k j : Nat) (s : RState)
    (h : IoRetired k s) : IoRetired k (unregisterTimer j s) := by
  obtain ⟨h0, hle, hno⟩ := h
  exact ⟨h0, hle, hno⟩

/-- Retired timer ids stay retired across each primitive. -/
theorem retired_timer_registerIo (k : Nat) (fd : Int) (ev cb : Nat)
    (s : RState) (h : TimerRetired k s) :
    TimerRetired k (registerIo fd ev cb s).2 := by
  obtain ⟨h0, hle, hno⟩ := h
  exact ⟨h0, by simp [registerIo]; omega, by simpa [registerIo] using hno⟩

/-- `register_timer` appends only the fresh id. -/
theorem retired_timer_registerTimer (k : Nat) (clk : Clk) (per : Int)
    (cb : Nat) (s : RState) (h : TimerRetired k s) :
    TimerRetired k (registerTimer clk per cb s).2 := by
  obtain ⟨h0, hle, hno⟩ := h
  refine ⟨h0, by simp [registerTimer, clockRead]; omega, ?_⟩
  intro r hr
  simp only [registerTimer, clockRead] at hr
  rcases List.mem_append.mp hr with hr | hr
  · exact hno r hr
  · rcases List.mem_singleton.mp hr with rfl
    simp only []
    omega

/-- `unregister_io` leaves the timer table alone. -/
theorem retired_timer_unregisterIo (k j : Nat) (s : RState)
    (h : TimerRetired k s) : TimerRetired k (unregisterIo j s) := by
  obtain ⟨h0, hle, hno⟩ := h
  exact ⟨h0, hle, hno⟩

/-- `unregister_timer` only zeroes ids. -/
theorem retired_timer_unregisterTimer (k j : Nat) (s : RState)
    (h : TimerRetired k s) : TimerRetired k (unregisterTimer j s) := by
  obtain ⟨h0, hle, hno⟩ := h
  exact ⟨h0, hle, unregTimerList_keep_ne s.timers j k h0 hno⟩

/-! ### The swap-remove compaction -/

/-- One swap-remove step is, up to permutation, the removal of the
record at the examined index. -/
theorem set_getLast_dropLast_perm (l : List α) (i : Nat) (h : i < l.length)
    (hne : l ≠ []) :
    ((l.set i (l.getLast hne)).dropLast) ~ l.eraseIdx i := by
  have hset : l.set i (l.getLast hne) =
      l.take i ++ l.getLast hne :: l.drop (i + 1) := by
    rw [List.set_eq_take_append_cons_drop, if_pos h]
  have herase : l.eraseIdx i = l.take i ++ l.drop (i + 1) :=
    List.eraseIdx_eq_take_drop_succ l i
  rcases List.eq_nil_or_concat (l.drop (i + 1)) with hB | ⟨B0, z, hB⟩
  · rw [hset, hB, herase, hB, List.append_nil, List.dropLast_concat]
  · have hlast : l.getLast hne = z := by
      have hsplit : l.take (i + 1) ++ l.drop (i + 1) = l :=
        l.take_append_drop (i + 1)
      have hdrop_ne : l.drop (i + 1) ≠ [] := by
        rw [hB]
        simp
      calc l.getLast hne
          = (l.take (i + 1) ++ l.drop (i + 1)).getLast (by rw [hsplit]; exact hne) := by
            congr 1
            rw [hsplit]
        _ = (l.drop (i + 1)).getLast hdrop_ne := List.getLast_append_of_ne_nil hdrop_ne
        _ = z := by
            have : B0 ++ [z] ≠ [] := by simp
            calc (l.drop (i + 1)).getLast hdrop_ne
                = (B0 ++ [z]).getLast this := by
                  congr 1
                  rw [hB, List.concat_eq_append]
              _ = z := List.getLast_concat ..
    rw [hset, hlast, herase, hB, List.concat_eq_append]
    have hshape : l.take i ++ z :: (B0 ++ [z]) =
        (l.take i ++ z :: B0) ++ [z] := by
      simp
    rw [hshape, List.dropLast_concat]
    exact List.Perm.append_left (l.take i)
      ((List.perm_append_singleton z B0).symm)

/-- The whole compaction only removes records: its result is a
subpermutation of the table. -/
theorem gcAux_subperm (dead : α → Bool) :
    ∀ (n : Nat) (l : List α) (i : Nat), gcAux dead n l i <+~ l := by
  intro n
  induction n with
  | zero =>
      intro l i
      exact List.Subperm.refl l
  | succ m ih =>
      intro l i
      simp only [gcAux]
      by_cases h : i < l.length
      · rw [dif_pos h]
        by_cases hd : dead (l.get ⟨i, h⟩)
        · rw [if_pos hd]
          have hne : l ≠ [] := List.ne_nil_of_length_pos (by omega)
          have hstep : ((l.set i (l.getLast hne)).dropLast) <+~ l :=
            ⟨l.eraseIdx i, (set_getLast_dropLast_perm l i h hne).symm,
              List.eraseIdx_sublist l i⟩
          exact (ih _ i).trans hstep
        · rw [if_neg hd]
          exact ih l (i + 1)
      · rw [dif_neg h]

/-- Garbage collection of both tables preserves the invariant. -/
theorem inv_gc (s : RState) (h : Inv s) :
    Inv { s with ios := gcIos s.ios, timers := gcTimers s.timers } := by
  obtain ⟨hnd, hle⟩ := h
  rw [liveIds_eq] at hnd
  have hsubA : ((gcIos s.ios).map IORec.id).filter (fun n => n ≠ 0) <+~
      ((s.ios.map IORec.id).filter (fun n => n ≠ 0)) :=
    List.Subperm.filter _ (subperm_map IORec.id (gcAux_subperm _ _ _ _))
  have hsubB : ((gcTimers s.timers).map TimerRec.id).filter (fun n => n ≠ 0) <+~
      ((s.timers.map TimerRec.id).filter (fun n => n ≠ 0)) :=
    List.Subperm.filter _ (subperm_map TimerRec.id (gcAux_subperm _ _ _ _))
  constructor
  · rw [liveIds_eq]
    rw [List.nodup_append] at hnd ⊢
    obtain ⟨hA, hB, hAB⟩ := hnd
    exact ⟨subperm_nodup hsubA hA, subperm_nodup hsubB hB,
      fun a ha hb => hAB (subperm_subset hsubA a ha) (subperm_subset hsubB a hb)⟩
  · intro n hn
    rw [liveIds_eq] at hn
    apply hle
    rw [liveIds_eq]
    rcases List.mem_append.mp hn with hn | hn
    · exact List.mem_append_left _ (subperm_subset hsubA n hn)
    · exact List.mem_append_right _ (subperm_subset hsubB n hn)

/-- Garbage collection never resurrects a retired I/O id. -/
theorem retired_io_gc (k : Nat) (s : RState) (h : IoRetired k s) :
    IoRetired k { s with ios := gcIos s.ios, timers := gcTimers s.timers } := by
  obtain ⟨h0, hle, hno⟩ := h
  exact ⟨h0, hle, fun r hr => hno r (subperm_subset (gcAux_subperm _ _ _ _) r hr)⟩

/-- Garbage collection never resurrects a retired timer id. -/
theorem retired_timer_gc (k : Nat) (s : RState) (h : TimerRetired k s) :
    TimerRetired k { s with ios := gcIos s.ios, timers := gcTimers s.timers } := by
  obtain ⟨h0, hle, hno⟩ := h
  exact ⟨h0, hle, fun r hr => hno r (subperm_subset (gcAux_subperm _ _ _ _) r hr)⟩

/-! ### Field-preserving rewrites of the I/O table -/

/-- Mapping an id-preserving function over the table keeps the id
view. -/
theorem map_ids_of_id_preserved (f : IORec → IORec)
    (hf : ∀ r, (f r).id = r.id) (l : List IORec) :
    (l.map f).map IORec.id = l.map IORec.id := by
  rw [List.map_map]
  exact List.map_congr_left (fun r _ => hf r)

/-- `mapIdx` with an id-preserving function keeps the id view. -/
theorem mapIdx_ids_of_id_preserved :
    ∀ (l : List IORec) (f : Nat → IORec → IORec),
      (∀ i r, (f i r).id = r.id) →
      (l.mapIdx f).map IORec.id = l.map IORec.id := by
  intro l
  induction l with
  | nil => intro f _; simp
  | cons a t ih =>
      intro f hf
      rw [List.mapIdx_cons, List.map_cons, List.map_cons, hf 0 a,
        ih (fun i r => f (i + 1) r) (fun i r => hf (i + 1) r)]

/-- Invariance of `Inv` under id-preserving table rewrites (the
`revents` reset and the readiness assignment). -/
theorem inv_map_ios (s : RState) (f : IORec → IORec)
    (hf : ∀ r, (f r).id = r.id) (h : Inv s) :
    Inv { s with ios := s.ios.map f } := by
  obtain ⟨hnd, hle⟩ := h
  constructor
  · rw [liveIds_eq, map_ids_of_id_preserved f hf]
    rw [liveIds_eq] at hnd
    exact hnd
  · intro n hn
    apply hle
    rw [liveIds_eq, map_ids_of_id_preserved f hf] at hn
    rw [liveIds_eq]
    exact hn

/-- `Inv` under an id-preserving `mapIdx`. -/
theorem inv_mapIdx_ios (s : RState) (f : Nat → IORec → IORec)
    (hf : ∀ i r, (f i r).id = r.id) (h : Inv s) :
    Inv { s with ios := s.ios.mapIdx f } := by
  obtain ⟨hnd, hle⟩ := h
  constructor
  · rw [liveIds_eq, mapIdx_ids_of_id_preserved s.ios f hf]
    rw [liveIds_eq] at hnd
    exact hnd
  · intro n hn
    apply hle
    rw [liveIds_eq, mapIdx_ids_of_id_preserved s.ios f hf] at hn
    rw [liveIds_eq]
    exact hn

/-- Retired I/O ids under an id-preserving map. -/
theorem retired_io_map_ios (k : Nat) (s : RState) (f : IORec → IORec)
    (hf : ∀ r, (f r).id = r.id) (h : IoRetired k s) :
    IoRetired k { s with ios := s.ios.map f } := by
  obtain ⟨h0, hle, hno⟩ := h
  refine ⟨h0, hle, ?_⟩
  intro r hr
  rw [List.mem_map] at hr
  obtain ⟨q, hq, hqr⟩ := hr
  rw [← hqr, hf q]
  exact hno q hq

/-- Retired I/O ids under an id-preserving `mapIdx`. -/
theorem retired_io_mapIdx_ios (k : Nat) (s : RState) (f : Nat → IORec → IORec)
    (hf : ∀ i r, (f i r).id = r.id) (h : IoRetired k s) :
    IoRetired k { s with ios := s.ios.mapIdx f } := by
  obtain ⟨h0, hle, hno⟩ := h
  refine ⟨h0, hle, ?_⟩
  intro r hr
  have hids : r.id ∈ (s.ios.mapIdx f).map IORec.id := List.mem_map_of_mem _ hr
  rw [mapIdx_ids_of_id_preserved s.ios f hf, List.mem_map] at hids
  obtain ⟨q, hq, hqr⟩ := hids
  rw [← hqr]
  exact hno q hq

/-! ### Marking a record dead at dispatch time -/

/-- Under the invariant, a live id determines its I/O-table index. -/
theorem inv_io_index_unique (s : RState) (hInv : Inv s) (i j : Nat)
    (hi : i < s.ios.length) (hj : j < s.ios.length)
    (hne0 : (s.ios.get ⟨i, hi⟩).id ≠ 0)
    (heq : (s.ios.get ⟨j, hj⟩).id = (s.ios.get ⟨i, hi⟩).id) : j = i := by
  by_contra hji
  have hAi : i < (s.ios.map IORec.id).length := by
    rw [List.length_map]
    exact hi
  have hAj : j < (s.ios.map IORec.id).length := by
    rw [List.length_map]
    exact hj
  have e1 : (s.ios.map IORec.id).get ⟨i, hAi⟩ = (s.ios.get ⟨i, hi⟩).id := by
    simp
  have e2 : (s.ios.map IORec.id).get ⟨j, hAj⟩ = (s.ios.get ⟨i, hi⟩).id := by
    simpa using heq
  have hcount : 2 ≤ (s.ios.map IORec.id).count ((s.ios.get ⟨i, hi⟩).id) := by
    rcases Nat.lt_or_ge i j with hij | hij
    · exact two_le_count_of_get _ _ i j hAi hAj hij e1 e2
    · have hij2 : j < i := by omega
      exact two_le_count_of_get _ _ j i hAj hAi hij2 e2 e1
  obtain ⟨hnd, _⟩ := hInv
  rw [liveIds_eq, List.nodup_append] at hnd
  have hc1 := List.nodup_iff_count_le_one.mp hnd.1 ((s.ios.get ⟨i, hi⟩).id)
  have hcf : ((s.ios.map IORec.id).filter (fun n => n ≠ 0)).count
      ((s.ios.get ⟨i, hi⟩).id) =
      (s.ios.map IORec.id).count ((s.ios.get ⟨i, hi⟩).id) :=
    List.count_filter (by simpa using hne0)
  omega

/-- Under the invariant, a live id determines its timer-table index. -/
theorem inv_timer_index_unique (s : RState) (hInv : Inv s) (i j : Nat)
    (hi : i < s.timers.length) (hj : j < s.timers.length)
    (hne0 : (s.timers.get ⟨i, hi⟩).id ≠ 0)
    (heq : (s.timers.get ⟨j, hj⟩).id = (s.timers.get ⟨i, hi⟩).id) : j = i := by
  by_contra hji
  have hAi : i < (s.timers.map TimerRec.id).length := by
    rw [List.length_map]
    exact hi
  have hAj : j < (s.timers.map TimerRec.id).length := by
    rw [List.length_map]
    exact hj
  have e1 : (s.timers.map TimerRec.id).get ⟨i, hAi⟩ =
      (s.timers.get ⟨i, hi⟩).id := by
    simp
  have e2 : (s.timers.map TimerRec.id).get ⟨j, hAj⟩ =
      (s.timers.get ⟨i, hi⟩).id := by
    simpa using heq
  have hcount : 2 ≤ (s.timers.map TimerRec.id).count
      ((s.timers.get ⟨i, hi⟩).id) := by
    rcases Nat.lt_or_ge i j with hij | hij
    · exact two_le_count_of_get _ _ i j hAi hAj hij e1 e2
    · have hij2 : j < i := by omega
      exact two_le_count_of_get _ _ j i hAj hAi hij2 e2 e1
  obtain ⟨hnd, _⟩ := hInv
  rw [liveIds_eq, List.nodup_append] at hnd
  have hc1 := List.nodup_iff_count_le_one.mp hnd.2.1
    ((s.timers.get ⟨i, hi⟩).id)
  have hcf : ((s.timers.map TimerRec.id).filter (fun n => n ≠ 0)).count
      ((s.timers.get ⟨i, hi⟩).id) =
      (s.timers.map TimerRec.id).count ((s.timers.get ⟨i, hi⟩).id) :=
    List.count_filter (by simpa using hne0)
  omega

/-- Marking an I/O record dead preserves the invariant. -/
theorem inv_mark_io (s : RState) (i : Nat) (h : i < s.ios.length)
    (hInv : Inv s) :
    Inv { s with ios := s.ios.set i { s.ios.get ⟨i, h⟩ with id := 0 } } := by
  obtain ⟨hnd, hle⟩ := hInv
  rw [liveIds_eq] at hnd
  have hmap : (s.ios.set i { s.ios.get ⟨i, h⟩ with id := 0 }).map IORec.id =
      (s.ios.map IORec.id).set i 0 := by
    rw [List.map_set]
  have hsub := (filter_set_zero_sublist (s.ios.map IORec.id) i).append_right
    ((s.timers.map TimerRec.id).filter (fun n => n ≠ 0))
  constructor
  · rw [liveIds_eq, hmap]
    exact hnd.sublist hsub
  · intro n hn
    rw [liveIds_eq, hmap] at hn
    apply hle
    rw [liveIds_eq]
    exact hsub.mem hn

/-- Marking a timer record dead preserves the invariant. -/
theorem inv_mark_timer (s : RState) (i : Nat) (h : i < s.timers.length)
    (hInv : Inv s) :
    Inv { s with timers := s.timers.set i { s.timers.get ⟨i, h⟩ with id := 0 } } := by
  obtain ⟨hnd, hle⟩ := hInv
  rw [liveIds_eq] at hnd
  have hmap : (s.timers.set i { s.timers.get ⟨i, h⟩ with id := 0 }).map TimerRec.id =
      (s.timers.map TimerRec.id).set i 0 := by
    rw [List.map_set]
  have hsub := (filter_set_zero_sublist (s.timers.map TimerRec.id) i).append_left
    ((s.ios.map IORec.id).filter (fun n => n ≠ 0))
  constructor
  · rw [liveIds_eq, hmap]
    exact hnd.sublist hsub
  · intro n hn
    rw [liveIds_eq, hmap] at hn
    apply hle
    rw [liveIds_eq]
    exact hsub.mem hn

/-- Marking the record at index `i` retires its (live) id: the mark
zeroes this record and the invariant rules out a second record with the
same id. -/
theorem mark_io_retires (s : RState) (i : Nat) (h : i < s.ios.length)
    (hInv : Inv s) (hk : (s.ios.get ⟨i, h⟩).id ≠ 0) :
    IoRetired (s.ios.get ⟨i, h⟩).id
      { s with ios := s.ios.set i { s.ios.get ⟨i, h⟩ with id := 0 } } := by
  refine ⟨hk, ?_, ?_⟩
  · apply hInv.2
    rw [liveIds_eq]
    apply List.mem_append_left
    rw [List.mem_filter]
    exact ⟨List.mem_map_of_mem IORec.id (List.get_mem _ _ _), by simpa using hk⟩
  · intro r hr
    rw [List.mem_iff_getElem] at hr
    obtain ⟨j, hj, hrj⟩ := hr
    rw [List.length_set] at hj
    by_cases hji : j = i
    · subst hji
      have : (s.ios.set j { s.ios.get ⟨j, h⟩ with id := 0 })[j] =
          { s.ios.get ⟨j, h⟩ with id := 0 } := List.getElem_set_self _
      rw [this] at hrj
      rw [← hrj]
      intro hc
      exact hk hc.symm
    · have hset : (s.ios.set i { s.ios.get ⟨i, h⟩ with id := 0 })[j] =
          s.ios[j] := List.getElem_set_ne (by omega) _
      rw [hset] at hrj
      intro hc
      apply hji
      refine inv_io_index_unique s hInv i j h hj hk ?_
      have hget : (s.ios.get ⟨j, hj⟩).id = r.id := by
        rw [List.get_eq_getElem, hrj]
      rw [hget, hc]

/-- Marking the timer record at index `i` retires its (live) id. -/
theorem mark_timer_retires (s : RState) (i : Nat) (h : i < s.timers.length)
    (hInv : Inv s) (hk : (s.timers.get ⟨i, h⟩).id ≠ 0) :
    TimerRetired (s.timers.get ⟨i, h⟩).id
      { s with timers := s.timers.set i { s.timers.get ⟨i, h⟩ with id := 0 } } := by
  refine ⟨hk, ?_, ?_⟩
  · apply hInv.2
    rw [liveIds_eq]
    apply List.mem_append_right
    rw [List.mem_filter]
    exact ⟨List.mem_map_of_mem TimerRec.id (List.get_mem _ _ _), by simpa using hk⟩
  · intro r hr
    rw [List.mem_iff_getElem] at hr
    obtain ⟨j, hj, hrj⟩ := hr
    rw [List.length_set] at hj
    by_cases hji : j = i
    · subst hji
      have : (s.timers.set j { s.timers.get ⟨j, h⟩ with id := 0 })[j] =
          { s.timers.get ⟨j, h⟩ with id := 0 } := List.getElem_set_self _
      rw [this] at hrj
      rw [← hrj]
      intro hc
      exact hk hc.symm
    · have hset : (s.timers.set i { s.timers.get ⟨i, h⟩ with id := 0 })[j] =
          s.timers[j] := List.getElem_set_ne (by omega) _
      rw [hset] at hrj
      intro hc
      apply hji
      refine inv_timer_index_unique s hInv i j h hj hk ?_
      have hget : (s.timers.get ⟨j, hj⟩).id = r.id := by
        rw [List.get_eq_getElem, hrj]
      rw [hget, hc]

/-- Marking records preserves any already-retired I/O id. -/
theorem retired_io_mark_io (k : Nat) (s : RState) (i : Nat) (v : IORec)
    (hv : v.id = 0) (h : IoRetired k s) :
    IoRetired k { s with ios := s.ios.set i v } := by
  obtain ⟨h0, hle, hno⟩ := h
  refine ⟨h0, hle, ?_⟩
  intro r hr
  rcases List.mem_or_eq_of_mem_set hr with hr | hr
  · exact hno r hr
  · rw [hr, hv]
    exact fun hc => h0 hc.symm

/-- Marking timer records preserves any retired timer id. -/
theorem retired_timer_mark_timer (k : Nat) (s : RState) (i : Nat)
    (v : TimerRec) (hv : v.id = 0) (h : TimerRetired k s) :
    TimerRetired k { s with timers := s.timers.set i v } := by
  obtain ⟨h0, hle, hno⟩ := h
  refine ⟨h0, hle, ?_⟩
  intro r hr
  rcases List.mem_or_eq_of_mem_set hr with hr | hr
  · exact hno r hr
  · rw [hr, hv]
    exact fun hc => h0 hc.symm

/-! ### Trace bookkeeping -/

/-- `ioFiredIds` distributes over append. -/
theorem ioFiredIds_append (a b : List Ev) :
    ioFiredIds (a ++ b) = ioFiredIds a ++ ioFiredIds b := by
  unfold ioFiredIds
  exact List.filterMap_append ..

/-- `timerFiredIds` distributes over append. -/
theorem timerFiredIds_append (a b : List Ev) :
    timerFiredIds (a ++ b) = timerFiredIds a ++ timerFiredIds b := by
  unfold timerFiredIds
  exact List.filterMap_append ..

/-- `regIds` distributes over append. -/
theorem regIds_append (a b : List Ev) :
    regIds (a ++ b) = regIds a ++ regIds b := by
  unfold regIds
  exact List.filterMap_append ..

/-- The empty trace obeys the registration discipline. -/
theorem regSpec_nil (c : Nat) : RegSpec c c [] := by
  constructor
  · exact List.Pairwise.nil
  · intro i hi
    cases hi

/-- Registration discipline composes over consecutive segments. -/
theorem regSpec_append {c0 c1 c2 : Nat} {t1 t2 : List Ev}
    (h1 : RegSpec c0 c1 t1) (h2 : RegSpec c1 c2 t2) (hc0 : c0 ≤ c1)
    (hc : c1 ≤ c2) :
    RegSpec c0 c2 (t1 ++ t2) := by
  obtain ⟨hp1, hb1⟩ := h1
  obtain ⟨hp2, hb2⟩ := h2
  rw [RegSpec, regIds_append]
  constructor
  · rw [List.pairwise_append]
    refine ⟨hp1, hp2, ?_⟩
    intro a ha b hb
    have h1 := hb1 a ha
    have h2 := hb2 b hb
    omega
  · intro i hi
    rcases List.mem_append.mp hi with hi | hi
    · have := hb1 i hi
      omega
    · have := hb2 i hi
      omega

/-- A trace with no registration events obeys the discipline between
equal counters. -/
theorem regSpec_of_no_reg (c : Nat) (tr : List Ev) (h : regIds tr = []) :
    RegSpec c c tr := by
  constructor
  · rw [h]
    exact List.Pairwise.nil
  · intro i hi
    rw [h] at hi
    cases hi

/-! ### The reactor-API callback interpreter -/

/-- All facts needed about one reactor-API call: invariant preservation,
counter monotonicity, registration discipline, retirement preservation,
and that callbacks emit no dispatch events. -/
theorem runAct_facts (clk : Clk) (s : RState) (a : Act) :
    (Inv s → Inv (runAct clk s a).1) ∧
    s.idCounter ≤ (runAct clk s a).1.idCounter ∧
    RegSpec s.idCounter (runAct clk s a).1.idCounter (runAct clk s a).2 ∧
    (∀ k, IoRetired k s → IoRetired k (runAct clk s a).1) ∧
    (∀ k, TimerRetired k s → TimerRetired k (runAct clk s a).1) ∧
    ioFiredIds (runAct clk s a).2 = [] ∧
    timerFiredIds (runAct clk s a).2 = [] := by
  cases a with
  | aRegIo fd ev cb =>
      refine ⟨inv_registerIo fd ev cb s, by simp [runAct, registerIo], ?_, ?_, ?_, rfl, rfl⟩
      · constructor
        · simp [runAct, regIds]
        · intro i hi
          simp [runAct, regIds] at hi
          subst hi
          simp [runAct, registerIo]
      · intro k hk
        exact retired_io_registerIo k fd ev cb s hk
      · intro k hk
        exact retired_timer_registerIo k fd ev cb s hk
  | aUnregIo j =>
      refine ⟨inv_unregisterIo j s, le_refl _, ?_, ?_, ?_, rfl, rfl⟩
      · exact regSpec_nil _
      · intro k hk
        exact retired_io_unregisterIo k j s hk
      · intro k hk
        exact retired_timer_unregisterIo k j s hk
  | aRegTimer per cb =>
      refine ⟨inv_registerTimer clk per cb s, by simp [runAct, registerTimer, clockRead], ?_, ?_, ?_, rfl, rfl⟩
      · constructor
        · simp [runAct, regIds]
        · intro i hi
          simp [runAct, regIds] at hi
          subst hi
          simp [runAct, registerTimer, clockRead]
      · intro k hk
        exact retired_io_registerTimer k clk per cb s hk
      · intro k hk
        exact retired_timer_registerTimer k clk per cb s hk
  | aUnregTimer j =>
      refine ⟨inv_unregisterTimer j s, le_refl _, ?_, ?_, ?_, rfl, rfl⟩
      · exact regSpec_nil _
      · intro k hk
        exact retired_io_unregisterTimer k j s hk
      · intro k hk
        exact retired_timer_unregisterTimer k j s hk

/-- `runAct_facts` lifted to action sequences. -/
theorem runActs_facts (clk : Clk) :
    ∀ (l : List Act) (s : RState),
      (Inv s → Inv (runActs clk l s).1) ∧
      s.idCounter ≤ (runActs clk l s).1.idCounter ∧
      RegSpec s.idCounter (runActs clk l s).1.idCounter (runActs clk l s).2 ∧
      (∀ k, IoRetired k s → IoRetired k (runActs clk l s).1) ∧
      (∀ k, TimerRetired k s → TimerRetired k (runActs clk l s).1) ∧
      ioFiredIds (runActs clk l s).2 = [] ∧
      timerFiredIds (runActs clk l s).2 = [] := by
  intro l
  induction l with
  | nil =>
      intro s
      exact ⟨fun h => h, le_refl _, regSpec_nil _, fun _ h => h, fun _ h => h,
        rfl, rfl⟩
  | cons a t ih =>
      intro s
      obtain ⟨hI1, hc1, hr1, hio1, htm1, hf1, hg1⟩ := runAct_facts clk s a
      obtain ⟨hI2, hc2, hr2, hio2, htm2, hf2, hg2⟩ := ih (runAct clk s a).1
      refine ⟨fun h => hI2 (hI1 h), le_trans hc1 hc2, ?_,
        fun k hk => hio2 k (hio1 k hk), fun k hk => htm2 k (htm1 k hk), ?_, ?_⟩
      · show RegSpec _ _ ((runAct clk s a).2 ++ (runActs clk t (runAct clk s a).1).2)
        exact regSpec_append hr1 hr2 hc1 hc2
      · show ioFiredIds ((runAct clk s a).2 ++ (runActs clk t (runAct clk s a).1).2) = []
        rw [ioFiredIds_append, hf1, hf2]
        rfl
      · show timerFiredIds ((runAct clk s a).2 ++ (runActs clk t (runAct clk s a).1).2) = []
        rw [timerFiredIds_append, hg1, hg2]
        rfl

/-- The reactor-API environment satisfies all four environment
obligations. -/
theorem actEnv_obligations (clk : Clk) (ioProg : Nat → Nat → RState → List Act)
    (tmProg : Nat → RState → List Act) :
    EnvInv (actEnv clk ioProg tmProg) ∧ EnvReg (actEnv clk ioProg tmProg) ∧
    EnvRetire (actEnv clk ioProg tmProg) ∧ EnvNoFired (actEnv clk ioProg tmProg) := by
  refine ⟨⟨?_, ?_⟩, ⟨?_, ?_⟩, ⟨?_, ?_, ?_, ?_⟩, ⟨?_, ?_⟩⟩
  · intro cb rvts sys h
    exact (runActs_facts clk (ioProg cb rvts sys.rs) sys.rs).1 h
  · intro cb sys h
    exact (runActs_facts clk (tmProg cb sys.rs) sys.rs).1 h
  · intro cb rvts sys
    exact ⟨(runActs_facts clk (ioProg cb rvts sys.rs) sys.rs).2.1,
      (runActs_facts clk (ioProg cb rvts sys.rs) sys.rs).2.2.1⟩
  · intro cb sys
    exact ⟨(runActs_facts clk (tmProg cb sys.rs) sys.rs).2.1,
      (runActs_facts clk (tmProg cb sys.rs) sys.rs).2.2.1⟩
  · intro k cb rvts sys h
    exact (runActs_facts clk (ioProg cb rvts sys.rs) sys.rs).2.2.2.1 k h
  · intro k cb sys h
    exact (runActs_facts clk (tmProg cb sys.rs) sys.rs).2.2.2.1 k h
  · intro k cb rvts sys h
    exact (runActs_facts clk (ioProg cb rvts sys.rs) sys.rs).2.2.2.2.1 k h
  · intro k cb sys h
    exact (runActs_facts clk (tmProg cb sys.rs) sys.rs).2.2.2.2.1 k h
  · intro cb rvts sys
    exact ⟨(runActs_facts clk (ioProg cb rvts sys.rs) sys.rs).2.2.2.2.2.1,
      (runActs_facts clk (ioProg cb rvts sys.rs) sys.rs).2.2.2.2.2.2⟩
  · intro cb sys
    exact ⟨(runActs_facts clk (tmProg cb sys.rs) sys.rs).2.2.2.2.2.1,
      (runActs_facts clk (tmProg cb sys.rs) sys.rs).2.2.2.2.2.2⟩

/-! ### The dispatch loops -/

/-- `ioFiredIds` of a dispatch event. -/
theorem ioFiredIds_cons_fired (id cb rv : Nat) (t : List Ev) :
    ioFiredIds (Ev.ioFired id cb rv :: t) = id :: ioFiredIds t := rfl

/-- `timerFiredIds` skips I/O dispatch events. -/
theorem timerFiredIds_cons_fired (id cb rv : Nat) (t : List Ev) :
    timerFiredIds (Ev.ioFired id cb rv :: t) = timerFiredIds t := rfl

/-- `timerFiredIds` of a timer dispatch event. -/
theorem timerFiredIds_cons_tfired (id cb : Nat) (t : List Ev) :
    timerFiredIds (Ev.timerFired id cb :: t) = id :: timerFiredIds t := rfl

/-- `ioFiredIds` skips timer dispatch events. -/
theorem ioFiredIds_cons_tfired (id cb : Nat) (t : List Ev) :
    ioFiredIds (Ev.timerFired id cb :: t) = ioFiredIds t := rfl

/-- The I/O dispatch loop: preserves the invariant and all retirements,
fires each id at most once, never fires a retired id, retires every id
it fires (the mark happens before the callback runs), and emits no
timer dispatch events. -/
theorem dispatchIos_main {σ : Type} (env : CbEnv σ) (hEI : EnvInv env)
    (hER : EnvRetire env) (hENF : EnvNoFired env) :
    ∀ (fuel i : Nat) (sys : Sys σ), Inv sys.rs →
      Inv (dispatchIos env fuel i sys).sys.rs ∧
      (∀ k, IoRetired k sys.rs → IoRetired k (dispatchIos env fuel i sys).sys.rs ∧
        k ∉ ioFiredIds (dispatchIos env fuel i sys).trace) ∧
      (∀ k, TimerRetired k sys.rs →
        TimerRetired k (dispatchIos env fuel i sys).sys.rs) ∧
      (ioFiredIds (dispatchIos env fuel i sys).trace).Nodup ∧
      (∀ k, k ∈ ioFiredIds (dispatchIos env fuel i sys).trace →
        IoRetired k (dispatchIos env fuel i sys).sys.rs) ∧
      timerFiredIds (dispatchIos env fuel i sys).trace = [] := by
  intro fuel
  induction fuel with
  | zero =>
      intro i sys hInv
      exact ⟨hInv, fun k hk => ⟨hk, by simp [dispatchIos, ioFiredIds]⟩,
        fun k hk => hk, by simp [dispatchIos, ioFiredIds],
        by simp [dispatchIos, ioFiredIds], by simp [dispatchIos, timerFiredIds]⟩
  | succ fuel ih =>
      intro i sys hInv
      by_cases h : i < sys.rs.ios.length
      · by_cases hfire : (sys.rs.ios.get ⟨i, h⟩).revents ≠ 0 ∧
            (sys.rs.ios.get ⟨i, h⟩).id ≠ 0
        · have hunf : dispatchIos env (fuel + 1) i sys =
              (let s1 : Sys σ := { sys with rs := { sys.rs with
                  ios := sys.rs.ios.set i { sys.rs.ios.get ⟨i, h⟩ with id := 0 } } }
               let p := env.onIo (sys.rs.ios.get ⟨i, h⟩).cb
                 (sys.rs.ios.get ⟨i, h⟩).revents s1
               let rest := dispatchIos env fuel (i + 1) p.1
               ⟨rest.sys, Ev.ioFired (sys.rs.ios.get ⟨i, h⟩).id
                 (sys.rs.ios.get ⟨i, h⟩).cb (sys.rs.ios.get ⟨i, h⟩).revents ::
                   (p.2 ++ rest.trace), rest.completed⟩) := by
            simp only [dispatchIos, dif_pos h, if_pos hfire]
          rw [hunf]
          simp only []
          set s1 : Sys σ := { sys with rs := { sys.rs with
              ios := sys.rs.ios.set i { sys.rs.ios.get ⟨i, h⟩ with id := 0 } } } with hs1
          set p := env.onIo (sys.rs.ios.get ⟨i, h⟩).cb
            (sys.rs.ios.get ⟨i, h⟩).revents s1 with hp
          have hInv1 : Inv s1.rs := inv_mark_io sys.rs i h hInv
          have hret1 : IoRetired (sys.rs.ios.get ⟨i, h⟩).id s1.rs :=
            mark_io_retires sys.rs i h hInv hfire.2
          have hInv2 : Inv p.1.rs := hEI.1 _ _ _ hInv1
          have hret2 : IoRetired (sys.rs.ios.get ⟨i, h⟩).id p.1.rs :=
            hER.1 _ _ _ _ hret1
          obtain ⟨ihInv, ihRet, ihTm, ihNd, ihFired, ihTf⟩ :=
            ih (i + 1) p.1 hInv2
          have hpf := hENF.1 (sys.rs.ios.get ⟨i, h⟩).cb
            (sys.rs.ios.get ⟨i, h⟩).revents s1
          refine ⟨ihInv, ?_, ?_, ?_, ?_, ?_⟩
          · intro k hk
            have hk1 : IoRetired k s1.rs :=
              retired_io_mark_io k sys.rs i _ rfl hk
            have hk2 : IoRetired k p.1.rs := hER.1 _ _ _ _ hk1
            obtain ⟨hk3, hk4⟩ := ihRet k hk2
            refine ⟨hk3, ?_⟩
            rw [ioFiredIds_cons_fired, ioFiredIds_append, hpf.1]
            intro hmem
            rcases List.mem_cons.mp hmem with hmem | hmem
            · exact hk.2.2 (sys.rs.ios.get ⟨i, h⟩)
                (List.get_mem sys.rs.ios i h) hmem.symm
            · rw [List.nil_append] at hmem
              exact hk4 hmem
          · intro k hk
            have hk1 : TimerRetired k s1.rs := by
              obtain ⟨h0, hle, hno⟩ := hk
              exact ⟨h0, hle, hno⟩
            exact ihTm k (hER.2.2.1 _ _ _ _ hk1)
          · rw [ioFiredIds_cons_fired, ioFiredIds_append, hpf.1, List.nil_append]
            refine List.nodup_cons.mpr ⟨?_, ihNd⟩
            exact (ihRet _ hret2).2
          · intro k hk
            rw [ioFiredIds_cons_fired, ioFiredIds_append, hpf.1,
              List.nil_append] at hk
            rcases List.mem_cons.mp hk with hk | hk
            · subst hk
              exact (ihRet _ hret2).1
            · exact ihFired k hk
          · rw [timerFiredIds_cons_fired, timerFiredIds_append, hpf.2,
              List.nil_append]
            exact ihTf
        · have hunf : dispatchIos env (fuel + 1) i sys =
              dispatchIos env fuel (i + 1) sys := by
            simp only [dispatchIos, dif_pos h, if_neg hfire]
          rw [hunf]
          exact ih (i + 1) sys hInv
      · have hunf : dispatchIos env (fuel + 1) i sys = ⟨sys, [], true⟩ := by
          simp only [dispatchIos, dif_neg h]
        rw [hunf]
        exact ⟨hInv, fun k hk => ⟨hk, by simp [ioFiredIds]⟩, fun k hk => hk,
          by simp [ioFiredIds], by simp [ioFiredIds], by simp [timerFiredIds]⟩

/-- The timer dispatch loop: the mirror image of `dispatchIos_main`. -/
theorem dispatchTimers_main {σ : Type} (env : CbEnv σ) (hEI : EnvInv env)
    (hER : EnvRetire env) (hENF : EnvNoFired env) (now : Int) :
    ∀ (fuel i : Nat) (sys : Sys σ), Inv sys.rs →
      Inv (dispatchTimers env now fuel i sys).sys.rs ∧
      (∀ k, TimerRetired k sys.rs →
        TimerRetired k (dispatchTimers env now fuel i sys).sys.rs ∧
        k ∉ timerFiredIds (dispatchTimers env now fuel i sys).trace) ∧
      (∀ k, IoRetired k sys.rs →
        IoRetired k (dispatchTimers env now fuel i sys).sys.rs) ∧
      (timerFiredIds (dispatchTimers env now fuel i sys).trace).Nodup ∧
      (∀ k, k ∈ timerFiredIds (dispatchTimers env now fuel i sys).trace →
        TimerRetired k (dispatchTimers env now fuel i sys).sys.rs) ∧
      ioFiredIds (dispatchTimers env now fuel i sys).trace = [] := by
  intro fuel
  induction fuel with
  | zero =>
      intro i sys hInv
      exact ⟨hInv, fun k hk => ⟨hk, by simp [dispatchTimers, timerFiredIds]⟩,
        fun k hk => hk, by simp [dispatchTimers, timerFiredIds],
        by simp [dispatchTimers, timerFiredIds],
        by simp [dispatchTimers, ioFiredIds]⟩
  | succ fuel ih =>
      intro i sys hInv
      by_cases h : i < sys.rs.timers.length
      · by_cases hfire : (sys.rs.timers.get ⟨i, h⟩).expiry ≤ now ∧
            (sys.rs.timers.get ⟨i, h⟩).id ≠ 0
        · have hunf : dispatchTimers env now (fuel + 1) i sys =
              (let s1 : Sys σ := { sys with rs := { sys.rs with
                  timers := sys.rs.timers.set i
                    { sys.rs.timers.get ⟨i, h⟩ with id := 0 } } }
               let p := env.onTimer (sys.rs.timers.get ⟨i, h⟩).cb s1
               let rest := dispatchTimers env now fuel (i + 1) p.1
               ⟨rest.sys, Ev.timerFired (sys.rs.timers.get ⟨i, h⟩).id
                 (sys.rs.timers.get ⟨i, h⟩).cb :: (p.2 ++ rest.trace),
                 rest.completed⟩) := by
            simp only [dispatchTimers, dif_pos h, if_pos hfire]
          rw [hunf]
          simp only []
          set s1 : Sys σ := { sys with rs := { sys.rs with
              timers := sys.rs.timers.set i
                { sys.rs.timers.get ⟨i, h⟩ with id := 0 } } } with hs1
          set p := env.onTimer (sys.rs.timers.get ⟨i, h⟩).cb s1 with hp
          have hInv1 : Inv s1.rs := inv_mark_timer sys.rs i h hInv
          have hret1 : TimerRetired (sys.rs.timers.get ⟨i, h⟩).id s1.rs :=
            mark_timer_retires sys.rs i h hInv hfire.2
          have hInv2 : Inv p.1.rs := hEI.2 _ _ hInv1
          have hret2 : TimerRetired (sys.rs.timers.get ⟨i, h⟩).id p.1.rs :=
            hER.2.2.2 _ _ _ hret1
          obtain ⟨ihInv, ihRet, ihIo, ihNd, ihFired, ihTf⟩ :=
            ih (i + 1) p.1 hInv2
          have hpf := hENF.2 (sys.rs.timers.get ⟨i, h⟩).cb s1
          refine ⟨ihInv, ?_, ?_, ?_, ?_, ?_⟩
          · intro k hk
            have hk1 : TimerRetired k s1.rs :=
              retired_timer_mark_timer k sys.rs i _ rfl hk
            have hk2 : TimerRetired k p.1.rs := hER.2.2.2 _ _ _ hk1
            obtain ⟨hk3, hk4⟩ := ihRet k hk2
            refine ⟨hk3, ?_⟩
            rw [timerFiredIds_cons_tfired, timerFiredIds_append, hpf.2]
            intro hmem
            rcases List.mem_cons.mp hmem with hmem | hmem
            · exact hk.2.2 (sys.rs.timers.get ⟨i, h⟩)
                (List.get_mem sys.rs.timers i h) hmem.symm
            · rw [List.nil_append] at hmem
              exact hk4 hmem
          · intro k hk
            have hk1 : IoRetired k s1.rs := by
              obtain ⟨h0, hle, hno⟩ := hk
              exact ⟨h0, hle, hno⟩
            exact ihIo k (hER.2.1 _ _ _ hk1)
          · rw [timerFiredIds_cons_tfired, timerFiredIds_append, hpf.2,
              List.nil_append]
            refine List.nodup_cons.mpr ⟨?_, ihNd⟩
            exact (ihRet _ hret2).2
          · intro k hk
            rw [timerFiredIds_cons_tfired, timerFiredIds_append, hpf.2,
              List.nil_append] at hk
            rcases List.mem_cons.mp hk with hk | hk
            · subst hk
              exact (ihRet _ hret2).1
            · exact ihFired k hk
          · rw [ioFiredIds_cons_tfired, ioFiredIds_append, hpf.1,
              List.nil_append]
            exact ihTf
        · have hunf : dispatchTimers env now (fuel + 1) i sys =
              dispatchTimers env now fuel (i + 1) sys := by
            simp only [dispatchTimers, dif_pos h, if_neg hfire]
          rw [hunf]
          exact ih (i + 1) sys hInv
      · have hunf : dispatchTimers env now (fuel + 1) i sys = ⟨sys, [], true⟩ := by
          simp only [dispatchTimers, dif_neg h]
        rw [hunf]
        exact ⟨hInv, fun k hk => ⟨hk, by simp [timerFiredIds]⟩, fun k hk => hk,
          by simp [timerFiredIds], by simp [timerFiredIds], by simp [ioFiredIds]⟩

/-- Changing only the clock index is invisible to the invariant. -/
theorem inv_clk (s : RState) (x : Nat) (h : Inv s) :
    Inv { s with clkIdx := x } := h

/-- Changing only the clock index preserves I/O retirement. -/
theorem retired_io_clk (k : Nat) (s : RState) (x : Nat) (h : IoRetired k s) :
    IoRetired k { s with clkIdx := x } := h

/-- Changing only the clock index preserves timer retirement. -/
theorem retired_timer_clk (k : Nat) (s : RState) (x : Nat)
    (h : TimerRetired k s) : TimerRetired k { s with clkIdx := x } := h

/-- Rewriting the I/O table fields does not touch the timer table. -/
theorem retired_timer_ios_rewrite (k : Nat) (s : RState) (l : List IORec)
    (h : TimerRetired k s) : TimerRetired k { s with ios := l } := by
  obtain ⟨h0, hle, hno⟩ := h
  exact ⟨h0, hle, hno⟩

/-- One poll call: the invariant is preserved; retired handles stay
retired and never fire; each handle fires at most once; and every fired
handle is retired afterwards. -/
theorem pollStep_main {σ : Type} (env : CbEnv σ) (hEI : EnvInv env)
    (hER : EnvRetire env) (hENF : EnvNoFired env) (clk : Clk) (rv : Nat → Nat)
    (fuel : Nat) (block : Bool) (sys : Sys σ) (hInv : Inv sys.rs) :
    Inv (pollStep env clk rv fuel block sys).sys.rs ∧
    (∀ k, IoRetired k sys.rs →
      IoRetired k (pollStep env clk rv fuel block sys).sys.rs ∧
      k ∉ ioFiredIds (pollStep env clk rv fuel block sys).trace) ∧
    (∀ k, TimerRetired k sys.rs →
      TimerRetired k (pollStep env clk rv fuel block sys).sys.rs ∧
      k ∉ timerFiredIds (pollStep env clk rv fuel block sys).trace) ∧
    (ioFiredIds (pollStep env clk rv fuel block sys).trace).Nodup ∧
    (timerFiredIds (pollStep env clk rv fuel block sys).trace).Nodup ∧
    (∀ k, k ∈ ioFiredIds (pollStep env clk rv fuel block sys).trace →
      IoRetired k (pollStep env clk rv fuel block sys).sys.rs) ∧
    (∀ k, k ∈ timerFiredIds (pollStep env clk rv fuel block sys).trace →
      TimerRetired k (pollStep env clk rv fuel block sys).sys.rs) := by
  set rs0 : RState := { sys.rs with
    ios := gcIos sys.rs.ios
    timers := gcTimers sys.rs.timers } with hrs0
  set rs1 : RState := { rs0 with
    ios := rs0.ios.map (fun r => { r with revents := 0 }) } with hrs1
  set wp : Int × RState :=
    (if block then
      if rs1.timers.length = 0 then (-1, rs1)
      else
        let p := clockRead clk rs1
        (timeoutFold p.1 p.2.timers int64Max, p.2)
     else (0, rs1)) with hwp
  set rs3 : RState := { wp.2 with
    ios := wp.2.ios.mapIdx (fun i r => { r with revents := rv i }) } with hrs3
  set dio := dispatchIos env fuel 0 ⟨rs3, sys.ext⟩ with hdio
  set p2 := clockRead clk dio.sys.rs with hp2
  set dtm := dispatchTimers env p2.1 fuel 0 ⟨p2.2, dio.sys.ext⟩ with hdtm
  have hsys : (pollStep env clk rv fuel block sys).sys = dtm.sys := rfl
  have htr : (pollStep env clk rv fuel block sys).trace =
      dio.trace ++ dtm.trace := rfl
  have hInv1 : Inv rs1 := inv_map_ios rs0 _ (fun r => rfl) (inv_gc sys.rs hInv)
  have hInvW : Inv wp.2 := by
    rw [hwp]
    by_cases hb : block
    · rw [if_pos hb]
      by_cases hz : rs1.timers.length = 0
      · rw [if_pos hz]
        exact hInv1
      · rw [if_neg hz]
        exact inv_clk rs1 _ hInv1
    · rw [if_neg hb]
      exact hInv1
  have hInv3 : Inv rs3 := inv_mapIdx_ios wp.2 _ (fun i r => rfl) hInvW
  obtain ⟨dInv, dRet, dTm, dNd, dFired, dTf⟩ :=
    dispatchIos_main env hEI hER hENF fuel 0 ⟨rs3, sys.ext⟩ hInv3
  have hInvP : Inv p2.2 := inv_clk dio.sys.rs _ dInv
  obtain ⟨tInv, tRet, tIo, tNd, tFired, tIoEmpty⟩ :=
    dispatchTimers_main env hEI hER hENF p2.1 fuel 0 ⟨p2.2, dio.sys.ext⟩ hInvP
  have hIoRet3 : ∀ k, IoRetired k sys.rs → IoRetired k rs3 := by
    intro k hk
    refine retired_io_mapIdx_ios k wp.2 _ (fun i r => rfl) ?_
    have h1 : IoRetired k rs1 :=
      retired_io_map_ios k rs0 _ (fun r => rfl) (retired_io_gc k sys.rs hk)
    rw [hwp]
    by_cases hb : block
    · rw [if_pos hb]
      by_cases hz : rs1.timers.length = 0
      · rw [if_pos hz]
        exact h1
      · rw [if_neg hz]
        exact retired_io_clk k rs1 _ h1
    · rw [if_neg hb]
      exact h1
  have hTmRet3 : ∀ k, TimerRetired k sys.rs → TimerRetired k rs3 := by
    intro k hk
    have h0 : TimerRetired k rs0 := retired_timer_gc k sys.rs hk
    have h1 : TimerRetired k rs1 := retired_timer_ios_rewrite k rs0 _ h0
    have h2 : TimerRetired k wp.2 := by
      rw [hwp]
      by_cases hb : block
      · rw [if_pos hb]
        by_cases hz : rs1.timers.length = 0
        · rw [if_pos hz]
          exact h1
        · rw [if_neg hz]
          exact retired_timer_clk k rs1 _ h1
      · rw [if_neg hb]
        exact h1
    exact retired_timer_ios_rewrite k wp.2 _ h2
  refine ⟨?_, ?_, ?_, ?_, ?_, ?_, ?_⟩
  · rw [hsys]
    exact tInv
  · intro k hk
    rw [hsys, htr, ioFiredIds_append, tIoEmpty, List.append_nil]
    obtain ⟨hk1, hk2⟩ := dRet k (hIoRet3 k hk)
    exact ⟨tIo k (retired_io_clk k dio.sys.rs _ hk1), hk2⟩
  · intro k hk
    rw [hsys, htr, timerFiredIds_append]
    have hk1 : TimerRetired k dio.sys.rs := dTm k (hTmRet3 k hk)
    obtain ⟨hk2, hk3⟩ := tRet k (retired_timer_clk k dio.sys.rs _ hk1)
    refine ⟨hk2, ?_⟩
    rw [dTf, List.nil_append]
    exact hk3
  · rw [htr, ioFiredIds_append, tIoEmpty, List.append_nil]
    exact dNd
  · rw [htr, timerFiredIds_append, dTf, List.nil_append]
    exact tNd
  · intro k hk
    rw [htr, ioFiredIds_append, tIoEmpty, List.append_nil] at hk
    rw [hsys]
    exact tIo k (retired_io_clk k dio.sys.rs _ (dFired k hk))
  · intro k hk
    rw [htr, timerFiredIds_append, dTf, List.nil_append] at hk
    rw [hsys]
    exact tFired k hk

/-- Dispatch events carry no registration ids. -/
theorem regIds_cons_fired (id cb rv : Nat) (t : List Ev) :
    regIds (Ev.ioFired id cb rv :: t) = regIds t := rfl

/-- Timer dispatch events carry no registration ids. -/
theorem regIds_cons_tfired (id cb : Nat) (t : List Ev) :
    regIds (Ev.timerFired id cb :: t) = regIds t := rfl

/-- The registration discipline only depends on the registration ids of
the trace. -/
theorem regSpec_congr {a b : Nat} {t1 t2 : List Ev}
    (h : regIds t1 = regIds t2) (hs : RegSpec a b t2) : RegSpec a b t1 := by
  rw [RegSpec, h]
  exact hs

/-- The I/O dispatch loop respects the registration discipline. -/
theorem dispatchIos_reg {σ : Type} (env : CbEnv σ) (hER : EnvReg env) :
    ∀ (fuel i : Nat) (sys : Sys σ),
      sys.rs.idCounter ≤ (dispatchIos env fuel i sys).sys.rs.idCounter ∧
      RegSpec sys.rs.idCounter (dispatchIos env fuel i sys).sys.rs.idCounter
        (dispatchIos env fuel i sys).trace := by
  intro fuel
  induction fuel with
  | zero =>
      intro i sys
      exact ⟨le_refl _, regSpec_nil _⟩
  | succ fuel ih =>
      intro i sys
      by_cases h : i < sys.rs.ios.length
      · by_cases hfire : (sys.rs.ios.get ⟨i, h⟩).revents ≠ 0 ∧
            (sys.rs.ios.get ⟨i, h⟩).id ≠ 0
        · have hunf : dispatchIos env (fuel + 1) i sys =
              (let s1 : Sys σ := { sys with rs := { sys.rs with
                  ios := sys.rs.ios.set i { sys.rs.ios.get ⟨i, h⟩ with id := 0 } } }
               let p := env.onIo (sys.rs.ios.get ⟨i, h⟩).cb
                 (sys.rs.ios.get ⟨i, h⟩).revents s1
               let rest := dispatchIos env fuel (i + 1) p.1
               ⟨rest.sys, Ev.ioFired (sys.rs.ios.get ⟨i, h⟩).id
                 (sys.rs.ios.get ⟨i, h⟩).cb (sys.rs.ios.get ⟨i, h⟩).revents ::
                   (p.2 ++ rest.trace), rest.completed⟩) := by
            simp only [dispatchIos, dif_pos h, if_pos hfire]
          rw [hunf]
          simp only []
          obtain ⟨hc1, hr1⟩ := hER.1 (sys.rs.ios.get ⟨i, h⟩).cb
            (sys.rs.ios.get ⟨i, h⟩).revents
            { sys with rs := { sys.rs with
                ios := sys.rs.ios.set i { sys.rs.ios.get ⟨i, h⟩ with id := 0 } } }
          obtain ⟨hc2, hr2⟩ := ih (i + 1)
            (env.onIo (sys.rs.ios.get ⟨i, h⟩).cb (sys.rs.ios.get ⟨i, h⟩).revents
              { sys with rs := { sys.rs with
                  ios := sys.rs.ios.set i { sys.rs.ios.get ⟨i, h⟩ with id := 0 } } }).1
          refine ⟨le_trans hc1 hc2, ?_⟩
          exact regSpec_congr (regIds_cons_fired ..)
            (regSpec_append hr1 hr2 hc1 hc2)
        · have hunf : dispatchIos env (fuel + 1) i sys =
              dispatchIos env fuel (i + 1) sys := by
            simp only [dispatchIos, dif_pos h, if_neg hfire]
          rw [hunf]
          exact ih (i + 1) sys
      · have hunf : dispatchIos env (fuel + 1) i sys = ⟨sys, [], true⟩ := by
          simp only [dispatchIos, dif_neg h]
        rw [hunf]
        exact ⟨le_refl _, regSpec_nil _⟩

/-- The timer dispatch loop respects the registration discipline. -/
theorem dispatchTimers_reg {σ : Type} (env : CbEnv σ) (hER : EnvReg env)
    (now : Int) :
    ∀ (fuel i : Nat) (sys : Sys σ),
      sys.rs.idCounter ≤ (dispatchTimers env now fuel i sys).sys.rs.idCounter ∧
      RegSpec sys.rs.idCounter
        (dispatchTimers env now fuel i sys).sys.rs.idCounter
        (dispatchTimers env now fuel i sys).trace := by
  intro fuel
  induction fuel with
  | zero =>
      intro i sys
      exact ⟨le_refl _, regSpec_nil _⟩
  | succ fuel ih =>
      intro i sys
      by_cases h : i < sys.rs.timers.length
      · by_cases hfire : (sys.rs.timers.get ⟨i, h⟩).expiry ≤ now ∧
            (sys.rs.timers.get ⟨i, h⟩).id ≠ 0
        · have hunf : dispatchTimers env now (fuel + 1) i sys =
              (let s1 : Sys σ := { sys with rs := { sys.rs with
                  timers := sys.rs.timers.set i
                    { sys.rs.timers.get ⟨i, h⟩ with id := 0 } } }
               let p := env.onTimer (sys.rs.timers.get ⟨i, h⟩).cb s1
               let rest := dispatchTimers env now fuel (i + 1) p.1
               ⟨rest.sys, Ev.timerFired (sys.rs.timers.get ⟨i, h⟩).id
                 (sys.rs.timers.get ⟨i, h⟩).cb :: (p.2 ++ rest.trace),
                 rest.completed⟩) := by
            simp only [dispatchTimers, dif_pos h, if_pos hfire]
          rw [hunf]
          simp only []
          obtain ⟨hc1, hr1⟩ := hER.2 (sys.rs.timers.get ⟨i, h⟩).cb
            { sys with rs := { sys.rs with
                timers := sys.rs.timers.set i
                  { sys.rs.timers.get ⟨i, h⟩ with id := 0 } } }
          obtain ⟨hc2, hr2⟩ := ih (i + 1)
            (env.onTimer (sys.rs.timers.get ⟨i, h⟩).cb
              { sys with rs := { sys.rs with
                  timers := sys.rs.timers.set i
                    { sys.rs.timers.get ⟨i, h⟩ with id := 0 } } }).1
          refine ⟨le_trans hc1 hc2, ?_⟩
          exact regSpec_congr (regIds_cons_tfired ..)
            (regSpec_append hr1 hr2 hc1 hc2)
        · have hunf : dispatchTimers env now (fuel + 1) i sys =
              dispatchTimers env now fuel (i + 1) sys := by
            simp only [dispatchTimers, dif_pos h, if_neg hfire]
          rw [hunf]
          exact ih (i + 1) sys
      · have hunf : dispatchTimers env now (fuel + 1) i sys = ⟨sys, [], true⟩ := by
          simp only [dispatchTimers, dif_neg h]
        rw [hunf]
        exact ⟨le_refl _, regSpec_nil _⟩

/-- One poll call respects the registration discipline. -/
theorem pollStep_reg {σ : Type} (env : CbEnv σ) (hER : EnvReg env) (clk : Clk)
    (rv : Nat → Nat) (fuel : Nat) (block : Bool) (sys : Sys σ) :
    sys.rs.idCounter ≤ (pollStep env clk rv fuel block sys).sys.rs.idCounter ∧
    RegSpec sys.rs.idCounter
      (pollStep env clk rv fuel block sys).sys.rs.idCounter
      (pollStep env clk rv fuel block sys).trace := by
  set rs0 : RState := { sys.rs with
    ios := gcIos sys.rs.ios
    timers := gcTimers sys.rs.timers } with hrs0
  set rs1 : RState := { rs0 with
    ios := rs0.ios.map (fun r => { r with revents := 0 }) } with hrs1
  set wp : Int × RState :=
    (if block then
      if rs1.timers.length = 0 then (-1, rs1)
      else
        let p := clockRead clk rs1
        (timeoutFold p.1 p.2.timers int64Max, p.2)
     else (0, rs1)) with hwp
  set rs3 : RState := { wp.2 with
    ios := wp.2.ios.mapIdx (fun i r => { r with revents := rv i }) } with hrs3
  set dio := dispatchIos env fuel 0 ⟨rs3, sys.ext⟩ with hdio
  set p2 := clockRead clk dio.sys.rs with hp2
  set dtm := dispatchTimers env p2.1 fuel 0 ⟨p2.2, dio.sys.ext⟩ with hdtm
  have hsys : (pollStep env clk rv fuel block sys).sys = dtm.sys := rfl
  have htr : (pollStep env clk rv fuel block sys).trace =
      dio.trace ++ dtm.trace := rfl
  have hc3 : rs3.idCounter = sys.rs.idCounter := by
    rw [hrs3, hwp]
    by_cases hb : block
    · rw [if_pos hb]
      by_cases hz : rs1.timers.length = 0
      · rw [if_pos hz]
      · rw [if_neg hz]
        try rfl
    · rw [if_neg hb]
      try rfl
  obtain ⟨hcio, hrio⟩ := dispatchIos_reg env hER fuel 0 ⟨rs3, sys.ext⟩
  obtain ⟨hctm, hrtm⟩ := dispatchTimers_reg env hER p2.1 fuel 0
    ⟨p2.2, dio.sys.ext⟩
  rw [hsys, htr]
  have hcp : p2.2.idCounter = dio.sys.rs.idCounter := rfl
  constructor
  · calc sys.rs.idCounter = rs3.idCounter := hc3.symm
      _ ≤ dio.sys.rs.idCounter := hcio
      _ = p2.2.idCounter := hcp.symm
      _ ≤ dtm.sys.rs.idCounter := hctm
  · rw [← hc3]
    have hrio2 : RegSpec rs3.idCounter dio.sys.rs.idCounter dio.trace := hrio
    have hrtm2 : RegSpec dio.sys.rs.idCounter dtm.sys.rs.idCounter dtm.trace := by
      rw [← hcp]
      exact hrtm
    exact regSpec_append hrio2 hrtm2 hcio (hcp ▸ hctm)

/-- Facts about a full run: the invariant is preserved and retired ids
never fire again. -/
theorem runOps_main (clk : Clk) (ioProg : Nat → Nat → RState → List Act)
    (tmProg : Nat → RState → List Act) :
    ∀ (ops : List ROp) (s : RState), Inv s →
      Inv (runOps clk ioProg tmProg ops s).1 ∧
      (∀ k, IoRetired k s → IoRetired k (runOps clk ioProg tmProg ops s).1 ∧
        k ∉ ioFiredIds (runOps clk ioProg tmProg ops s).2) ∧
      (∀ k, TimerRetired k s →
        TimerRetired k (runOps clk ioProg tmProg ops s).1 ∧
        k ∉ timerFiredIds (runOps clk ioProg tmProg ops s).2) := by
  obtain ⟨hEI, hERg, hERet, hENF⟩ := actEnv_obligations clk ioProg tmProg
  intro ops
  induction ops with
  | nil =>
      intro s hInv
      exact ⟨hInv, fun k hk => ⟨hk, by simp [runOps, ioFiredIds]⟩,
        fun k hk => ⟨hk, by simp [runOps, timerFiredIds]⟩⟩
  | cons op rest ih =>
      intro s hInv
      cases op with
      | opAct a =>
          obtain ⟨hI1, _, _, hio1, htm1, hf1, hg1⟩ := runAct_facts clk s a
          obtain ⟨ihInv, ihIo, ihTm⟩ := ih (runAct clk s a).1 (hI1 hInv)
          refine ⟨ihInv, ?_, ?_⟩
          · intro k hk
            obtain ⟨hk1, hk2⟩ := ihIo k (hio1 k hk)
            refine ⟨hk1, ?_⟩
            show k ∉ ioFiredIds ((runAct clk s a).2 ++
              (runOps clk ioProg tmProg rest (runAct clk s a).1).2)
            rw [ioFiredIds_append, hf1, List.nil_append]
            exact hk2
          · intro k hk
            obtain ⟨hk1, hk2⟩ := ihTm k (htm1 k hk)
            refine ⟨hk1, ?_⟩
            show k ∉ timerFiredIds ((runAct clk s a).2 ++
              (runOps clk ioProg tmProg rest (runAct clk s a).1).2)
            rw [timerFiredIds_append, hg1, List.nil_append]
            exact hk2
      | opPoll block rv fuel =>
          obtain ⟨pInv, pIo, pTm, _, _, _, _⟩ :=
            pollStep_main (actEnv clk ioProg tmProg) hEI hERet hENF clk rv
              fuel block ⟨s, ()⟩ hInv
          obtain ⟨ihInv, ihIo, ihTm⟩ := ih
            (pollStep (actEnv clk ioProg tmProg) clk rv fuel block ⟨s, ()⟩).sys.rs
            pInv
          refine ⟨ihInv, ?_, ?_⟩
          · intro k hk
            obtain ⟨hk1, hk2⟩ := pIo k hk
            obtain ⟨hk3, hk4⟩ := ihIo k hk1
            refine ⟨hk3, ?_⟩
            show k ∉ ioFiredIds
              ((pollStep (actEnv clk ioProg tmProg) clk rv fuel block ⟨s, ()⟩).trace ++
                (runOps clk ioProg tmProg rest _).2)
            rw [ioFiredIds_append]
            intro hmem
            rcases List.mem_append.mp hmem with hmem | hmem
            · exact hk2 hmem
            · exact hk4 hmem
          · intro k hk
            obtain ⟨hk1, hk2⟩ := pTm k hk
            obtain ⟨hk3, hk4⟩ := ihTm k hk1
            refine ⟨hk3, ?_⟩
            show k ∉ timerFiredIds
              ((pollStep (actEnv clk ioProg tmProg) clk rv fuel block ⟨s, ()⟩).trace ++
                (runOps clk ioProg tmProg rest _).2)
            rw [timerFiredIds_append]
            intro hmem
            rcases List.mem_append.mp hmem with hmem | hmem
            · exact hk2 hmem
            · exact hk4 hmem

/-- A full run respects the registration discipline. -/
theorem runOps_reg (clk : Clk) (ioProg : Nat → Nat → RState → List Act)
    (tmProg : Nat → RState → List Act) :
    ∀ (ops : List ROp) (s : RState),
      s.idCounter ≤ (runOps clk ioProg tmProg ops s).1.idCounter ∧
      RegSpec s.idCounter (runOps clk ioProg tmProg ops s).1.idCounter
        (runOps clk ioProg tmProg ops s).2 := by
  obtain ⟨hEI, hERg, hERet, hENF⟩ := actEnv_obligations clk ioProg tmProg
  intro ops
  induction ops with
  | nil =>
      intro s
      exact ⟨le_refl _, regSpec_nil _⟩
  | cons op rest ih =>
      intro s
      cases op with
      | opAct a =>
          obtain ⟨_, hc1, hr1, _, _, _, _⟩ := runAct_facts clk s a
          obtain ⟨hc2, hr2⟩ := ih (runAct clk s a).1
          exact ⟨le_trans hc1 hc2, regSpec_append hr1 hr2 hc1 hc2⟩
      | opPoll block rv fuel =>
          obtain ⟨hc1, hr1⟩ := pollStep_reg (actEnv clk ioProg tmProg) hERg clk
            rv fuel block ⟨s, ()⟩
          obtain ⟨hc2, hr2⟩ := ih
            (pollStep (actEnv clk ioProg tmProg) clk rv fuel block ⟨s, ()⟩).sys.rs
          exact ⟨le_trans hc1 hc2, regSpec_append hr1 hr2 hc1 hc2⟩

/-- The I/O-marking loop really removes the (unique) live record with
the target id. -/
theorem unregIoList_removes (l : List IORec) (k : Nat) (hk : k ≠ 0) :
    ((l.map IORec.id).filter (fun n => n ≠ 0)).Nodup →
    ∀ r ∈ unregIoList l k, r.id ≠ k := by
  induction l with
  | nil =>
      intro _ r hr
      cases hr
  | cons q t ih =>
      intro hnd r hr
      by_cases hq : q.id = k
      · rw [unregIoList, if_pos hq] at hr
        rcases List.mem_cons.mp hr with hr | hr
        · rw [hr]
          exact fun hc => hk hc.symm
        · intro hc
          have hkin : k ∈ (t.map IORec.id).filter (fun n => n ≠ 0) := by
            rw [List.mem_filter]
            refine ⟨?_, by simpa using hk⟩
            rw [List.mem_map]
            exact ⟨r, hr, hc⟩
          rw [List.map_cons, List.filter_cons] at hnd
          rw [hq] at hnd
          have hkk : (decide (k ≠ 0)) = true := by simpa using hk
          rw [hkk] at hnd
          exact (List.nodup_cons.mp hnd).1 hkin
      · rw [unregIoList, if_neg hq] at hr
        rcases List.mem_cons.mp hr with hr | hr
        · rw [hr]
          exact hq
        · have hndt : ((t.map IORec.id).filter (fun n => n ≠ 0)).Nodup := by
            rw [List.map_cons, List.filter_cons] at hnd
            by_cases hq0 : q.id ≠ 0
            · rw [decide_eq_true hq0] at hnd
              exact (List.nodup_cons.mp hnd).2
            · push_neg at hq0
              rw [hq0] at hnd
              have h0 : (decide ((0 : Nat) ≠ 0)) = false := by decide
              rw [h0] at hnd
              exact hnd
          exact ih hndt r hr

/-- `unregister_io` on a live id retires it. -/
theorem unregisterIo_retires (s : RState) (k : Nat) (hInv : Inv s)
    (hk : k ≠ 0) (hle : k ≤ s.idCounter) : IoRetired k (unregisterIo k s) := by
  refine ⟨hk, hle, ?_⟩
  obtain ⟨hnd, _⟩ := hInv
  rw [liveIds_eq, List.nodup_append] at hnd
  exact unregIoList_removes s.ios k hk hnd.1

/-- Zero is never the id of a live handle. -/
theorem zero_not_mem_liveIds (s : RState) : 0 ∉ liveIds s := by
  rw [liveIds]
  intro h
  rw [List.mem_filter] at h
  simp at h

/-- C3: for all sequences of register/unregister calls interleaved with
poll calls — with callback bodies ranging over arbitrary sequences of
reactor-API calls — the reactor invariant is preserved; unregistering a
live id retires it; a retired I/O id never fires in any later run (ids
are never reused); within one poll call every I/O id fires at most once;
and every fired id is retired before its callback runs (the record is
marked dead first), so re-registering from inside the callback cannot
produce a second dispatch for the same event. -/
theorem io_interest_discipline (clk : Clk)
    (ioProg : Nat → Nat → RState → List Act)
    (tmProg : Nat → RState → List Act) :
    (∀ ops s, Inv s → Inv (runOps clk ioProg tmProg ops s).1) ∧
    (∀ s k, Inv s → k ≠ 0 → k ≤ s.idCounter →
      IoRetired k (unregisterIo k s)) ∧
    (∀ ops s k, Inv s → IoRetired k s →
      k ∉ ioFiredIds (runOps clk ioProg tmProg ops s).2) ∧
    (∀ (rv : Nat → Nat) (fuel : Nat) (block : Bool) (sys : Sys Unit),
      Inv sys.rs →
      (ioFiredIds
        (pollStep (actEnv clk ioProg tmProg) clk rv fuel block sys).trace).Nodup) ∧
    (∀ (rv : Nat → Nat) (fuel : Nat) (block : Bool) (sys : Sys Unit) (k : Nat),
      Inv sys.rs →
      k ∈ ioFiredIds
        (pollStep (actEnv clk ioProg tmProg) clk rv fuel block sys).trace →
      IoRetired k
        (pollStep (actEnv clk ioProg tmProg) clk rv fuel block sys).sys.rs) := by
  obtain ⟨hEI, hERg, hERet, hENF⟩ := actEnv_obligations clk ioProg tmProg
  refine ⟨?_, ?_, ?_, ?_, ?_⟩
  · intro ops s h
    exact (runOps_main clk ioProg tmProg ops s h).1
  · intro s k h hk hle
    exact unregisterIo_retires s k h hk hle
  · intro ops s k h hr
    exact ((runOps_main clk ioProg tmProg ops s h).2.1 k hr).2
  · intro rv fuel block sys h
    exact (pollStep_main _ hEI hERet hENF clk rv fuel block sys h).2.2.2.1
  · intro rv fuel block sys k h hm
    exact (pollStep_main _ hEI hERet hENF clk rv fuel block sys h).2.2.2.2.2.1
      k hm

/-- Witness for `io_interest_discipline`: a single blocking poll over a
one-interest table, and the no-fire guarantee for the retired id 2. -/
theorem io_interest_discipline_witness :
    Inv (runOps (fun _ => 0) (fun _ _ _ => []) (fun _ _ => [])
      [ROp.opPoll true (fun _ => 1) 4] ⟨1, [⟨1, 3, 1, 0, 9⟩], [], 0⟩).1 ∧
    (2 : Nat) ∉ ioFiredIds (runOps (fun _ => 0) (fun _ _ _ => [])
      (fun _ _ => []) [ROp.opPoll true (fun _ => 1) 4]
      ⟨2, [⟨1, 3, 1, 0, 9⟩], [], 0⟩).2 := by
  constructor
  · exact (io_interest_discipline (fun _ => 0) (fun _ _ _ => [])
      (fun _ _ => [])).1 [ROp.opPoll true (fun _ => 1) 4]
      ⟨1, [⟨1, 3, 1, 0, 9⟩], [], 0⟩ (by decide)
  · exact (io_interest_discipline (fun _ => 0) (fun _ _ _ => [])
      (fun _ _ => [])).2.2.1 [ROp.opPoll true (fun _ => 1) 4]
      ⟨2, [⟨1, 3, 1, 0, 9⟩], [], 0⟩ 2 (by decide) (by decide)

/-- C8: across any run — registrations made inside callbacks included —
every id handed out by `register_io`/`register_timer` is positive and
strictly greater than every earlier one (so ids are never reused), and
zero is never the id of a live handle. -/
theorem handle_ids_strictly_increasing (clk : Clk)
    (ioProg : Nat → Nat → RState → List Act)
    (tmProg : Nat → RState → List Act) (ops : List ROp) (s : RState) :
    List.Pairwise (fun a b => a < b)
      (regIds (runOps clk ioProg tmProg ops s).2) ∧
    (∀ i ∈ regIds (runOps clk ioProg tmProg ops s).2,
      0 < i ∧ s.idCounter < i) ∧
    0 ∉ liveIds (runOps clk ioProg tmProg ops s).1 := by
  obtain ⟨hmono, hp, hb⟩ := runOps_reg clk ioProg tmProg ops s
  refine ⟨hp, ?_, zero_not_mem_liveIds _⟩
  intro i hi
  have := hb i hi
  omega

/-! ### Liveness of records across the table rewrites -/

/-- Erasing a position holding a different value keeps counts. -/
theorem count_eraseIdx_of_ne [DecidableEq α] (l : List α) (i : Nat)
    (h : i < l.length) (x : α) (hx : x ≠ l.get ⟨i, h⟩) :
    (l.eraseIdx i).count x = l.count x := by
  rw [List.eraseIdx_eq_take_drop_succ]
  have hl : l = l.take i ++ l.get ⟨i, h⟩ :: l.drop (i + 1) := by
    conv_lhs => rw [← l.take_append_drop i]
    congr 1
    rw [List.drop_eq_getElem_cons h]
    rfl
  conv_rhs => rw [hl]
  rw [List.count_append, List.count_append, List.count_cons]
  have hx' : ¬ (l[i] = x) := fun he => hx he.symm
  simp [hx']

/-- The compaction does not change the multiplicity of live records. -/
theorem gcAux_count_live [DecidableEq α] (dead : α → Bool) (x : α)
    (hx : dead x = false) :
    ∀ (n : Nat) (l : List α) (i : Nat),
      (gcAux dead n l i).count x = l.count x := by
  intro n
  induction n with
  | zero => intro l i; rfl
  | succ m ih =>
      intro l i
      simp only [gcAux]
      by_cases h : i < l.length
      · rw [dif_pos h]
        by_cases hd : dead (l.get ⟨i, h⟩)
        · rw [if_pos hd]
          rw [ih]
          have hperm := set_getLast_dropLast_perm l i h
            (List.ne_nil_of_length_pos (by omega))
          rw [hperm.count_eq]
          apply count_eraseIdx_of_ne l i h x
          intro hc
          rw [hc, hd] at hx
          cases hx
        · rw [if_neg hd]
          exact ih l (i + 1)
      · rw [dif_neg h]

/-- Live records survive the compaction. -/
theorem gcAux_mem_live [DecidableEq α] (dead : α → Bool) (x : α)
    (hx : dead x = false) (n : Nat) (l : List α) (i : Nat) (hmem : x ∈ l) :
    x ∈ gcAux dead n l i := by
  have h1 : 0 < l.count x := List.count_pos_iff.mpr hmem
  have h2 := gcAux_count_live dead x hx n l i
  exact List.count_pos_iff.mp (by omega)

/-- Records whose id differs from the target survive the I/O marking
loop. -/
theorem unregIoList_mem_of_ne (l : List IORec) (j : Nat) (r : IORec)
    (hne : r.id ≠ j) : r ∈ l → r ∈ unregIoList l j := by
  induction l with
  | nil => intro h; cases h
  | cons q t ih =>
      intro hr
      by_cases hq : q.id = j
      · rw [unregIoList, if_pos hq]
        rcases List.mem_cons.mp hr with hr | hr
        · exfalso
          rw [hr] at hne
          exact hne hq
        · exact List.mem_cons_of_mem _ hr
      · rw [unregIoList, if_neg hq]
        rcases List.mem_cons.mp hr with hr | hr
        · rw [hr]
          exact List.mem_cons_self _ _
        · exact List.mem_cons_of_mem _ (ih hr)

/-- Records whose id differs from the target survive the timer marking
loop. -/
theorem unregTimerList_mem_of_ne (l : List TimerRec) (j : Nat) (t : TimerRec)
    (hne : t.id ≠ j) (ht : t ∈ l) : t ∈ unregTimerList l j := by
  rw [unregTimerList, List.mem_map]
  refine ⟨t, ht, ?_⟩
  rw [if_neg hne]

/-- Elements of the I/O marking loop's result come from the table,
possibly with a zeroed id. -/
theorem unregIoList_elems (l : List IORec) (j : Nat) :
    ∀ q ∈ unregIoList l j, q ∈ l ∨ ∃ p, p ∈ l ∧ q = { p with id := 0 } := by
  induction l with
  | nil => intro q hq; cases hq
  | cons r t ih =>
      intro q hq
      by_cases hr : r.id = j
      · rw [unregIoList, if_pos hr] at hq
        rcases List.mem_cons.mp hq with hq | hq
        · exact Or.inr ⟨r, List.mem_cons_self _ _, hq⟩
        · exact Or.inl (List.mem_cons_of_mem _ hq)
      · rw [unregIoList, if_neg hr] at hq
        rcases List.mem_cons.mp hq with hq | hq
        · exact Or.inl (by rw [hq]; exact List.mem_cons_self _ _)
        · rcases ih q hq with h | ⟨p, hp, hqp⟩
          · exact Or.inl (List.mem_cons_of_mem _ h)
          · exact Or.inr ⟨p, List.mem_cons_of_mem _ hp, hqp⟩

/-- Elements of the timer marking loop's result come from the table,
possibly with a zeroed id. -/
theorem unregTimerList_elems (l : List TimerRec) (j : Nat) :
    ∀ q ∈ unregTimerList l j, q ∈ l ∨ ∃ p, p ∈ l ∧ q = { p with id := 0 } := by
  intro q hq
  rw [unregTimerList, List.mem_map] at hq
  obtain ⟨p, hp, hpq⟩ := hq
  by_cases hj : p.id = j
  · rw [if_pos hj] at hpq
    exact Or.inr ⟨p, hp, hpq.symm⟩
  · rw [if_neg hj] at hpq
    exact Or.inl (hpq ▸ hp)

/-- An element distinct from the overwritten one survives a `set`. -/
theorem mem_set_of_ne_get (l : List α) (i : Nat) (h : i < l.length) (v q : α)
    (hq : q ∈ l) (hne : q ≠ l.get ⟨i, h⟩) : q ∈ l.set i v := by
  rw [List.mem_iff_getElem] at hq
  obtain ⟨j, hj, hjq⟩ := hq
  have hji : i ≠ j := by
    intro he
    subst he
    exact hne (by rw [← hjq]; rfl)
  rw [List.mem_iff_getElem]
  refine ⟨j, by rw [List.length_set]; omega, ?_⟩
  rw [List.getElem_set_ne hji _, hjq]

/-- Existence of a record with given id and callback is preserved by an
id- and callback-preserving `mapIdx`. -/
theorem exists_mem_mapIdx (l : List IORec) (f : Nat → IORec → IORec)
    (hf : ∀ i r, (f i r).id = r.id ∧ (f i r).cb = r.cb) (rid c : Nat)
    (h : ∃ r ∈ l, r.id = rid ∧ r.cb = c) :
    ∃ r ∈ l.mapIdx f, r.id = rid ∧ r.cb = c := by
  obtain ⟨r, hr, hid, hcb⟩ := h
  rw [List.mem_iff_getElem] at hr
  obtain ⟨j, hj, hjr⟩ := hr
  refine ⟨f j r, ?_, by rw [(hf j r).1, hid], by rw [(hf j r).2, hcb]⟩
  rw [List.mem_iff_getElem]
  refine ⟨j, by rw [List.length_mapIdx]; omega, ?_⟩
  rw [List.getElem_mapIdx, hjr]

/-- Elements of a `mapIdx` image come from the table. -/
theorem mem_mapIdx_elems (l : List IORec) (f : Nat → IORec → IORec) :
    ∀ q ∈ l.mapIdx f, ∃ j r, r ∈ l ∧ q = f j r := by
  intro q hq
  rw [List.mem_iff_getElem] at hq
  obtain ⟨j, hj, hjq⟩ := hq
  have hjl : j < l.length := by
    rw [List.length_mapIdx] at hj
    exact hj
  refine ⟨j, l.get ⟨j, hjl⟩, List.get_mem _ _ _, ?_⟩
  rw [← hjq, List.getElem_mapIdx]
  rfl

/-- The timer marking loop removes every occurrence of the target id
(the C loop has no `break`). -/
theorem unregTimerList_removes (l : List TimerRec) (k : Nat) (hk : k ≠ 0) :
    ∀ r ∈ unregTimerList l k, r.id ≠ k := by
  intro r hr
  rw [unregTimerList, List.mem_map] at hr
  obtain ⟨p, _, hpr⟩ := hr
  by_cases hp : p.id = k
  · rw [if_pos hp] at hpr
    rw [← hpr]
    exact fun hc => hk hc.symm
  · rw [if_neg hp] at hpr
    rw [← hpr]
    exact hp

/-- `unregister_timer` on a handed-out id retires it. -/
theorem unregisterTimer_retires (s : RState) (k : Nat) (hk : k ≠ 0)
    (hle : k ≤ s.idCounter) : TimerRetired k (unregisterTimer k s) :=
  ⟨hk, hle, unregTimerList_removes s.timers k hk⟩

/-! ### Transport of the stream phases across table rewrites -/

/-- Existence of a record with given id and callback is preserved by an
id- and callback-preserving `map`. -/
theorem exists_mem_map_io (l : List IORec) (f : IORec → IORec)
    (hf : ∀ r, (f r).id = r.id ∧ (f r).cb = r.cb) (rid c : Nat)
    (h : ∃ r ∈ l, r.id = rid ∧ r.cb = c) :
    ∃ r ∈ l.map f, r.id = rid ∧ r.cb = c := by
  obtain ⟨r, hr, hid, hcb⟩ := h
  exact ⟨f r, List.mem_map_of_mem f hr, by rw [(hf r).1, hid],
    by rw [(hf r).2, hcb]⟩

/-- Live records of a table with one entry zeroed trace back to the
original table. -/
theorem live_backward_set_io (l : List IORec) (i : Nat) (v : IORec)
    (hv : v.id = 0) :
    ∀ q ∈ l.set i v, q.id ≠ 0 → ∃ p ∈ l, q.id = p.id ∧ q.cb = p.cb := by
  intro q hq hq0
  rcases List.mem_or_eq_of_mem_set hq with hq | hq
  · exact ⟨q, hq, rfl, rfl⟩
  · rw [hq, hv] at hq0
    exact absurd rfl hq0

/-- Timer version of `live_backward_set_io`. -/
theorem live_backward_set_tm (l : List TimerRec) (i : Nat) (v : TimerRec)
    (hv : v.id = 0) :
    ∀ q ∈ l.set i v, q.id ≠ 0 → ∃ p ∈ l, q.id = p.id ∧ q.cb = p.cb := by
  intro q hq hq0
  rcases List.mem_or_eq_of_mem_set hq with hq | hq
  · exact ⟨q, hq, rfl, rfl⟩
  · rw [hq, hv] at hq0
    exact absurd rfl hq0

/-- Live records after the I/O marking loop trace back to the table. -/
theorem live_backward_unregIo (l : List IORec) (j : Nat) :
    ∀ q ∈ unregIoList l j, q.id ≠ 0 → ∃ p ∈ l, q.id = p.id ∧ q.cb = p.cb := by
  intro q hq hq0
  rcases unregIoList_elems l j q hq with h | ⟨p, hp, hqp⟩
  · exact ⟨q, h, rfl, rfl⟩
  · rw [hqp] at hq0
    exact absurd rfl hq0

/-- Live records after the timer marking loop trace back to the table. -/
theorem live_backward_unregTm (l : List TimerRec) (j : Nat) :
    ∀ q ∈ unregTimerList l j, q.id ≠ 0 → ∃ p ∈ l, q.id = p.id ∧ q.cb = p.cb := by
  intro q hq hq0
  rcases unregTimerList_elems l j q hq with h | ⟨p, hp, hqp⟩
  · exact ⟨q, h, rfl, rfl⟩
  · rw [hqp] at hq0
    exact absurd rfl hq0

/-- `ReadWf` transports along any rewrite under which live records trace
back with their id and callback. -/
theorem readWf_of_backward (rid tid : Nat) (sys sys' : Sys StreamSt)
    (hib : ∀ q ∈ sys'.rs.ios, q.id ≠ 0 →
      ∃ p ∈ sys.rs.ios, q.id = p.id ∧ q.cb = p.cb)
    (htb : ∀ q ∈ sys'.rs.timers, q.id ≠ 0 →
      ∃ p ∈ sys.rs.timers, q.id = p.id ∧ q.cb = p.cb)
    (h : ReadWf rid tid sys) : ReadWf rid tid sys' := by
  constructor
  · intro q hq hq0 hqc
    obtain ⟨p, hp, hid, hcb⟩ := hib q hq hq0
    rw [hid]
    exact h.1 p hp (by rw [← hid]; exact hq0) (by rw [← hcb]; exact hqc)
  · intro q hq hq0 hqc
    obtain ⟨p, hp, hid, hcb⟩ := htb q hq hq0
    rw [hid]
    exact h.2 p hp (by rw [← hid]; exact hq0) (by rw [← hcb]; exact hqc)

/-- `WriteWf` transports along the same rewrites. -/
theorem writeWf_of_backward (wid wtd : Nat) (sys sys' : Sys StreamSt)
    (hib : ∀ q ∈ sys'.rs.ios, q.id ≠ 0 →
      ∃ p ∈ sys.rs.ios, q.id = p.id ∧ q.cb = p.cb)
    (htb : ∀ q ∈ sys'.rs.timers, q.id ≠ 0 →
      ∃ p ∈ sys.rs.timers, q.id = p.id ∧ q.cb = p.cb)
    (h : WriteWf wid wtd sys) : WriteWf wid wtd sys' := by
  constructor
  · intro q hq hq0 hqc
    obtain ⟨p, hp, hid, hcb⟩ := hib q hq hq0
    rw [hid]
    exact h.1 p hp (by rw [← hid]; exact hq0) (by rw [← hcb]; exact hqc)
  · intro q hq hq0 hqc
    obtain ⟨p, hp, hid, hcb⟩ := htb q hq hq0
    rw [hid]
    exact h.2 p hp (by rw [← hid]; exact hq0) (by rw [← hcb]; exact hqc)

/-- `IoRetired` transports along counter-monotone rewrites under which
live records trace back. -/
theorem ioRetired_of_backward (k : Nat) (s s' : RState)
    (hc : s.idCounter ≤ s'.idCounter)
    (hib : ∀ q ∈ s'.ios, q.id ≠ 0 → ∃ p ∈ s.ios, q.id = p.id ∧ q.cb = p.cb)
    (h : IoRetired k s) : IoRetired k s' := by
  obtain ⟨h0, hle, hno⟩ := h
  refine ⟨h0, le_trans hle hc, ?_⟩
  intro r hr
  by_cases hr0 : r.id = 0
  · rw [hr0]
    exact fun hcm => h0 hcm.symm
  · obtain ⟨p, hp, hid, _⟩ := hib r hr hr0
    rw [hid]
    exact hno p hp

/-- `TimerRetired` transports along the same rewrites. -/
theorem timerRetired_of_backward (k : Nat) (s s' : RState)
    (hc : s.idCounter ≤ s'.idCounter)
    (htb : ∀ q ∈ s'.timers, q.id ≠ 0 → ∃ p ∈ s.timers, q.id = p.id ∧ q.cb = p.cb)
    (h : TimerRetired k s) : TimerRetired k s' := by
  obtain ⟨h0, hle, hno⟩ := h
  refine ⟨h0, le_trans hle hc, ?_⟩
  intro r hr
  by_cases hr0 : r.id = 0
  · rw [hr0]
    exact fun hcm => h0 hcm.symm
  · obtain ⟨p, hp, hid, _⟩ := htb r hr hr0
    rw [hid]
    exact hno p hp

/-- `ReadDone` transports along counter-monotone, live-backward rewrites
that keep the stream's read handle fields. -/
theorem readDone_of_backward (rid tid : Nat) (sys sys' : Sys StreamSt)
    (hc : sys.rs.idCounter ≤ sys'.rs.idCounter)
    (hib : ∀ q ∈ sys'.rs.ios, q.id ≠ 0 →
      ∃ p ∈ sys.rs.ios, q.id = p.id ∧ q.cb = p.cb)
    (htb : ∀ q ∈ sys'.rs.timers, q.id ≠ 0 →
      ∃ p ∈ sys.rs.timers, q.id = p.id ∧ q.cb = p.cb)
    (hr1 : sys'.ext.readIoId = sys.ext.readIoId)
    (hr2 : sys'.ext.readTimeoutId = sys.ext.readTimeoutId)
    (h : ReadDone rid tid sys) : ReadDone rid tid sys' := by
  obtain ⟨h1, h2, h3, h4⟩ := h
  exact ⟨by rw [hr1, h1], by rw [hr2, h2],
    ioRetired_of_backward rid sys.rs sys'.rs hc hib h3,
    timerRetired_of_backward tid sys.rs sys'.rs hc htb h4⟩

/-- `WriteDone` transports along the same rewrites. -/
theorem writeDone_of_backward (wid wtd : Nat) (sys sys' : Sys StreamSt)
    (hc : sys.rs.idCounter ≤ sys'.rs.idCounter)
    (hib : ∀ q ∈ sys'.rs.ios, q.id ≠ 0 →
      ∃ p ∈ sys.rs.ios, q.id = p.id ∧ q.cb = p.cb)
    (htb : ∀ q ∈ sys'.rs.timers, q.id ≠ 0 →
      ∃ p ∈ sys.rs.timers, q.id = p.id ∧ q.cb = p.cb)
    (hw1 : sys'.ext.writeIoId = sys.ext.writeIoId)
    (hw2 : sys'.ext.writeTimeoutId = sys.ext.writeTimeoutId)
    (h : WriteDone wid wtd sys) : WriteDone wid wtd sys' := by
  obtain ⟨h1, h2, h3, h4⟩ := h
  exact ⟨by rw [hw1, h1], by rw [hw2, h2],
    ioRetired_of_backward wid sys.rs sys'.rs hc hib h3,
    timerRetired_of_backward wtd sys.rs sys'.rs hc htb h4⟩

/-- `ReadPending` is re-established from survival of the two read
records and stability (or clearing) of the write handle fields. -/
theorem readPending_glue (rid tid : Nat) (sys sys' : Sys StreamSt)
    (hc : sys.rs.idCounter ≤ sys'.rs.idCounter)
    (hr1 : sys'.ext.readIoId = sys.ext.readIoId)
    (hr2 : sys'.ext.readTimeoutId = sys.ext.readTimeoutId)
    (hw1 : sys'.ext.writeIoId = sys.ext.writeIoId ∨ sys'.ext.writeIoId = 0)
    (hw2 : sys'.ext.writeTimeoutId = sys.ext.writeTimeoutId ∨
      sys'.ext.writeTimeoutId = 0)
    (hex1 : ∃ r ∈ sys'.rs.ios, r.id = rid ∧ r.cb = cbReadIo)
    (hex2 : ∃ t ∈ sys'.rs.timers, t.id = tid ∧ t.cb = cbReadTimeout)
    (h : ReadPending rid tid sys) : ReadPending rid tid sys' := by
  obtain ⟨h0, h1, h2, h3, h4, h5, _, _, h8, h9⟩ := h
  refine ⟨h0, h1, by rw [hr1, h2], by rw [hr2, h3], le_trans h4 hc,
    le_trans h5 hc, hex1, hex2, ?_, ?_⟩
  · rcases hw1 with hw | hw
    · rw [hw]
      exact h8
    · rw [hw]
      exact fun hcm => h0 hcm.symm
  · rcases hw2 with hw | hw
    · rw [hw]
      exact h9
    · rw [hw]
      exact fun hcm => h1 hcm.symm

/-- `WritePending` is re-established symmetrically. -/
theorem writePending_glue (wid wtd : Nat) (sys sys' : Sys StreamSt)
    (hc : sys.rs.idCounter ≤ sys'.rs.idCounter)
    (hw1 : sys'.ext.writeIoId = sys.ext.writeIoId)
    (hw2 : sys'.ext.writeTimeoutId = sys.ext.writeTimeoutId)
    (hr1 : sys'.ext.readIoId = sys.ext.readIoId ∨ sys'.ext.readIoId = 0)
    (hr2 : sys'.ext.readTimeoutId = sys.ext.readTimeoutId ∨
      sys'.ext.readTimeoutId = 0)
    (hex1 : ∃ r ∈ sys'.rs.ios, r.id = wid ∧ r.cb = cbWriteIo)
    (hex2 : ∃ t ∈ sys'.rs.timers, t.id = wtd ∧ t.cb = cbWriteTimeout)
    (h : WritePending wid wtd sys) : WritePending wid wtd sys' := by
  obtain ⟨h0, h1, h2, h3, h4, h5, _, _, h8, h9⟩ := h
  refine ⟨h0, h1, by rw [hw1, h2], by rw [hw2, h3], le_trans h4 hc,
    le_trans h5 hc, hex1, hex2, ?_, ?_⟩
  · rcases hr1 with hw | hw
    · rw [hw]
      exact h8
    · rw [hw]
      exact fun hcm => h0 hcm.symm
  · rcases hr2 with hw | hw
    · rw [hw]
      exact h9
    · rw [hw]
      exact fun hcm => h1 hcm.symm

/-! ### The stream callbacks, case by case -/

/-- Unfolding of the stream environment's I/O dispatch table. -/
theorem streamEnv_onIo (rdO wrO : Nat → RWOut) (cb rvts : Nat)
    (sys : Sys StreamSt) :
    (streamEnv rdO wrO).onIo cb rvts sys =
      if cb = cbReadIo then readIoCb rdO rvts sys
      else if cb = cbWriteIo then writeIoCb wrO rvts sys
      else (sys, []) := rfl

/-- Unfolding of the stream environment's timer dispatch table. -/
theorem streamEnv_onTimer (rdO wrO : Nat → RWOut) (cb : Nat)
    (sys : Sys StreamSt) :
    (streamEnv rdO wrO).onTimer cb sys =
      if cb = cbReadTimeout then readTimeoutCb sys
      else if cb = cbWriteTimeout then writeTimeoutCb sys
      else (sys, []) := rfl

/-- `read_io_callback` in every branch: it cancels the read timer and
clears the read handle fields, leaves the write handle fields alone, and
invokes the caller's read callback exactly once with `Ok`, `Hup` or
`IoError`. -/
theorem readIoCb_effect (rdO : Nat → RWOut) (rvts : Nat)
    (sys : Sys StreamSt) :
    (readIoCb rdO rvts sys).1.rs = unregisterTimer sys.ext.readTimeoutId sys.rs ∧
    (readIoCb rdO rvts sys).1.ext.readIoId = 0 ∧
    (readIoCb rdO rvts sys).1.ext.readTimeoutId = 0 ∧
    (readIoCb rdO rvts sys).1.ext.writeIoId = sys.ext.writeIoId ∧
    (readIoCb rdO rvts sys).1.ext.writeTimeoutId = sys.ext.writeTimeoutId ∧
    ∃ res n, (readIoCb rdO rvts sys).2 = [Ev.streamDone true res n] ∧
      (res = AppResult.ok ∨ res = AppResult.hup ∨ res = AppResult.ioError ∨
        res = AppResult.timeout) := by
  simp only [readIoCb]
  by_cases h1 : rvts &&& appEventHup ≠ 0
  · rw [if_pos h1]
    exact ⟨rfl, rfl, rfl, rfl, rfl, AppResult.hup, 0, rfl, Or.inr (Or.inl rfl)⟩
  · rw [if_neg h1]
    by_cases h2 : rvts &&& appEventIn ≠ 0
    · rw [if_pos h2]
      cases hr : rdO sys.ext.rdIdx with
      | rwOk n =>
          exact ⟨rfl, rfl, rfl, rfl, rfl, AppResult.ok, n, rfl, Or.inl rfl⟩
      | rwEagain =>
          exact ⟨rfl, rfl, rfl, rfl, rfl, AppResult.ok, 0, rfl, Or.inl rfl⟩
      | rwErr =>
          exact ⟨rfl, rfl, rfl, rfl, rfl, AppResult.ioError, 0, rfl,
            Or.inr (Or.inr (Or.inl rfl))⟩
    · rw [if_neg h2]
      exact ⟨rfl, rfl, rfl, rfl, rfl, AppResult.ioError, 0, rfl,
        Or.inr (Or.inr (Or.inl rfl))⟩

/-- `write_io_callback` in every branch: the write-direction mirror. -/
theorem writeIoCb_effect (wrO : Nat → RWOut) (rvts : Nat)
    (sys : Sys StreamSt) :
    (writeIoCb wrO rvts sys).1.rs = unregisterTimer sys.ext.writeTimeoutId sys.rs ∧
    (writeIoCb wrO rvts sys).1.ext.writeIoId = 0 ∧
    (writeIoCb wrO rvts sys).1.ext.writeTimeoutId = 0 ∧
    (writeIoCb wrO rvts sys).1.ext.readIoId = sys.ext.readIoId ∧
    (writeIoCb wrO rvts sys).1.ext.readTimeoutId = sys.ext.readTimeoutId ∧
    ∃ res n, (writeIoCb wrO rvts sys).2 = [Ev.streamDone false res n] ∧
      (res = AppResult.ok ∨ res = AppResult.hup ∨ res = AppResult.ioError ∨
        res = AppResult.timeout) := by
  simp only [writeIoCb]
  by_cases h1 : rvts &&& appEventHup ≠ 0
  · rw [if_pos h1]
    exact ⟨rfl, rfl, rfl, rfl, rfl, AppResult.hup, 0, rfl, Or.inr (Or.inl rfl)⟩
  · rw [if_neg h1]
    by_cases h2 : rvts &&& appEventOut ≠ 0
    · rw [if_pos h2]
      cases hr : wrO sys.ext.wrIdx with
      | rwOk n =>
          exact ⟨rfl, rfl, rfl, rfl, rfl, AppResult.ok, n, rfl, Or.inl rfl⟩
      | rwEagain =>
          exact ⟨rfl, rfl, rfl, rfl, rfl, AppResult.ok, 0, rfl, Or.inl rfl⟩
      | rwErr =>
          exact ⟨rfl, rfl, rfl, rfl, rfl, AppResult.ioError, 0, rfl,
            Or.inr (Or.inr (Or.inl rfl))⟩
    · rw [if_neg h2]
      exact ⟨rfl, rfl, rfl, rfl, rfl, AppResult.ioError, 0, rfl,
        Or.inr (Or.inr (Or.inl rfl))⟩

/-- `read_timeout_callback`: it cancels the read I/O interest, clears
the read handle fields, leaves the write handle fields alone, and
invokes the caller's read callback exactly once with `TimedOut`. -/
theorem readTimeoutCb_effect (sys : Sys StreamSt) :
    (readTimeoutCb sys).1.rs = unregisterIo sys.ext.readIoId sys.rs ∧
    (readTimeoutCb sys).1.ext.readIoId = 0 ∧
    (readTimeoutCb sys).1.ext.readTimeoutId = 0 ∧
    (readTimeoutCb sys).1.ext.writeIoId = sys.ext.writeIoId ∧
    (readTimeoutCb sys).1.ext.writeTimeoutId = sys.ext.writeTimeoutId ∧
    (readTimeoutCb sys).2 = [Ev.streamDone true AppResult.timeout 0] :=
  ⟨rfl, rfl, rfl, rfl, rfl, rfl⟩

/-- `write_timeout_callback`: the write-direction mirror. -/
theorem writeTimeoutCb_effect (sys : Sys StreamSt) :
    (writeTimeoutCb sys).1.rs = unregisterIo sys.ext.writeIoId sys.rs ∧
    (writeTimeoutCb sys).1.ext.writeIoId = 0 ∧
    (writeTimeoutCb sys).1.ext.writeTimeoutId = 0 ∧
    (writeTimeoutCb sys).1.ext.readIoId = sys.ext.readIoId ∧
    (writeTimeoutCb sys).1.ext.readTimeoutId = sys.ext.readTimeoutId ∧
    (writeTimeoutCb sys).2 = [Ev.streamDone false AppResult.timeout 0] :=
  ⟨rfl, rfl, rfl, rfl, rfl, rfl⟩

/-! ### Completion-callback bookkeeping -/

/-- `streamDones` distributes over append. -/
theorem streamDones_append (b : Bool) (a c : List Ev) :
    streamDones b (a ++ c) = streamDones b a ++ streamDones b c := by
  simp [streamDones]

/-- Reactor dispatch events are not completion callbacks. -/
theorem streamDones_cons_fired (b : Bool) (id cb rv : Nat) (t : List Ev) :
    streamDones b (Ev.ioFired id cb rv :: t) = streamDones b t := rfl

/-- Timer dispatch events are not completion callbacks. -/
theorem streamDones_cons_tfired (b : Bool) (id cb : Nat) (t : List Ev) :
    streamDones b (Ev.timerFired id cb :: t) = streamDones b t := rfl

/-- A completion callback of the requested direction is recorded. -/
theorem streamDones_cons_same (b : Bool) (res : AppResult) (n : Int)
    (t : List Ev) :
    streamDones b (Ev.streamDone b res n :: t) = (res, n) :: streamDones b t := by
  simp [streamDones]

/-- A completion callback of the other direction is not recorded. -/
theorem streamDones_cons_other (b d : Bool) (hd : d ≠ b) (res : AppResult)
    (n : Int) (t : List Ev) :
    streamDones b (Ev.streamDone d res n :: t) = streamDones b t := by
  simp [streamDones, hd]

/-- The I/O dispatch loop under the stream's callbacks, read direction:
the invariant and well-formedness persist; a completed read stays
completed with no further read completion callback; an outstanding read
either stays outstanding with no read completion callback, or completes
with exactly one read completion callback carrying an allowed result,
its I/O interest and its competing timer both retired. -/
theorem dispatchIos_read (rdO wrO : Nat → RWOut) (rid tid : Nat) :
    ∀ (fuel i : Nat) (sys : Sys StreamSt), Inv sys.rs → ReadWf rid tid sys →
      Inv (dispatchIos (streamEnv rdO wrO) fuel i sys).sys.rs ∧
      ReadWf rid tid (dispatchIos (streamEnv rdO wrO) fuel i sys).sys ∧
      (ReadDone rid tid sys →
        streamDones true (dispatchIos (streamEnv rdO wrO) fuel i sys).trace = [] ∧
        ReadDone rid tid (dispatchIos (streamEnv rdO wrO) fuel i sys).sys) ∧
      (ReadPending rid tid sys →
        (streamDones true (dispatchIos (streamEnv rdO wrO) fuel i sys).trace = [] ∧
          ReadPending rid tid (dispatchIos (streamEnv rdO wrO) fuel i sys).sys) ∨
        (∃ res n,
          streamDones true (dispatchIos (streamEnv rdO wrO) fuel i sys).trace =
            [(res, n)] ∧
          (res = AppResult.ok ∨ res = AppResult.hup ∨ res = AppResult.ioError ∨
            res = AppResult.timeout) ∧
          ReadDone rid tid (dispatchIos (streamEnv rdO wrO) fuel i sys).sys)) := by
  intro fuel
  induction fuel with
  | zero =>
      intro i sys hInv hWf
      exact ⟨hInv, hWf, fun hD => ⟨rfl, hD⟩, fun hP => Or.inl ⟨rfl, hP⟩⟩
  | succ fuel ih =>
      intro i sys hInv hWf
      by_cases h : i < sys.rs.ios.length
      · by_cases hfire : (sys.rs.ios.get ⟨i, h⟩).revents ≠ 0 ∧
            (sys.rs.ios.get ⟨i, h⟩).id ≠ 0
        · have hunf : dispatchIos (streamEnv rdO wrO) (fuel + 1) i sys =
              (let s1 : Sys StreamSt := { sys with rs := { sys.rs with
                  ios := sys.rs.ios.set i { sys.rs.ios.get ⟨i, h⟩ with id := 0 } } }
               let p := (streamEnv rdO wrO).onIo (sys.rs.ios.get ⟨i, h⟩).cb
                 (sys.rs.ios.get ⟨i, h⟩).revents s1
               let rest := dispatchIos (streamEnv rdO wrO) fuel (i + 1) p.1
               ⟨rest.sys, Ev.ioFired (sys.rs.ios.get ⟨i, h⟩).id
                 (sys.rs.ios.get ⟨i, h⟩).cb (sys.rs.ios.get ⟨i, h⟩).revents ::
                   (p.2 ++ rest.trace), rest.completed⟩) := by
            simp only [dispatchIos, dif_pos h, if_pos hfire]
          rw [hunf]
          simp only []
          set s1 : Sys StreamSt := { sys with rs := { sys.rs with
              ios := sys.rs.ios.set i { sys.rs.ios.get ⟨i, h⟩ with id := 0 } } } with hs1
          set p := (streamEnv rdO wrO).onIo (sys.rs.ios.get ⟨i, h⟩).cb
            (sys.rs.ios.get ⟨i, h⟩).revents s1 with hp
          have hInv1 : Inv s1.rs := inv_mark_io sys.rs i h hInv
          have hWf1 : ReadWf rid tid s1 :=
            readWf_of_backward rid tid sys s1
              (live_backward_set_io sys.rs.ios i _ rfl)
              (fun q hq _ => ⟨q, hq, rfl, rfl⟩) hWf
          by_cases hcbR : (sys.rs.ios.get ⟨i, h⟩).cb = cbReadIo
          · -- the read I/O interest fires
            have hpr : p = readIoCb rdO (sys.rs.ios.get ⟨i, h⟩).revents s1 := by
              rw [hp, streamEnv_onIo, if_pos hcbR]
            have heff := readIoCb_effect rdO (sys.rs.ios.get ⟨i, h⟩).revents s1
            rw [← hpr] at heff
            obtain ⟨e1, e2, e3, e4, e5, res, n, e6, hres⟩ := heff
            have hInv2 : Inv p.1.rs := by
              rw [e1]
              exact inv_unregisterTimer _ s1.rs hInv1
            have hWf2 : ReadWf rid tid p.1 := by
              refine readWf_of_backward rid tid s1 p.1 ?_ ?_ hWf1
              · rw [e1]
                exact fun q hq _ => ⟨q, hq, rfl, rfl⟩
              · rw [e1]
                exact live_backward_unregTm s1.rs.timers _
            obtain ⟨ihInv, ihWf, ihDone, ihPend⟩ := ih (i + 1) p.1 hInv2 hWf2
            refine ⟨ihInv, ihWf, ?_, ?_⟩
            · intro hD
              exact absurd (hWf.1 _ (List.get_mem sys.rs.ios i h) hfire.2 hcbR)
                (hD.2.2.1.2.2 _ (List.get_mem sys.rs.ios i h))
            · intro hP
              have hrid : (sys.rs.ios.get ⟨i, h⟩).id = rid :=
                hWf.1 _ (List.get_mem sys.rs.ios i h) hfire.2 hcbR
              have htid : s1.ext.readTimeoutId = tid := hP.2.2.2.1
              have hD1 : ReadDone rid tid p.1 := by
                refine ⟨e2, e3, ?_, ?_⟩
                · rw [e1]
                  apply retired_io_unregisterTimer
                  have hm := mark_io_retires sys.rs i h hInv hfire.2
                  rw [hrid] at hm
                  exact hm
                · rw [e1, htid]
                  exact unregisterTimer_retires s1.rs tid hP.2.1
                    hP.2.2.2.2.2.1
              obtain ⟨htr0, hDfin⟩ := ihDone hD1
              right
              refine ⟨res, n, ?_, hres, hDfin⟩
              rw [streamDones_cons_fired, streamDones_append, e6, htr0]
              simp [streamDones]
          · by_cases hcbW : (sys.rs.ios.get ⟨i, h⟩).cb = cbWriteIo
            · -- the write I/O interest fires: inert for the read direction
              have hpr : p = writeIoCb wrO (sys.rs.ios.get ⟨i, h⟩).revents s1 := by
                rw [hp, streamEnv_onIo, if_neg hcbR, if_pos hcbW]
              have heff := writeIoCb_effect wrO (sys.rs.ios.get ⟨i, h⟩).revents s1
              rw [← hpr] at heff
              obtain ⟨e1, e2, e3, e4, e5, res, n, e6, hres⟩ := heff
              have hInv2 : Inv p.1.rs := by
                rw [e1]
                exact inv_unregisterTimer _ s1.rs hInv1
              have hWf2 : ReadWf rid tid p.1 := by
                refine readWf_of_backward rid tid s1 p.1 ?_ ?_ hWf1
                · rw [e1]
                  exact fun q hq _ => ⟨q, hq, rfl, rfl⟩
                · rw [e1]
                  exact live_backward_unregTm s1.rs.timers _
              obtain ⟨ihInv, ihWf, ihDone, ihPend⟩ := ih (i + 1) p.1 hInv2 hWf2
              refine ⟨ihInv, ihWf, ?_, ?_⟩
              · intro hD
                have hD1 : ReadDone rid tid p.1 := by
                  refine ⟨by rw [e4]; exact hD.1, by rw [e5]; exact hD.2.1, ?_, ?_⟩
                  · rw [e1]
                    apply retired_io_unregisterTimer
                    exact retired_io_mark_io rid sys.rs i _ rfl hD.2.2.1
                  · rw [e1]
                    apply retired_timer_unregisterTimer
                    obtain ⟨h0, hle, hno⟩ := hD.2.2.2
                    exact ⟨h0, hle, hno⟩
                obtain ⟨htr0, hDfin⟩ := ihDone hD1
                refine ⟨?_, hDfin⟩
                rw [streamDones_cons_fired, streamDones_append, e6, htr0,
                  streamDones_cons_other true false (by decide)]
                rfl
              · intro hP
                obtain ⟨h0, h1, h2, h3, h4, h5, hex1, hex2, h8, h9⟩ := hP
                have hP1 : ReadPending rid tid p.1 := by
                  refine readPending_glue rid tid sys p.1 (by rw [e1]; exact Nat.le.refl)
                    e4 e5 (Or.inr e2) (Or.inr e3) ?_ ?_
                    ⟨h0, h1, h2, h3, h4, h5, hex1, hex2, h8, h9⟩
                  · obtain ⟨q, hq, hqid, hqcb⟩ := hex1
                    have hne : q ≠ sys.rs.ios.get ⟨i, h⟩ := by
                      intro he
                      rw [← he] at hcbR
                      exact hcbR hqcb
                    rw [e1]
                    exact ⟨q, mem_set_of_ne_get sys.rs.ios i h _ q hq hne, hqid, hqcb⟩
                  · obtain ⟨t, ht, htid2, htcb⟩ := hex2
                    rw [e1]
                    refine ⟨t, ?_, htid2, htcb⟩
                    apply unregTimerList_mem_of_ne s1.rs.timers _ t ?_ ht
                    rw [htid2]
                    exact Ne.symm h9
                rcases ihPend hP1 with ⟨htq, hPf⟩ | ⟨res2, n2, htr2, hres2, hDf⟩
                · left
                  refine ⟨?_, hPf⟩
                  rw [streamDones_cons_fired, streamDones_append, e6, htq,
                    streamDones_cons_other true false (by decide)]
                  rfl
                · right
                  refine ⟨res2, n2, ?_, hres2, hDf⟩
                  rw [streamDones_cons_fired, streamDones_append, e6, htr2,
                    streamDones_cons_other true false (by decide)]
                  rfl
            · -- a foreign I/O interest fires: no stream callback runs
              have hpr : p = (s1, []) := by
                rw [hp, streamEnv_onIo, if_neg hcbR, if_neg hcbW]
              have hInv2 : Inv p.1.rs := by
                rw [hpr]
                exact hInv1
              have hWf2 : ReadWf rid tid p.1 := by
                rw [hpr]
                exact hWf1
              obtain ⟨ihInv, ihWf, ihDone, ihPend⟩ := ih (i + 1) p.1 hInv2 hWf2
              refine ⟨ihInv, ihWf, ?_, ?_⟩
              · intro hD
                have hD1 : ReadDone rid tid p.1 := by
                  rw [hpr]
                  refine ⟨hD.1, hD.2.1,
                    retired_io_mark_io rid sys.rs i _ rfl hD.2.2.1, ?_⟩
                  obtain ⟨h0, hle, hno⟩ := hD.2.2.2
                  exact ⟨h0, hle, hno⟩
                obtain ⟨htr0, hDfin⟩ := ihDone hD1
                refine ⟨?_, hDfin⟩
                have hp2 : p.2 = [] := by rw [hpr]
                rw [streamDones_cons_fired, streamDones_append, hp2, htr0]
                rfl
              · intro hP
                obtain ⟨h0, h1, h2, h3, h4, h5, hex1, hex2, h8, h9⟩ := hP
                have hP1 : ReadPending rid tid p.1 := by
                  rw [hpr]
                  refine readPending_glue rid tid sys s1 Nat.le.refl rfl rfl
                    (Or.inl rfl) (Or.inl rfl) ?_ ?_
                    ⟨h0, h1, h2, h3, h4, h5, hex1, hex2, h8, h9⟩
                  · obtain ⟨q, hq, hqid, hqcb⟩ := hex1
                    have hne : q ≠ sys.rs.ios.get ⟨i, h⟩ := by
                      intro he
                      rw [← he] at hcbR
                      exact hcbR hqcb
                    exact ⟨q, mem_set_of_ne_get sys.rs.ios i h _ q hq hne, hqid, hqcb⟩
                  · exact hex2
                rcases ihPend hP1 with ⟨htq, hPf⟩ | ⟨res2, n2, htr2, hres2, hDf⟩
                · left
                  refine ⟨?_, hPf⟩
                  have hp2 : p.2 = [] := by rw [hpr]
                  rw [streamDones_cons_fired, streamDones_append, hp2, htq]
                  rfl
                · right
                  refine ⟨res2, n2, ?_, hres2, hDf⟩
                  have hp2 : p.2 = [] := by rw [hpr]
                  rw [streamDones_cons_fired, streamDones_append, hp2, htr2]
                  rfl
        · have hunf : dispatchIos (streamEnv rdO wrO) (fuel + 1) i sys =
              dispatchIos (streamEnv rdO wrO) fuel (i + 1) sys := by
            simp only [dispatchIos, dif_pos h, if_neg hfire]
          rw [hunf]
          exact ih (i + 1) sys hInv hWf
      · have hunf : dispatchIos (streamEnv rdO wrO) (fuel + 1) i sys =
            ⟨sys, [], true⟩ := by
          simp only [dispatchIos, dif_neg h]
        rw [hunf]
        exact ⟨hInv, hWf, fun hD => ⟨rfl, hD⟩, fun hP => Or.inl ⟨rfl, hP⟩⟩

/-- The timer dispatch loop under the stream's callbacks, read
direction: the mirror of `dispatchIos_read`; a completing timeout
retires the read I/O interest before the caller's callback result
(`TimedOut`) is recorded. -/
theorem dispatchTimers_read (rdO wrO : Nat → RWOut) (now : Int) (rid tid : Nat) :
    ∀ (fuel i : Nat) (sys : Sys StreamSt), Inv sys.rs → ReadWf rid tid sys →
      Inv (dispatchTimers (streamEnv rdO wrO) now fuel i sys).sys.rs ∧
      ReadWf rid tid (dispatchTimers (streamEnv rdO wrO) now fuel i sys).sys ∧
      (ReadDone rid tid sys →
        streamDones true (dispatchTimers (streamEnv rdO wrO) now fuel i sys).trace = [] ∧
        ReadDone rid tid (dispatchTimers (streamEnv rdO wrO) now fuel i sys).sys) ∧
      (ReadPending rid tid sys →
        (streamDones true (dispatchTimers (streamEnv rdO wrO) now fuel i sys).trace = [] ∧
          ReadPending rid tid (dispatchTimers (streamEnv rdO wrO) now fuel i sys).sys) ∨
        (∃ res n,
          streamDones true (dispatchTimers (streamEnv rdO wrO) now fuel i sys).trace =
            [(res, n)] ∧
          (res = AppResult.ok ∨ res = AppResult.hup ∨ res = AppResult.ioError ∨
            res = AppResult.timeout) ∧
          ReadDone rid tid (dispatchTimers (streamEnv rdO wrO) now fuel i sys).sys)) := by
  intro fuel
  induction fuel with
  | zero =>
      intro i sys hInv hWf
      exact ⟨hInv, hWf, fun hD => ⟨rfl, hD⟩, fun hP => Or.inl ⟨rfl, hP⟩⟩
  | succ fuel ih =>
      intro i sys hInv hWf
      by_cases h : i < sys.rs.timers.length
      · by_cases hfire : (sys.rs.timers.get ⟨i, h⟩).expiry ≤ now ∧
            (sys.rs.timers.get ⟨i, h⟩).id ≠ 0
        · have hunf : dispatchTimers (streamEnv rdO wrO) now (fuel + 1) i sys =
              (let s1 : Sys StreamSt := { sys with rs := { sys.rs with
                  timers := sys.rs.timers.set i
                    { sys.rs.timers.get ⟨i, h⟩ with id := 0 } } }
               let p := (streamEnv rdO wrO).onTimer (sys.rs.timers.get ⟨i, h⟩).cb s1
               let rest := dispatchTimers (streamEnv rdO wrO) now fuel (i + 1) p.1
               ⟨rest.sys, Ev.timerFired (sys.rs.timers.get ⟨i, h⟩).id
                 (sys.rs.timers.get ⟨i, h⟩).cb :: (p.2 ++ rest.trace),
                 rest.completed⟩) := by
            simp only [dispatchTimers, dif_pos h, if_pos hfire]
          rw [hunf]
          simp only []
          set s1 : Sys StreamSt := { sys with rs := { sys.rs with
              timers := sys.rs.timers.set i
                { sys.rs.timers.get ⟨i, h⟩ with id := 0 } } } with hs1
          set p := (streamEnv rdO wrO).onTimer (sys.rs.timers.get ⟨i, h⟩).cb s1 with hp
          have hInv1 : Inv s1.rs := inv_mark_timer sys.rs i h hInv
          have hWf1 : ReadWf rid tid s1 :=
            readWf_of_backward rid tid sys s1
              (fun q hq _ => ⟨q, hq, rfl, rfl⟩)
              (live_backward_set_tm sys.rs.timers i _ rfl) hWf
          by_cases hcbR : (sys.rs.timers.get ⟨i, h⟩).cb = cbReadTimeout
          · -- the read timeout fires
            have hpr : p = readTimeoutCb s1 := by
              rw [hp, streamEnv_onTimer, if_pos hcbR]
            have heff := readTimeoutCb_effect s1
            rw [← hpr] at heff
            obtain ⟨e1, e2, e3, e4, e5, e6⟩ := heff
            have hInv2 : Inv p.1.rs := by
              rw [e1]
              exact inv_unregisterIo _ s1.rs hInv1
            have hWf2 : ReadWf rid tid p.1 := by
              refine readWf_of_backward rid tid s1 p.1 ?_ ?_ hWf1
              · rw [e1]
                exact live_backward_unregIo s1.rs.ios _
              · rw [e1]
                exact fun q hq _ => ⟨q, hq, rfl, rfl⟩
            obtain ⟨ihInv, ihWf, ihDone, ihPend⟩ := ih (i + 1) p.1 hInv2 hWf2
            refine ⟨ihInv, ihWf, ?_, ?_⟩
            · intro hD
              exact absurd (hWf.2 _ (List.get_mem sys.rs.timers i h) hfire.2 hcbR)
                (hD.2.2.2.2.2 _ (List.get_mem sys.rs.timers i h))
            · intro hP
              have htid : (sys.rs.timers.get ⟨i, h⟩).id = tid :=
                hWf.2 _ (List.get_mem sys.rs.timers i h) hfire.2 hcbR
              have hrio : s1.ext.readIoId = rid := hP.2.2.1
              have hD1 : ReadDone rid tid p.1 := by
                refine ⟨e2, e3, ?_, ?_⟩
                · rw [e1, hrio]
                  exact unregisterIo_retires s1.rs rid hInv1 hP.1 hP.2.2.2.2.1
                · rw [e1]
                  apply retired_timer_unregisterIo
                  have hm := mark_timer_retires sys.rs i h hInv hfire.2
                  rw [htid] at hm
                  exact hm
              obtain ⟨htr0, hDfin⟩ := ihDone hD1
              right
              refine ⟨AppResult.timeout, 0, ?_, Or.inr (Or.inr (Or.inr rfl)), hDfin⟩
              rw [streamDones_cons_tfired, streamDones_append, e6, htr0]
              simp [streamDones]
          · by_cases hcbW : (sys.rs.timers.get ⟨i, h⟩).cb = cbWriteTimeout
            · -- the write timeout fires: inert for the read direction
              have hpr : p = writeTimeoutCb s1 := by
                rw [hp, streamEnv_onTimer, if_neg hcbR, if_pos hcbW]
              have heff := writeTimeoutCb_effect s1
              rw [← hpr] at heff
              obtain ⟨e1, e2, e3, e4, e5, e6⟩ := heff
              have hInv2 : Inv p.1.rs := by
                rw [e1]
                exact inv_unregisterIo _ s1.rs hInv1
              have hWf2 : ReadWf rid tid p.1 := by
                refine readWf_of_backward rid tid s1 p.1 ?_ ?_ hWf1
                · rw [e1]
                  exact live_backward_unregIo s1.rs.ios _
                · rw [e1]
                  exact fun q hq _ => ⟨q, hq, rfl, rfl⟩
              obtain ⟨ihInv, ihWf, ihDone, ihPend⟩ := ih (i + 1) p.1 hInv2 hWf2
              refine ⟨ihInv, ihWf, ?_, ?_⟩
              · intro hD
                have hD1 : ReadDone rid tid p.1 := by
                  refine ⟨by rw [e4]; exact hD.1, by rw [e5]; exact hD.2.1, ?_, ?_⟩
                  · rw [e1]
                    apply retired_io_unregisterIo
                    obtain ⟨h0, hle, hno⟩ := hD.2.2.1
                    exact ⟨h0, hle, hno⟩
                  · rw [e1]
                    apply retired_timer_unregisterIo
                    exact retired_timer_mark_timer tid sys.rs i _ rfl hD.2.2.2
                obtain ⟨htr0, hDfin⟩ := ihDone hD1
                refine ⟨?_, hDfin⟩
                rw [streamDones_cons_tfired, streamDones_append, e6, htr0,
                  streamDones_cons_other true false (by decide)]
                rfl
              · intro hP
                obtain ⟨h0, h1, h2, h3, h4, h5, hex1, hex2, h8, h9⟩ := hP
                have hP1 : ReadPending rid tid p.1 := by
                  refine readPending_glue rid tid sys p.1 (by rw [e1]; exact Nat.le.refl)
                    e4 e5 (Or.inr e2) (Or.inr e3) ?_ ?_
                    ⟨h0, h1, h2, h3, h4, h5, hex1, hex2, h8, h9⟩
                  · obtain ⟨q, hq, hqid, hqcb⟩ := hex1
                    rw [e1]
                    refine ⟨q, ?_, hqid, hqcb⟩
                    apply unregIoList_mem_of_ne s1.rs.ios _ q ?_ hq
                    rw [hqid]
                    exact Ne.symm h8
                  · obtain ⟨t, ht, htid2, htcb⟩ := hex2
                    have hne : t ≠ sys.rs.timers.get ⟨i, h⟩ := by
                      intro he
                      rw [← he] at hcbR
                      exact hcbR htcb
                    rw [e1]
                    exact ⟨t, mem_set_of_ne_get sys.rs.timers i h _ t ht hne,
                      htid2, htcb⟩
                rcases ihPend hP1 with ⟨htq, hPf⟩ | ⟨res2, n2, htr2, hres2, hDf⟩
                · left
                  refine ⟨?_, hPf⟩
                  rw [streamDones_cons_tfired, streamDones_append, e6, htq,
                    streamDones_cons_other true false (by decide)]
                  rfl
                · right
                  refine ⟨res2, n2, ?_, hres2, hDf⟩
                  rw [streamDones_cons_tfired, streamDones_append, e6, htr2,
                    streamDones_cons_other true false (by decide)]
                  rfl
            · -- a foreign timer fires: no stream callback runs
              have hpr : p = (s1, []) := by
                rw [hp, streamEnv_onTimer, if_neg hcbR, if_neg hcbW]
              have hInv2 : Inv p.1.rs := by
                rw [hpr]
                exact hInv1
              have hWf2 : ReadWf rid tid p.1 := by
                rw [hpr]
                exact hWf1
              obtain ⟨ihInv, ihWf, ihDone, ihPend⟩ := ih (i + 1) p.1 hInv2 hWf2
              refine ⟨ihInv, ihWf, ?_, ?_⟩
              · intro hD
                have hD1 : ReadDone rid tid p.1 := by
                  rw [hpr]
                  refine ⟨hD.1, hD.2.1, ?_,
                    retired_timer_mark_timer tid sys.rs i _ rfl hD.2.2.2⟩
                  obtain ⟨h0, hle, hno⟩ := hD.2.2.1
                  exact ⟨h0, hle, hno⟩
                obtain ⟨htr0, hDfin⟩ := ihDone hD1
                refine ⟨?_, hDfin⟩
                have hp2 : p.2 = [] := by rw [hpr]
                rw [streamDones_cons_tfired, streamDones_append, hp2, htr0]
                rfl
              · intro hP
                obtain ⟨h0, h1, h2, h3, h4, h5, hex1, hex2, h8, h9⟩ := hP
                have hP1 : ReadPending rid tid p.1 := by
                  rw [hpr]
                  refine readPending_glue rid tid sys s1 Nat.le.refl rfl rfl
                    (Or.inl rfl) (Or.inl rfl) hex1 ?_
                    ⟨h0, h1, h2, h3, h4, h5, hex1, hex2, h8, h9⟩
                  obtain ⟨t, ht, htid2, htcb⟩ := hex2
                  have hne : t ≠ sys.rs.timers.get ⟨i, h⟩ := by
                    intro he
                    rw [← he] at hcbR
                    exact hcbR htcb
                  exact ⟨t, mem_set_of_ne_get sys.rs.timers i h _ t ht hne,
                    htid2, htcb⟩
                rcases ihPend hP1 with ⟨htq, hPf⟩ | ⟨res2, n2, htr2, hres2, hDf⟩
                · left
                  refine ⟨?_, hPf⟩
                  have hp2 : p.2 = [] := by rw [hpr]
                  rw [streamDones_cons_tfired, streamDones_append, hp2, htq]
                  rfl
                · right
                  refine ⟨res2, n2, ?_, hres2, hDf⟩
                  have hp2 : p.2 = [] := by rw [hpr]
                  rw [streamDones_cons_tfired, streamDones_append, hp2, htr2]
                  rfl
        · have hunf : dispatchTimers (streamEnv rdO wrO) now (fuel + 1) i sys =
              dispatchTimers (streamEnv rdO wrO) now fuel (i + 1) sys := by
            simp only [dispatchTimers, dif_pos h, if_neg hfire]
          rw [hunf]
          exact ih (i + 1) sys hInv hWf
      · have hunf : dispatchTimers (streamEnv rdO wrO) now (fuel + 1) i sys =
            ⟨sys, [], true⟩ := by
          simp only [dispatchTimers, dif_neg h]
        rw [hunf]
        exact ⟨hInv, hWf, fun hD => ⟨rfl, hD⟩, fun hP => Or.inl ⟨rfl, hP⟩⟩

/-- One `app_event_poll` call under the stream's callbacks, read
direction: a completed read stays completed and its caller callback is
not re-invoked; an outstanding read either stays outstanding with no
completion callback, or completes with exactly one completion callback
carrying `Ok`, `Hangup`, `IoError` or `TimedOut`, after which both of
its handles are retired. -/
theorem pollStep_read (rdO wrO : Nat → RWOut) (clk : Clk) (rv : Nat → Nat)
    (fuel : Nat) (block : Bool) (rid tid : Nat) (sys : Sys StreamSt)
    (hInv : Inv sys.rs) (hWf : ReadWf rid tid sys) :
    Inv (pollStep (streamEnv rdO wrO) clk rv fuel block sys).sys.rs ∧
    ReadWf rid tid (pollStep (streamEnv rdO wrO) clk rv fuel block sys).sys ∧
    (ReadDone rid tid sys →
      streamDones true (pollStep (streamEnv rdO wrO) clk rv fuel block sys).trace = [] ∧
      ReadDone rid tid (pollStep (streamEnv rdO wrO) clk rv fuel block sys).sys) ∧
    (ReadPending rid tid sys →
      (streamDones true (pollStep (streamEnv rdO wrO) clk rv fuel block sys).trace = [] ∧
        ReadPending rid tid (pollStep (streamEnv rdO wrO) clk rv fuel block sys).sys) ∨
      (∃ res n,
        streamDones true (pollStep (streamEnv rdO wrO) clk rv fuel block sys).trace =
          [(res, n)] ∧
        (res = AppResult.ok ∨ res = AppResult.hup ∨ res = AppResult.ioError ∨
          res = AppResult.timeout) ∧
        ReadDone rid tid (pollStep (streamEnv rdO wrO) clk rv fuel block sys).sys)) := by
  set rs0 : RState := { sys.rs with
    ios := gcIos sys.rs.ios
    timers := gcTimers sys.rs.timers } with hrs0
  set rs1 : RState := { rs0 with
    ios := rs0.ios.map (fun r => { r with revents := 0 }) } with hrs1
  set wp : Int × RState :=
    (if block then
      if rs1.timers.length = 0 then (-1, rs1)
      else
        let p := clockRead clk rs1
        (timeoutFold p.1 p.2.timers int64Max, p.2)
     else (0, rs1)) with hwp
  set rs3 : RState := { wp.2 with
    ios := wp.2.ios.mapIdx (fun i r => { r with revents := rv i }) } with hrs3
  set dio := dispatchIos (streamEnv rdO wrO) fuel 0 ⟨rs3, sys.ext⟩ with hdio
  set p2 := clockRead clk dio.sys.rs with hp2
  set dtm := dispatchTimers (streamEnv rdO wrO) p2.1 fuel 0 ⟨p2.2, dio.sys.ext⟩ with hdtm
  have hsys : (pollStep (streamEnv rdO wrO) clk rv fuel block sys).sys = dtm.sys := rfl
  have htr : (pollStep (streamEnv rdO wrO) clk rv fuel block sys).trace =
      dio.trace ++ dtm.trace := rfl
  have hwp2 : wp.2.ios = rs1.ios ∧ wp.2.timers = rs1.timers ∧
      wp.2.idCounter = rs1.idCounter := by
    rw [hwp]
    by_cases hb : block
    · rw [if_pos hb]
      by_cases hz : rs1.timers.length = 0
      · rw [if_pos hz]
        exact ⟨rfl, rfl, rfl⟩
      · rw [if_neg hz]
        exact ⟨rfl, rfl, rfl⟩
    · rw [if_neg hb]
      exact ⟨rfl, rfl, rfl⟩
  have hts : rs3.timers = gcTimers sys.rs.timers := hwp2.2.1
  have hcnt3 : rs3.idCounter = sys.rs.idCounter := hwp2.2.2
  have hInv1 : Inv rs1 := inv_map_ios rs0 _ (fun r => rfl) (inv_gc sys.rs hInv)
  have hInvW : Inv wp.2 := by
    rw [hwp]
    by_cases hb : block
    · rw [if_pos hb]
      by_cases hz : rs1.timers.length = 0
      · rw [if_pos hz]
        exact hInv1
      · rw [if_neg hz]
        exact inv_clk rs1 _ hInv1
    · rw [if_neg hb]
      exact hInv1
  have hInv3 : Inv rs3 := inv_mapIdx_ios wp.2 _ (fun i r => rfl) hInvW
  have hib3 : ∀ q ∈ rs3.ios, q.id ≠ 0 →
      ∃ p ∈ sys.rs.ios, q.id = p.id ∧ q.cb = p.cb := by
    intro q hq _
    obtain ⟨j, r1, hr1, hqr⟩ := mem_mapIdx_elems wp.2.ios _ q hq
    rw [hwp2.1] at hr1
    obtain ⟨r0, hr0, hr01⟩ := List.mem_map.mp hr1
    refine ⟨r0, subperm_subset (gcAux_subperm _ _ _ _) r0 hr0, ?_, ?_⟩
    · rw [hqr, ← hr01]
    · rw [hqr, ← hr01]
  have htb3 : ∀ q ∈ rs3.timers, q.id ≠ 0 →
      ∃ p ∈ sys.rs.timers, q.id = p.id ∧ q.cb = p.cb := by
    intro q hq _
    rw [hts] at hq
    exact ⟨q, subperm_subset (gcAux_subperm _ _ _ _) q hq, rfl, rfl⟩
  have hWf3 : ReadWf rid tid ⟨rs3, sys.ext⟩ :=
    readWf_of_backward rid tid sys ⟨rs3, sys.ext⟩ hib3 htb3 hWf
  obtain ⟨dInv, dWf, dDone, dPend⟩ :=
    dispatchIos_read rdO wrO rid tid fuel 0 ⟨rs3, sys.ext⟩ hInv3 hWf3
  have hInvP : Inv p2.2 := inv_clk dio.sys.rs _ dInv
  have hWfP : ReadWf rid tid ⟨p2.2, dio.sys.ext⟩ :=
    readWf_of_backward rid tid dio.sys ⟨p2.2, dio.sys.ext⟩
      (fun q hq _ => ⟨q, hq, rfl, rfl⟩) (fun q hq _ => ⟨q, hq, rfl, rfl⟩) dWf
  obtain ⟨tInv, tWf, tDone, tPend⟩ :=
    dispatchTimers_read rdO wrO p2.1 rid tid fuel 0 ⟨p2.2, dio.sys.ext⟩ hInvP hWfP
  have hDoneClk : ReadDone rid tid dio.sys → ReadDone rid tid ⟨p2.2, dio.sys.ext⟩ :=
    fun hD => readDone_of_backward rid tid dio.sys ⟨p2.2, dio.sys.ext⟩ Nat.le.refl
      (fun q hq _ => ⟨q, hq, rfl, rfl⟩) (fun q hq _ => ⟨q, hq, rfl, rfl⟩) rfl rfl hD
  have hPendClk : ReadPending rid tid dio.sys →
      ReadPending rid tid ⟨p2.2, dio.sys.ext⟩ := by
    intro hPd
    refine readPending_glue rid tid dio.sys ⟨p2.2, dio.sys.ext⟩ Nat.le.refl rfl rfl
      (Or.inl rfl) (Or.inl rfl) ?_ ?_ hPd
    · exact hPd.2.2.2.2.2.2.1
    · exact hPd.2.2.2.2.2.2.2.1
  refine ⟨?_, ?_, ?_, ?_⟩
  · rw [hsys]
    exact tInv
  · rw [hsys]
    exact tWf
  · intro hD
    have hD3 : ReadDone rid tid ⟨rs3, sys.ext⟩ :=
      readDone_of_backward rid tid sys ⟨rs3, sys.ext⟩ (le_of_eq hcnt3.symm)
        hib3 htb3 rfl rfl hD
    obtain ⟨d0, dDfin⟩ := dDone hD3
    obtain ⟨t0, tDfin⟩ := tDone (hDoneClk dDfin)
    rw [hsys, htr, streamDones_append, d0, t0]
    exact ⟨rfl, tDfin⟩
  · intro hP
    have hP3 : ReadPending rid tid ⟨rs3, sys.ext⟩ := by
      obtain ⟨h0, h1, h2, h3, h4, h5, hex1, hex2, h8, h9⟩ := hP
      refine readPending_glue rid tid sys ⟨rs3, sys.ext⟩ (le_of_eq hcnt3.symm)
        rfl rfl (Or.inl rfl) (Or.inl rfl) ?_ ?_
        ⟨h0, h1, h2, h3, h4, h5, hex1, hex2, h8, h9⟩
      · obtain ⟨q, hq, hqid, hqcb⟩ := hex1
        have hqgc : q ∈ gcIos sys.rs.ios := by
          apply gcAux_mem_live _ q ?_ _ _ _ hq
          show decide (q.id = 0) = false
          rw [hqid]
          exact decide_eq_false h0
        have hexA : ∃ r ∈ wp.2.ios, r.id = rid ∧ r.cb = cbReadIo := by
          rw [hwp2.1]
          exact exists_mem_map_io rs0.ios (fun r => { r with revents := 0 })
            (fun r => ⟨rfl, rfl⟩) rid cbReadIo ⟨q, hqgc, hqid, hqcb⟩
        exact exists_mem_mapIdx wp.2.ios (fun i r => { r with revents := rv i })
          (fun i r => ⟨rfl, rfl⟩) rid cbReadIo hexA
      · obtain ⟨t, ht, htid2, htcb⟩ := hex2
        have htgc : t ∈ gcTimers sys.rs.timers := by
          apply gcAux_mem_live _ t ?_ _ _ _ ht
          show decide (t.id = 0) = false
          rw [htid2]
          exact decide_eq_false h1
        rw [hts]
        exact ⟨t, htgc, htid2, htcb⟩
    rcases dPend hP3 with ⟨d0, dPf⟩ | ⟨res, n, d1, hres, dDf⟩
    · rcases tPend (hPendClk dPf) with ⟨t0, tPf⟩ | ⟨res, n, t1, hres, tDf⟩
      · left
        rw [hsys, htr, streamDones_append, d0, t0]
        exact ⟨rfl, tPf⟩
      · right
        refine ⟨res, n, ?_, hres, ?_⟩
        · rw [htr, streamDones_append, d0, t1, List.nil_append]
        · rw [hsys]
          exact tDf
    · obtain ⟨t0, tDf2⟩ := tDone (hDoneClk dDf)
      right
      refine ⟨res, n, ?_, hres, ?_⟩
      · rw [htr, streamDones_append, d1, t0, List.append_nil]
      · rw [hsys]
        exact tDf2

/-- Any sequence of `app_event_poll` calls under the stream's callbacks,
read direction: across the whole run the caller's read callback is
invoked at most once — exactly once if the operation completes — with an
allowed result, and a completed read never produces another callback. -/
theorem runPolls_read (rdO wrO : Nat → RWOut) (clk : Clk) (rid tid : Nat) :
    ∀ (polls : List (Bool × (Nat → Nat) × Nat)) (sys : Sys StreamSt),
      Inv sys.rs → ReadWf rid tid sys →
      Inv (runPolls (streamEnv rdO wrO) clk polls sys).1.rs ∧
      ReadWf rid tid (runPolls (streamEnv rdO wrO) clk polls sys).1 ∧
      (ReadDone rid tid sys →
        streamDones true (runPolls (streamEnv rdO wrO) clk polls sys).2 = [] ∧
        ReadDone rid tid (runPolls (streamEnv rdO wrO) clk polls sys).1) ∧
      (ReadPending rid tid sys →
        (streamDones true (runPolls (streamEnv rdO wrO) clk polls sys).2 = [] ∧
          ReadPending rid tid (runPolls (streamEnv rdO wrO) clk polls sys).1) ∨
        (∃ res n,
          streamDones true (runPolls (streamEnv rdO wrO) clk polls sys).2 =
            [(res, n)] ∧
          (res = AppResult.ok ∨ res = AppResult.hup ∨ res = AppResult.ioError ∨
            res = AppResult.timeout) ∧
          ReadDone rid tid (runPolls (streamEnv rdO wrO) clk polls sys).1)) := by
  intro polls
  induction polls with
  | nil =>
      intro sys hInv hWf
      exact ⟨hInv, hWf, fun hD => ⟨rfl, hD⟩, fun hP => Or.inl ⟨rfl, hP⟩⟩
  | cons c rest ih =>
      intro sys hInv hWf
      obtain ⟨pInv, pWf, pDone, pPend⟩ :=
        pollStep_read rdO wrO clk c.2.1 c.2.2 c.1 rid tid sys hInv hWf
      obtain ⟨rInv, rWf, rDone, rPend⟩ :=
        ih (pollStep (streamEnv rdO wrO) clk c.2.1 c.2.2 c.1 sys).sys pInv pWf
      have h1 : (runPolls (streamEnv rdO wrO) clk (c :: rest) sys).1 =
          (runPolls (streamEnv rdO wrO) clk rest
            (pollStep (streamEnv rdO wrO) clk c.2.1 c.2.2 c.1 sys).sys).1 := rfl
      have h2 : (runPolls (streamEnv rdO wrO) clk (c :: rest) sys).2 =
          (pollStep (streamEnv rdO wrO) clk c.2.1 c.2.2 c.1 sys).trace ++
          (runPolls (streamEnv rdO wrO) clk rest
            (pollStep (streamEnv rdO wrO) clk c.2.1 c.2.2 c.1 sys).sys).2 := rfl
      refine ⟨?_, ?_, ?_, ?_⟩
      · rw [h1]
        exact rInv
      · rw [h1]
        exact rWf
      · intro hD
        obtain ⟨p0, pd⟩ := pDone hD
        obtain ⟨r0, rd⟩ := rDone pd
        rw [h1, h2, streamDones_append, p0, r0]
        exact ⟨rfl, rd⟩
      · intro hP
        rcases pPend hP with ⟨p0, pp⟩ | ⟨res, n, p1, hres, pd⟩
        · rcases rPend pp with ⟨r0, rp⟩ | ⟨res, n, r1, hres, rdn⟩
          · left
            rw [h1, h2, streamDones_append, p0, r0]
            exact ⟨rfl, rp⟩
          · right
            refine ⟨res, n, ?_, hres, ?_⟩
            · rw [h2, streamDones_append, p0, r1, List.nil_append]
            · rw [h1]
              exact rdn
        · obtain ⟨r0, rd⟩ := rDone pd
          right
          refine ⟨res, n, ?_, hres, ?_⟩
          · rw [h2, streamDones_append, p1, r0, List.append_nil]
          · rw [h1]
            exact rd

/-- The I/O dispatch loop under the stream's callbacks, write
direction: the mirror of `dispatchIos_read`. -/
theorem dispatchIos_write (rdO wrO : Nat → RWOut) (wid wtd : Nat) :
    ∀ (fuel i : Nat) (sys : Sys StreamSt), Inv sys.rs → WriteWf wid wtd sys →
      Inv (dispatchIos (streamEnv rdO wrO) fuel i sys).sys.rs ∧
      WriteWf wid wtd (dispatchIos (streamEnv rdO wrO) fuel i sys).sys ∧
      (WriteDone wid wtd sys →
        streamDones false (dispatchIos (streamEnv rdO wrO) fuel i sys).trace = [] ∧
        WriteDone wid wtd (dispatchIos (streamEnv rdO wrO) fuel i sys).sys) ∧
      (WritePending wid wtd sys →
        (streamDones false (dispatchIos (streamEnv rdO wrO) fuel i sys).trace = [] ∧
          WritePending wid wtd (dispatchIos (streamEnv rdO wrO) fuel i sys).sys) ∨
        (∃ res n,
          streamDones false (dispatchIos (streamEnv rdO wrO) fuel i sys).trace =
            [(res, n)] ∧
          (res = AppResult.ok ∨ res = AppResult.hup ∨ res = AppResult.ioError ∨
            res = AppResult.timeout) ∧
          WriteDone wid wtd (dispatchIos (streamEnv rdO wrO) fuel i sys).sys)) := by
  intro fuel
  induction fuel with
  | zero =>
      intro i sys hInv hWf
      exact ⟨hInv, hWf, fun hD => ⟨rfl, hD⟩, fun hP => Or.inl ⟨rfl, hP⟩⟩
  | succ fuel ih =>
      intro i sys hInv hWf
      by_cases h : i < sys.rs.ios.length
      · by_cases hfire : (sys.rs.ios.get ⟨i, h⟩).revents ≠ 0 ∧
            (sys.rs.ios.get ⟨i, h⟩).id ≠ 0
        · have hunf : dispatchIos (streamEnv rdO wrO) (fuel + 1) i sys =
              (let s1 : Sys StreamSt := { sys with rs := { sys.rs with
                  ios := sys.rs.ios.set i { sys.rs.ios.get ⟨i, h⟩ with id := 0 } } }
               let p := (streamEnv rdO wrO).onIo (sys.rs.ios.get ⟨i, h⟩).cb
                 (sys.rs.ios.get ⟨i, h⟩).revents s1
               let rest := dispatchIos (streamEnv rdO wrO) fuel (i + 1) p.1
               ⟨rest.sys, Ev.ioFired (sys.rs.ios.get ⟨i, h⟩).id
                 (sys.rs.ios.get ⟨i, h⟩).cb (sys.rs.ios.get ⟨i, h⟩).revents ::
                   (p.2 ++ rest.trace), rest.completed⟩) := by
            simp only [dispatchIos, dif_pos h, if_pos hfire]
          rw [hunf]
          simp only []
          set s1 : Sys StreamSt := { sys with rs := { sys.rs with
              ios := sys.rs.ios.set i { sys.rs.ios.get ⟨i, h⟩ with id := 0 } } } with hs1
          set p := (streamEnv rdO wrO).onIo (sys.rs.ios.get ⟨i, h⟩).cb
            (sys.rs.ios.get ⟨i, h⟩).revents s1 with hp
          have hInv1 : Inv s1.rs := inv_mark_io sys.rs i h hInv
          have hWf1 : WriteWf wid wtd s1 :=
            writeWf_of_backward wid wtd sys s1
              (live_backward_set_io sys.rs.ios i _ rfl)
              (fun q hq _ => ⟨q, hq, rfl, rfl⟩) hWf
          by_cases hcbR : (sys.rs.ios.get ⟨i, h⟩).cb = cbWriteIo
          · -- the read I/O interest fires
            have hpr : p = writeIoCb wrO (sys.rs.ios.get ⟨i, h⟩).revents s1 := by
              have hne1 : ¬ (sys.rs.ios.get ⟨i, h⟩).cb = cbReadIo := by
                rw [hcbR]
                decide
              rw [hp, streamEnv_onIo, if_neg hne1, if_pos hcbR]
            have heff := writeIoCb_effect wrO (sys.rs.ios.get ⟨i, h⟩).revents s1
            rw [← hpr] at heff
            obtain ⟨e1, e2, e3, e4, e5, res, n, e6, hres⟩ := heff
            have hInv2 : Inv p.1.rs := by
              rw [e1]
              exact inv_unregisterTimer _ s1.rs hInv1
            have hWf2 : WriteWf wid wtd p.1 := by
              refine writeWf_of_backward wid wtd s1 p.1 ?_ ?_ hWf1
              · rw [e1]
                exact fun q hq _ => ⟨q, hq, rfl, rfl⟩
              · rw [e1]
                exact live_backward_unregTm s1.rs.timers _
            obtain ⟨ihInv, ihWf, ihDone, ihPend⟩ := ih (i + 1) p.1 hInv2 hWf2
            refine ⟨ihInv, ihWf, ?_, ?_⟩
            · intro hD
              exact absurd (hWf.1 _ (List.get_mem sys.rs.ios i h) hfire.2 hcbR)
                (hD.2.2.1.2.2 _ (List.get_mem sys.rs.ios i h))
            · intro hP
              have hrid : (sys.rs.ios.get ⟨i, h⟩).id = wid :=
                hWf.1 _ (List.get_mem sys.rs.ios i h) hfire.2 hcbR
              have htid : s1.ext.writeTimeoutId = wtd := hP.2.2.2.1
              have hD1 : WriteDone wid wtd p.1 := by
                refine ⟨e2, e3, ?_, ?_⟩
                · rw [e1]
                  apply retired_io_unregisterTimer
                  have hm := mark_io_retires sys.rs i h hInv hfire.2
                  rw [hrid] at hm
                  exact hm
                · rw [e1, htid]
                  exact unregisterTimer_retires s1.rs wtd hP.2.1
                    hP.2.2.2.2.2.1
              obtain ⟨htr0, hDfin⟩ := ihDone hD1
              right
              refine ⟨res, n, ?_, hres, hDfin⟩
              rw [streamDones_cons_fired, streamDones_append, e6, htr0]
              simp [streamDones]
          · by_cases hcbW : (sys.rs.ios.get ⟨i, h⟩).cb = cbReadIo
            · -- the write I/O interest fires: inert for the read direction
              have hpr : p = readIoCb rdO (sys.rs.ios.get ⟨i, h⟩).revents s1 := by
                rw [hp, streamEnv_onIo, if_pos hcbW]
              have heff := readIoCb_effect rdO (sys.rs.ios.get ⟨i, h⟩).revents s1
              rw [← hpr] at heff
              obtain ⟨e1, e2, e3, e4, e5, res, n, e6, hres⟩ := heff
              have hInv2 : Inv p.1.rs := by
                rw [e1]
                exact inv_unregisterTimer _ s1.rs hInv1
              have hWf2 : WriteWf wid wtd p.1 := by
                refine writeWf_of_backward wid wtd s1 p.1 ?_ ?_ hWf1
                · rw [e1]
                  exact fun q hq _ => ⟨q, hq, rfl, rfl⟩
                · rw [e1]
                  exact live_backward_unregTm s1.rs.timers _
              obtain ⟨ihInv, ihWf, ihDone, ihPend⟩ := ih (i + 1) p.1 hInv2 hWf2
              refine ⟨ihInv, ihWf, ?_, ?_⟩
              · intro hD
                have hD1 : WriteDone wid wtd p.1 := by
                  refine ⟨by rw [e4]; exact hD.1, by rw [e5]; exact hD.2.1, ?_, ?_⟩
                  · rw [e1]
                    apply retired_io_unregisterTimer
                    exact retired_io_mark_io wid sys.rs i _ rfl hD.2.2.1
                  · rw [e1]
                    apply retired_timer_unregisterTimer
                    obtain ⟨h0, hle, hno⟩ := hD.2.2.2
                    exact ⟨h0, hle, hno⟩
                obtain ⟨htr0, hDfin⟩ := ihDone hD1
                refine ⟨?_, hDfin⟩
                rw [streamDones_cons_fired, streamDones_append, e6, htr0,
                  streamDones_cons_other false true (by decide)]
                rfl
              · intro hP
                obtain ⟨h0, h1, h2, h3, h4, h5, hex1, hex2, h8, h9⟩ := hP
                have hP1 : WritePending wid wtd p.1 := by
                  refine writePending_glue wid wtd sys p.1 (by rw [e1]; exact Nat.le.refl)
                    e4 e5 (Or.inr e2) (Or.inr e3) ?_ ?_
                    ⟨h0, h1, h2, h3, h4, h5, hex1, hex2, h8, h9⟩
                  · obtain ⟨q, hq, hqid, hqcb⟩ := hex1
                    have hne : q ≠ sys.rs.ios.get ⟨i, h⟩ := by
                      intro he
                      rw [← he] at hcbR
                      exact hcbR hqcb
                    rw [e1]
                    exact ⟨q, mem_set_of_ne_get sys.rs.ios i h _ q hq hne, hqid, hqcb⟩
                  · obtain ⟨t, ht, htid2, htcb⟩ := hex2
                    rw [e1]
                    refine ⟨t, ?_, htid2, htcb⟩
                    apply unregTimerList_mem_of_ne s1.rs.timers _ t ?_ ht
                    rw [htid2]
                    exact Ne.symm h9
                rcases ihPend hP1 with ⟨htq, hPf⟩ | ⟨res2, n2, htr2, hres2, hDf⟩
                · left
                  refine ⟨?_, hPf⟩
                  rw [streamDones_cons_fired, streamDones_append, e6, htq,
                    streamDones_cons_other false true (by decide)]
                  rfl
                · right
                  refine ⟨res2, n2, ?_, hres2, hDf⟩
                  rw [streamDones_cons_fired, streamDones_append, e6, htr2,
                    streamDones_cons_other false true (by decide)]
                  rfl
            · -- a foreign I/O interest fires: no stream callback runs
              have hpr : p = (s1, []) := by
                rw [hp, streamEnv_onIo, if_neg hcbW, if_neg hcbR]
              have hInv2 : Inv p.1.rs := by
                rw [hpr]
                exact hInv1
              have hWf2 : WriteWf wid wtd p.1 := by
                rw [hpr]
                exact hWf1
              obtain ⟨ihInv, ihWf, ihDone, ihPend⟩ := ih (i + 1) p.1 hInv2 hWf2
              refine ⟨ihInv, ihWf, ?_, ?_⟩
              · intro hD
                have hD1 : WriteDone wid wtd p.1 := by
                  rw [hpr]
                  refine ⟨hD.1, hD.2.1,
                    retired_io_mark_io wid sys.rs i _ rfl hD.2.2.1, ?_⟩
                  obtain ⟨h0, hle, hno⟩ := hD.2.2.2
                  exact ⟨h0, hle, hno⟩
                obtain ⟨htr0, hDfin⟩ := ihDone hD1
                refine ⟨?_, hDfin⟩
                have hp2 : p.2 = [] := by rw [hpr]
                rw [streamDones_cons_fired, streamDones_append, hp2, htr0]
                rfl
              · intro hP
                obtain ⟨h0, h1, h2, h3, h4, h5, hex1, hex2, h8, h9⟩ := hP
                have hP1 : WritePending wid wtd p.1 := by
                  rw [hpr]
                  refine writePending_glue wid wtd sys s1 Nat.le.refl rfl rfl
                    (Or.inl rfl) (Or.inl rfl) ?_ ?_
                    ⟨h0, h1, h2, h3, h4, h5, hex1, hex2, h8, h9⟩
                  · obtain ⟨q, hq, hqid, hqcb⟩ := hex1
                    have hne : q ≠ sys.rs.ios.get ⟨i, h⟩ := by
                      intro he
                      rw [← he] at hcbR
                      exact hcbR hqcb
                    exact ⟨q, mem_set_of_ne_get sys.rs.ios i h _ q hq hne, hqid, hqcb⟩
                  · exact hex2
                rcases ihPend hP1 with ⟨htq, hPf⟩ | ⟨res2, n2, htr2, hres2, hDf⟩
                · left
                  refine ⟨?_, hPf⟩
                  have hp2 : p.2 = [] := by rw [hpr]
                  rw [streamDones_cons_fired, streamDones_append, hp2, htq]
                  rfl
                · right
                  refine ⟨res2, n2, ?_, hres2, hDf⟩
                  have hp2 : p.2 = [] := by rw [hpr]
                  rw [streamDones_cons_fired, streamDones_append, hp2, htr2]
                  rfl
        · have hunf : dispatchIos (streamEnv rdO wrO) (fuel + 1) i sys =
              dispatchIos (streamEnv rdO wrO) fuel (i + 1) sys := by
            simp only [dispatchIos, dif_pos h, if_neg hfire]
          rw [hunf]
          exact ih (i + 1) sys hInv hWf
      · have hunf : dispatchIos (streamEnv rdO wrO) (fuel + 1) i sys =
            ⟨sys, [], true⟩ := by
          simp only [dispatchIos, dif_neg h]
        rw [hunf]
        exact ⟨hInv, hWf, fun hD => ⟨rfl, hD⟩, fun hP => Or.inl ⟨rfl, hP⟩⟩

/-- The timer dispatch loop under the stream's callbacks, read
direction: the mirror of `dispatchIos_write`; a completing timeout
retires the read I/O interest before the caller's callback result
(`TimedOut`) is recorded. -/
theorem dispatchTimers_write (rdO wrO : Nat → RWOut) (now : Int) (wid wtd : Nat) :
    ∀ (fuel i : Nat) (sys : Sys StreamSt), Inv sys.rs → WriteWf wid wtd sys →
      Inv (dispatchTimers (streamEnv rdO wrO) now fuel i sys).sys.rs ∧
      WriteWf wid wtd (dispatchTimers (streamEnv rdO wrO) now fuel i sys).sys ∧
      (WriteDone wid wtd sys →
        streamDones false (dispatchTimers (streamEnv rdO wrO) now fuel i sys).trace = [] ∧
        WriteDone wid wtd (dispatchTimers (streamEnv rdO wrO) now fuel i sys).sys) ∧
      (WritePending wid wtd sys →
        (streamDones false (dispatchTimers (streamEnv rdO wrO) now fuel i sys).trace = [] ∧
          WritePending wid wtd (dispatchTimers (streamEnv rdO wrO) now fuel i sys).sys) ∨
        (∃ res n,
          streamDones false (dispatchTimers (streamEnv rdO wrO) now fuel i sys).trace =
            [(res, n)] ∧
          (res = AppResult.ok ∨ res = AppResult.hup ∨ res = AppResult.ioError ∨
            res = AppResult.timeout) ∧
          WriteDone wid wtd (dispatchTimers (streamEnv rdO wrO) now fuel i sys).sys)) := by
  intro fuel
  induction fuel with
  | zero =>
      intro i sys hInv hWf
      exact ⟨hInv, hWf, fun hD => ⟨rfl, hD⟩, fun hP => Or.inl ⟨rfl, hP⟩⟩
  | succ fuel ih =>
      intro i sys hInv hWf
      by_cases h : i < sys.rs.timers.length
      · by_cases hfire : (sys.rs.timers.get ⟨i, h⟩).expiry ≤ now ∧
            (sys.rs.timers.get ⟨i, h⟩).id ≠ 0
        · have hunf : dispatchTimers (streamEnv rdO wrO) now (fuel + 1) i sys =
              (let s1 : Sys StreamSt := { sys with rs := { sys.rs with
                  timers := sys.rs.timers.set i
                    { sys.rs.timers.get ⟨i, h⟩ with id := 0 } } }
               let p := (streamEnv rdO wrO).onTimer (sys.rs.timers.get ⟨i, h⟩).cb s1
               let rest := dispatchTimers (streamEnv rdO wrO) now fuel (i + 1) p.1
               ⟨rest.sys, Ev.timerFired (sys.rs.timers.get ⟨i, h⟩).id
                 (sys.rs.timers.get ⟨i, h⟩).cb :: (p.2 ++ rest.trace),
                 rest.completed⟩) := by
            simp only [dispatchTimers, dif_pos h, if_pos hfire]
          rw [hunf]
          simp only []
          set s1 : Sys StreamSt := { sys with rs := { sys.rs with
              timers := sys.rs.timers.set i
                { sys.rs.timers.get ⟨i, h⟩ with id := 0 } } } with hs1
          set p := (streamEnv rdO wrO).onTimer (sys.rs.timers.get ⟨i, h⟩).cb s1 with hp
          have hInv1 : Inv s1.rs := inv_mark_timer sys.rs i h hInv
          have hWf1 : WriteWf wid wtd s1 :=
            writeWf_of_backward wid wtd sys s1
              (fun q hq _ => ⟨q, hq, rfl, rfl⟩)
              (live_backward_set_tm sys.rs.timers i _ rfl) hWf
          by_cases hcbR : (sys.rs.timers.get ⟨i, h⟩).cb = cbWriteTimeout
          · -- the read timeout fires
            have hpr : p = writeTimeoutCb s1 := by
              have hne1 : ¬ (sys.rs.timers.get ⟨i, h⟩).cb = cbReadTimeout := by
                rw [hcbR]
                decide
              rw [hp, streamEnv_onTimer, if_neg hne1, if_pos hcbR]
            have heff := writeTimeoutCb_effect s1
            rw [← hpr] at heff
            obtain ⟨e1, e2, e3, e4, e5, e6⟩ := heff
            have hInv2 : Inv p.1.rs := by
              rw [e1]
              exact inv_unregisterIo _ s1.rs hInv1
            have hWf2 : WriteWf wid wtd p.1 := by
              refine writeWf_of_backward wid wtd s1 p.1 ?_ ?_ hWf1
              · rw [e1]
                exact live_backward_unregIo s1.rs.ios _
              · rw [e1]
                exact fun q hq _ => ⟨q, hq, rfl, rfl⟩
            obtain ⟨ihInv, ihWf, ihDone, ihPend⟩ := ih (i + 1) p.1 hInv2 hWf2
            refine ⟨ihInv, ihWf, ?_, ?_⟩
            · intro hD
              exact absurd (hWf.2 _ (List.get_mem sys.rs.timers i h) hfire.2 hcbR)
                (hD.2.2.2.2.2 _ (List.get_mem sys.rs.timers i h))
            · intro hP
              have htid : (sys.rs.timers.get ⟨i, h⟩).id = wtd :=
                hWf.2 _ (List.get_mem sys.rs.timers i h) hfire.2 hcbR
              have hrio : s1.ext.writeIoId = wid := hP.2.2.1
              have hD1 : WriteDone wid wtd p.1 := by
                refine ⟨e2, e3, ?_, ?_⟩
                · rw [e1, hrio]
                  exact unregisterIo_retires s1.rs wid hInv1 hP.1 hP.2.2.2.2.1
                · rw [e1]
                  apply retired_timer_unregisterIo
                  have hm := mark_timer_retires sys.rs i h hInv hfire.2
                  rw [htid] at hm
                  exact hm
              obtain ⟨htr0, hDfin⟩ := ihDone hD1
              right
              refine ⟨AppResult.timeout, 0, ?_, Or.inr (Or.inr (Or.inr rfl)), hDfin⟩
              rw [streamDones_cons_tfired, streamDones_append, e6, htr0]
              simp [streamDones]
          · by_cases hcbW : (sys.rs.timers.get ⟨i, h⟩).cb = cbReadTimeout
            · -- the write timeout fires: inert for the read direction
              have hpr : p = readTimeoutCb s1 := by
                rw [hp, streamEnv_onTimer, if_pos hcbW]
              have heff := readTimeoutCb_effect s1
              rw [← hpr] at heff
              obtain ⟨e1, e2, e3, e4, e5, e6⟩ := heff
              have hInv2 : Inv p.1.rs := by
                rw [e1]
                exact inv_unregisterIo _ s1.rs hInv1
              have hWf2 : WriteWf wid wtd p.1 := by
                refine writeWf_of_backward wid wtd s1 p.1 ?_ ?_ hWf1
                · rw [e1]
                  exact live_backward_unregIo s1.rs.ios _
                · rw [e1]
                  exact fun q hq _ => ⟨q, hq, rfl, rfl⟩
              obtain ⟨ihInv, ihWf, ihDone, ihPend⟩ := ih (i + 1) p.1 hInv2 hWf2
              refine ⟨ihInv, ihWf, ?_, ?_⟩
              · intro hD
                have hD1 : WriteDone wid wtd p.1 := by
                  refine ⟨by rw [e4]; exact hD.1, by rw [e5]; exact hD.2.1, ?_, ?_⟩
                  · rw [e1]
                    apply retired_io_unregisterIo
                    obtain ⟨h0, hle, hno⟩ := hD.2.2.1
                    exact ⟨h0, hle, hno⟩
                  · rw [e1]
                    apply retired_timer_unregisterIo
                    exact retired_timer_mark_timer wtd sys.rs i _ rfl hD.2.2.2
                obtain ⟨htr0, hDfin⟩ := ihDone hD1
                refine ⟨?_, hDfin⟩
                rw [streamDones_cons_tfired, streamDones_append, e6, htr0,
                  streamDones_cons_other false true (by decide)]
                rfl
              · intro hP
                obtain ⟨h0, h1, h2, h3, h4, h5, hex1, hex2, h8, h9⟩ := hP
                have hP1 : WritePending wid wtd p.1 := by
                  refine writePending_glue wid wtd sys p.1 (by rw [e1]; exact Nat.le.refl)
                    e4 e5 (Or.inr e2) (Or.inr e3) ?_ ?_
                    ⟨h0, h1, h2, h3, h4, h5, hex1, hex2, h8, h9⟩
                  · obtain ⟨q, hq, hqid, hqcb⟩ := hex1
                    rw [e1]
                    refine ⟨q, ?_, hqid, hqcb⟩
                    apply unregIoList_mem_of_ne s1.rs.ios _ q ?_ hq
                    rw [hqid]
                    exact Ne.symm h8
                  · obtain ⟨t, ht, htid2, htcb⟩ := hex2
                    have hne : t ≠ sys.rs.timers.get ⟨i, h⟩ := by
                      intro he
                      rw [← he] at hcbR
                      exact hcbR htcb
                    rw [e1]
                    exact ⟨t, mem_set_of_ne_get sys.rs.timers i h _ t ht hne,
                      htid2, htcb⟩
                rcases ihPend hP1 with ⟨htq, hPf⟩ | ⟨res2, n2, htr2, hres2, hDf⟩
                · left
                  refine ⟨?_, hPf⟩
                  rw [streamDones_cons_tfired, streamDones_append, e6, htq,
                    streamDones_cons_other false true (by decide)]
                  rfl
                · right
                  refine ⟨res2, n2, ?_, hres2, hDf⟩
                  rw [streamDones_cons_tfired, streamDones_append, e6, htr2,
                    streamDones_cons_other false true (by decide)]
                  rfl
            · -- a foreign timer fires: no stream callback runs
              have hpr : p = (s1, []) := by
                rw [hp, streamEnv_onTimer, if_neg hcbW, if_neg hcbR]
              have hInv2 : Inv p.1.rs := by
                rw [hpr]
                exact hInv1
              have hWf2 : WriteWf wid wtd p.1 := by
                rw [hpr]
                exact hWf1
              obtain ⟨ihInv, ihWf, ihDone, ihPend⟩ := ih (i + 1) p.1 hInv2 hWf2
              refine ⟨ihInv, ihWf, ?_, ?_⟩
              · intro hD
                have hD1 : WriteDone wid wtd p.1 := by
                  rw [hpr]
                  refine ⟨hD.1, hD.2.1, ?_,
                    retired_timer_mark_timer wtd sys.rs i _ rfl hD.2.2.2⟩
                  obtain ⟨h0, hle, hno⟩ := hD.2.2.1
                  exact ⟨h0, hle, hno⟩
                obtain ⟨htr0, hDfin⟩ := ihDone hD1
                refine ⟨?_, hDfin⟩
                have hp2 : p.2 = [] := by rw [hpr]
                rw [streamDones_cons_tfired, streamDones_append, hp2, htr0]
                rfl
              · intro hP
                obtain ⟨h0, h1, h2, h3, h4, h5, hex1, hex2, h8, h9⟩ := hP
                have hP1 : WritePending wid wtd p.1 := by
                  rw [hpr]
                  refine writePending_glue wid wtd sys s1 Nat.le.refl rfl rfl
                    (Or.inl rfl) (Or.inl rfl) hex1 ?_
                    ⟨h0, h1, h2, h3, h4, h5, hex1, hex2, h8, h9⟩
                  obtain ⟨t, ht, htid2, htcb⟩ := hex2
                  have hne : t ≠ sys.rs.timers.get ⟨i, h⟩ := by
                    intro he
                    rw [← he] at hcbR
                    exact hcbR htcb
                  exact ⟨t, mem_set_of_ne_get sys.rs.timers i h _ t ht hne,
                    htid2, htcb⟩
                rcases ihPend hP1 with ⟨htq, hPf⟩ | ⟨res2, n2, htr2, hres2, hDf⟩
                · left
                  refine ⟨?_, hPf⟩
                  have hp2 : p.2 = [] := by rw [hpr]
                  rw [streamDones_cons_tfired, streamDones_append, hp2, htq]
                  rfl
                · right
                  refine ⟨res2, n2, ?_, hres2, hDf⟩
                  have hp2 : p.2 = [] := by rw [hpr]
                  rw [streamDones_cons_tfired, streamDones_append, hp2, htr2]
                  rfl
        · have hunf : dispatchTimers (streamEnv rdO wrO) now (fuel + 1) i sys =
              dispatchTimers (streamEnv rdO wrO) now fuel (i + 1) sys := by
            simp only [dispatchTimers, dif_pos h, if_neg hfire]
          rw [hunf]
          exact ih (i + 1) sys hInv hWf
      · have hunf : dispatchTimers (streamEnv rdO wrO) now (fuel + 1) i sys =
            ⟨sys, [], true⟩ := by
          simp only [dispatchTimers, dif_neg h]
        rw [hunf]
        exact ⟨hInv, hWf, fun hD => ⟨rfl, hD⟩, fun hP => Or.inl ⟨rfl, hP⟩⟩

/-- One `app_event_poll` call under the stream's callbacks, read
direction: a completed read stays completed and its caller callback is
not re-invoked; an outstanding read either stays outstanding with no
completion callback, or completes with exactly one completion callback
carrying `Ok`, `Hangup`, `IoError` or `TimedOut`, after which both of
its handles are retired. -/
theorem pollStep_write (rdO wrO : Nat → RWOut) (clk : Clk) (rv : Nat → Nat)
    (fuel : Nat) (block : Bool) (wid wtd : Nat) (sys : Sys StreamSt)
    (hInv : Inv sys.rs) (hWf : WriteWf wid wtd sys) :
    Inv (pollStep (streamEnv rdO wrO) clk rv fuel block sys).sys.rs ∧
    WriteWf wid wtd (pollStep (streamEnv rdO wrO) clk rv fuel block sys).sys ∧
    (WriteDone wid wtd sys →
      streamDones false (pollStep (streamEnv rdO wrO) clk rv fuel block sys).trace = [] ∧
      WriteDone wid wtd (pollStep (streamEnv rdO wrO) clk rv fuel block sys).sys) ∧
    (WritePending wid wtd sys →
      (streamDones false (pollStep (streamEnv rdO wrO) clk rv fuel block sys).trace = [] ∧
        WritePending wid wtd (pollStep (streamEnv rdO wrO) clk rv fuel block sys).sys) ∨
      (∃ res n,
        streamDones false (pollStep (streamEnv rdO wrO) clk rv fuel block sys).trace =
          [(res, n)] ∧
        (res = AppResult.ok ∨ res = AppResult.hup ∨ res = AppResult.ioError ∨
          res = AppResult.timeout) ∧
        WriteDone wid wtd (pollStep (streamEnv rdO wrO) clk rv fuel block sys).sys)) := by
  set rs0 : RState := { sys.rs with
    ios := gcIos sys.rs.ios
    timers := gcTimers sys.rs.timers } with hrs0
  set rs1 : RState := { rs0 with
    ios := rs0.ios.map (fun r => { r with revents := 0 }) } with hrs1
  set wp : Int × RState :=
    (if block then
      if rs1.timers.length = 0 then (-1, rs1)
      else
        let p := clockRead clk rs1
        (timeoutFold p.1 p.2.timers int64Max, p.2)
     else (0, rs1)) with hwp
  set rs3 : RState := { wp.2 with
    ios := wp.2.ios.mapIdx (fun i r => { r with revents := rv i }) } with hrs3
  set dio := dispatchIos (streamEnv rdO wrO) fuel 0 ⟨rs3, sys.ext⟩ with hdio
  set p2 := clockRead clk dio.sys.rs with hp2
  set dtm := dispatchTimers (streamEnv rdO wrO) p2.1 fuel 0 ⟨p2.2, dio.sys.ext⟩ with hdtm
  have hsys : (pollStep (streamEnv rdO wrO) clk rv fuel block sys).sys = dtm.sys := rfl
  have htr : (pollStep (streamEnv rdO wrO) clk rv fuel block sys).trace =
      dio.trace ++ dtm.trace := rfl
  have hwp2 : wp.2.ios = rs1.ios ∧ wp.2.timers = rs1.timers ∧
      wp.2.idCounter = rs1.idCounter := by
    rw [hwp]
    by_cases hb : block
    · rw [if_pos hb]
      by_cases hz : rs1.timers.length = 0
      · rw [if_pos hz]
        exact ⟨rfl, rfl, rfl⟩
      · rw [if_neg hz]
        exact ⟨rfl, rfl, rfl⟩
    · rw [if_neg hb]
      exact ⟨rfl, rfl, rfl⟩
  have hts : rs3.timers = gcTimers sys.rs.timers := hwp2.2.1
  have hcnt3 : rs3.idCounter = sys.rs.idCounter := hwp2.2.2
  have hInv1 : Inv rs1 := inv_map_ios rs0 _ (fun r => rfl) (inv_gc sys.rs hInv)
  have hInvW : Inv wp.2 := by
    rw [hwp]
    by_cases hb : block
    · rw [if_pos hb]
      by_cases hz : rs1.timers.length = 0
      · rw [if_pos hz]
        exact hInv1
      · rw [if_neg hz]
        exact inv_clk rs1 _ hInv1
    · rw [if_neg hb]
      exact hInv1
  have hInv3 : Inv rs3 := inv_mapIdx_ios wp.2 _ (fun i r => rfl) hInvW
  have hib3 : ∀ q ∈ rs3.ios, q.id ≠ 0 →
      ∃ p ∈ sys.rs.ios, q.id = p.id ∧ q.cb = p.cb := by
    intro q hq _
    obtain ⟨j, r1, hr1, hqr⟩ := mem_mapIdx_elems wp.2.ios _ q hq
    rw [hwp2.1] at hr1
    obtain ⟨r0, hr0, hr01⟩ := List.mem_map.mp hr1
    refine ⟨r0, subperm_subset (gcAux_subperm _ _ _ _) r0 hr0, ?_, ?_⟩
    · rw [hqr, ← hr01]
    · rw [hqr, ← hr01]
  have htb3 : ∀ q ∈ rs3.timers, q.id ≠ 0 →
      ∃ p ∈ sys.rs.timers, q.id = p.id ∧ q.cb = p.cb := by
    intro q hq _
    rw [hts] at hq
    exact ⟨q, subperm_subset (gcAux_subperm _ _ _ _) q hq, rfl, rfl⟩
  have hWf3 : WriteWf wid wtd ⟨rs3, sys.ext⟩ :=
    writeWf_of_backward wid wtd sys ⟨rs3, sys.ext⟩ hib3 htb3 hWf
  obtain ⟨dInv, dWf, dDone, dPend⟩ :=
    dispatchIos_write rdO wrO wid wtd fuel 0 ⟨rs3, sys.ext⟩ hInv3 hWf3
  have hInvP : Inv p2.2 := inv_clk dio.sys.rs _ dInv
  have hWfP : WriteWf wid wtd ⟨p2.2, dio.sys.ext⟩ :=
    writeWf_of_backward wid wtd dio.sys ⟨p2.2, dio.sys.ext⟩
      (fun q hq _ => ⟨q, hq, rfl, rfl⟩) (fun q hq _ => ⟨q, hq, rfl, rfl⟩) dWf
  obtain ⟨tInv, tWf, tDone, tPend⟩ :=
    dispatchTimers_write rdO wrO p2.1 wid wtd fuel 0 ⟨p2.2, dio.sys.ext⟩ hInvP hWfP
  have hDoneClk : WriteDone wid wtd dio.sys → WriteDone wid wtd ⟨p2.2, dio.sys.ext⟩ :=
    fun hD => writeDone_of_backward wid wtd dio.sys ⟨p2.2, dio.sys.ext⟩ Nat.le.refl
      (fun q hq _ => ⟨q, hq, rfl, rfl⟩) (fun q hq _ => ⟨q, hq, rfl, rfl⟩) rfl rfl hD
  have hPendClk : WritePending wid wtd dio.sys →
      WritePending wid wtd ⟨p2.2, dio.sys.ext⟩ := by
    intro hPd
    refine writePending_glue wid wtd dio.sys ⟨p2.2, dio.sys.ext⟩ Nat.le.refl rfl rfl
      (Or.inl rfl) (Or.inl rfl) ?_ ?_ hPd
    · exact hPd.2.2.2.2.2.2.1
    · exact hPd.2.2.2.2.2.2.2.1
  refine ⟨?_, ?_, ?_, ?_⟩
  · rw [hsys]
    exact tInv
  · rw [hsys]
    exact tWf
  · intro hD
    have hD3 : WriteDone wid wtd ⟨rs3, sys.ext⟩ :=
      writeDone_of_backward wid wtd sys ⟨rs3, sys.ext⟩ (le_of_eq hcnt3.symm)
        hib3 htb3 rfl rfl hD
    obtain ⟨d0, dDfin⟩ := dDone hD3
    obtain ⟨t0, tDfin⟩ := tDone (hDoneClk dDfin)
    rw [hsys, htr, streamDones_append, d0, t0]
    exact ⟨rfl, tDfin⟩
  · intro hP
    have hP3 : WritePending wid wtd ⟨rs3, sys.ext⟩ := by
      obtain ⟨h0, h1, h2, h3, h4, h5, hex1, hex2, h8, h9⟩ := hP
      refine writePending_glue wid wtd sys ⟨rs3, sys.ext⟩ (le_of_eq hcnt3.symm)
        rfl rfl (Or.inl rfl) (Or.inl rfl) ?_ ?_
        ⟨h0, h1, h2, h3, h4, h5, hex1, hex2, h8, h9⟩
      · obtain ⟨q, hq, hqid, hqcb⟩ := hex1
        have hqgc : q ∈ gcIos sys.rs.ios := by
          apply gcAux_mem_live _ q ?_ _ _ _ hq
          show decide (q.id = 0) = false
          rw [hqid]
          exact decide_eq_false h0
        have hexA : ∃ r ∈ wp.2.ios, r.id = wid ∧ r.cb = cbWriteIo := by
          rw [hwp2.1]
          exact exists_mem_map_io rs0.ios (fun r => { r with revents := 0 })
            (fun r => ⟨rfl, rfl⟩) wid cbWriteIo ⟨q, hqgc, hqid, hqcb⟩
        exact exists_mem_mapIdx wp.2.ios (fun i r => { r with revents := rv i })
          (fun i r => ⟨rfl, rfl⟩) wid cbWriteIo hexA
      · obtain ⟨t, ht, htid2, htcb⟩ := hex2
        have htgc : t ∈ gcTimers sys.rs.timers := by
          apply gcAux_mem_live _ t ?_ _ _ _ ht
          show decide (t.id = 0) = false
          rw [htid2]
          exact decide_eq_false h1
        rw [hts]
        exact ⟨t, htgc, htid2, htcb⟩
    rcases dPend hP3 with ⟨d0, dPf⟩ | ⟨res, n, d1, hres, dDf⟩
    · rcases tPend (hPendClk dPf) with ⟨t0, tPf⟩ | ⟨res, n, t1, hres, tDf⟩
      · left
        rw [hsys, htr, streamDones_append, d0, t0]
        exact ⟨rfl, tPf⟩
      · right
        refine ⟨res, n, ?_, hres, ?_⟩
        · rw [htr, streamDones_append, d0, t1, List.nil_append]
        · rw [hsys]
          exact tDf
    · obtain ⟨t0, tDf2⟩ := tDone (hDoneClk dDf)
      right
      refine ⟨res, n, ?_, hres, ?_⟩
      · rw [htr, streamDones_append, d1, t0, List.append_nil]
      · rw [hsys]
        exact tDf2

/-- Any sequence of `app_event_poll` calls under the stream's callbacks,
read direction: across the whole run the caller's read callback is
invoked at most once — exactly once if the operation completes — with an
allowed result, and a completed read never produces another callback. -/
theorem runPolls_write (rdO wrO : Nat → RWOut) (clk : Clk) (wid wtd : Nat) :
    ∀ (polls : List (Bool × (Nat → Nat) × Nat)) (sys : Sys StreamSt),
      Inv sys.rs → WriteWf wid wtd sys →
      Inv (runPolls (streamEnv rdO wrO) clk polls sys).1.rs ∧
      WriteWf wid wtd (runPolls (streamEnv rdO wrO) clk polls sys).1 ∧
      (WriteDone wid wtd sys →
        streamDones false (runPolls (streamEnv rdO wrO) clk polls sys).2 = [] ∧
        WriteDone wid wtd (runPolls (streamEnv rdO wrO) clk polls sys).1) ∧
      (WritePending wid wtd sys →
        (streamDones false (runPolls (streamEnv rdO wrO) clk polls sys).2 = [] ∧
          WritePending wid wtd (runPolls (streamEnv rdO wrO) clk polls sys).1) ∨
        (∃ res n,
          streamDones false (runPolls (streamEnv rdO wrO) clk polls sys).2 =
            [(res, n)] ∧
          (res = AppResult.ok ∨ res = AppResult.hup ∨ res = AppResult.ioError ∨
            res = AppResult.timeout) ∧
          WriteDone wid wtd (runPolls (streamEnv rdO wrO) clk polls sys).1)) := by
  intro polls
  induction polls with
  | nil =>
      intro sys hInv hWf
      exact ⟨hInv, hWf, fun hD => ⟨rfl, hD⟩, fun hP => Or.inl ⟨rfl, hP⟩⟩
  | cons c rest ih =>
      intro sys hInv hWf
      obtain ⟨pInv, pWf, pDone, pPend⟩ :=
        pollStep_write rdO wrO clk c.2.1 c.2.2 c.1 wid wtd sys hInv hWf
      obtain ⟨rInv, rWf, rDone, rPend⟩ :=
        ih (pollStep (streamEnv rdO wrO) clk c.2.1 c.2.2 c.1 sys).sys pInv pWf
      have h1 : (runPolls (streamEnv rdO wrO) clk (c :: rest) sys).1 =
          (runPolls (streamEnv rdO wrO) clk rest
            (pollStep (streamEnv rdO wrO) clk c.2.1 c.2.2 c.1 sys).sys).1 := rfl
      have h2 : (runPolls (streamEnv rdO wrO) clk (c :: rest) sys).2 =
          (pollStep (streamEnv rdO wrO) clk c.2.1 c.2.2 c.1 sys).trace ++
          (runPolls (streamEnv rdO wrO) clk rest
            (pollStep (streamEnv rdO wrO) clk c.2.1 c.2.2 c.1 sys).sys).2 := rfl
      refine ⟨?_, ?_, ?_, ?_⟩
      · rw [h1]
        exact rInv
      · rw [h1]
        exact rWf
      · intro hD
        obtain ⟨p0, pd⟩ := pDone hD
        obtain ⟨r0, rd⟩ := rDone pd
        rw [h1, h2, streamDones_append, p0, r0]
        exact ⟨rfl, rd⟩
      · intro hP
        rcases pPend hP with ⟨p0, pp⟩ | ⟨res, n, p1, hres, pd⟩
        · rcases rPend pp with ⟨r0, rp⟩ | ⟨res, n, r1, hres, rdn⟩
          · left
            rw [h1, h2, streamDones_append, p0, r0]
            exact ⟨rfl, rp⟩
          · right
            refine ⟨res, n, ?_, hres, ?_⟩
            · rw [h2, streamDones_append, p0, r1, List.nil_append]
            · rw [h1]
              exact rdn
        · obtain ⟨r0, rd⟩ := rDone pd
          right
          refine ⟨res, n, ?_, hres, ?_⟩
          · rw [h2, streamDones_append, p1, r0, List.append_nil]
          · rw [h1]
            exact rd


/-- `app_stream_read` with a timeout, issued on a reactor holding no
other read-callback records, establishes the read-outstanding phase for
the two fresh handle ids. -/
theorem streamRead_issues (clk : Clk) (n ms : Int) (sys0 sys1 : Sys StreamSt)
    (hEq : streamRead clk n (some ms) sys0 = some sys1) (hInv : Inv sys0.rs)
    (hNoR : ∀ r ∈ sys0.rs.ios, r.cb ≠ cbReadIo)
    (hNoT : ∀ t ∈ sys0.rs.timers, t.cb ≠ cbReadTimeout)
    (hw1 : sys0.ext.writeIoId ≤ sys0.rs.idCounter)
    (hw2 : sys0.ext.writeTimeoutId ≤ sys0.rs.idCounter) :
    Inv sys1.rs ∧
    ReadWf (sys0.rs.idCounter + 1) (sys0.rs.idCounter + 2) sys1 ∧
    ReadPending (sys0.rs.idCounter + 1) (sys0.rs.idCounter + 2) sys1 := by
  by_cases hr0 : sys0.ext.readIoId ≠ 0
  · rw [streamRead, if_pos hr0] at hEq
    cases hEq
  · rw [streamRead, if_neg hr0] at hEq
    have hx := Option.some_inj.mp hEq
    subst hx
    have hios : (registerTimer clk ms cbReadTimeout
        (registerIo sys0.ext.readFd appEventIn cbReadIo sys0.rs).2).2.ios =
        sys0.rs.ios ++
          [⟨sys0.rs.idCounter + 1, sys0.ext.readFd, appEventIn, 0, cbReadIo⟩] := rfl
    have htms : (registerTimer clk ms cbReadTimeout
        (registerIo sys0.ext.readFd appEventIn cbReadIo sys0.rs).2).2.timers =
        sys0.rs.timers ++
          [⟨sys0.rs.idCounter + 2, cbReadTimeout, clk sys0.rs.clkIdx + ms⟩] := rfl
    refine ⟨inv_registerTimer clk ms cbReadTimeout _
      (inv_registerIo _ _ _ _ hInv), ⟨?_, ?_⟩, ?_⟩
    · intro r hr hrne hrc
      rw [hios] at hr
      rcases List.mem_append.mp hr with hr | hr
      · exact absurd hrc (hNoR r hr)
      · rcases List.mem_singleton.mp hr with rfl
        rfl
    · intro t ht htne htc
      rw [htms] at ht
      rcases List.mem_append.mp ht with ht | ht
      · exact absurd htc (hNoT t ht)
      · rcases List.mem_singleton.mp ht with rfl
        rfl
    · refine ⟨Nat.succ_ne_zero _, Nat.succ_ne_zero _, rfl, rfl,
        Nat.le_succ _, Nat.le.refl, ?_, ?_, ?_, ?_⟩
      · refine ⟨⟨sys0.rs.idCounter + 1, sys0.ext.readFd, appEventIn, 0,
          cbReadIo⟩, ?_, rfl, rfl⟩
        rw [hios]
        exact List.mem_append_right _ (List.mem_singleton.mpr rfl)
      · refine ⟨⟨sys0.rs.idCounter + 2, cbReadTimeout,
          clk sys0.rs.clkIdx + ms⟩, ?_, rfl, rfl⟩
        rw [htms]
        exact List.mem_append_right _ (List.mem_singleton.mpr rfl)
      · intro he
        have hve : sys0.ext.writeIoId = sys0.rs.idCounter + 1 := he
        omega
      · intro he
        have hve : sys0.ext.writeTimeoutId = sys0.rs.idCounter + 2 := he
        omega

/-- `app_stream_write` with a timeout: the write-direction mirror of
`streamRead_issues`. -/
theorem streamWrite_issues (clk : Clk) (n ms : Int) (sys0 sys1 : Sys StreamSt)
    (hEq : streamWrite clk n (some ms) sys0 = some sys1) (hInv : Inv sys0.rs)
    (hNoR : ∀ r ∈ sys0.rs.ios, r.cb ≠ cbWriteIo)
    (hNoT : ∀ t ∈ sys0.rs.timers, t.cb ≠ cbWriteTimeout)
    (hw1 : sys0.ext.readIoId ≤ sys0.rs.idCounter)
    (hw2 : sys0.ext.readTimeoutId ≤ sys0.rs.idCounter) :
    Inv sys1.rs ∧
    WriteWf (sys0.rs.idCounter + 1) (sys0.rs.idCounter + 2) sys1 ∧
    WritePending (sys0.rs.idCounter + 1) (sys0.rs.idCounter + 2) sys1 := by
  by_cases hr0 : sys0.ext.writeIoId ≠ 0
  · rw [streamWrite, if_pos hr0] at hEq
    cases hEq
  · rw [streamWrite, if_neg hr0] at hEq
    have hx := Option.some_inj.mp hEq
    subst hx
    have hios : (registerTimer clk ms cbWriteTimeout
        (registerIo sys0.ext.writeFd appEventOut cbWriteIo sys0.rs).2).2.ios =
        sys0.rs.ios ++
          [⟨sys0.rs.idCounter + 1, sys0.ext.writeFd, appEventOut, 0, cbWriteIo⟩] := rfl
    have htms : (registerTimer clk ms cbWriteTimeout
        (registerIo sys0.ext.writeFd appEventOut cbWriteIo sys0.rs).2).2.timers =
        sys0.rs.timers ++
          [⟨sys0.rs.idCounter + 2, cbWriteTimeout, clk sys0.rs.clkIdx + ms⟩] := rfl
    refine ⟨inv_registerTimer clk ms cbWriteTimeout _
      (inv_registerIo _ _ _ _ hInv), ⟨?_, ?_⟩, ?_⟩
    · intro r hr hrne hrc
      rw [hios] at hr
      rcases List.mem_append.mp hr with hr | hr
      · exact absurd hrc (hNoR r hr)
      · rcases List.mem_singleton.mp hr with rfl
        rfl
    · intro t ht htne htc
      rw [htms] at ht
      rcases List.mem_append.mp ht with ht | ht
      · exact absurd htc (hNoT t ht)
      · rcases List.mem_singleton.mp ht with rfl
        rfl
    · refine ⟨Nat.succ_ne_zero _, Nat.succ_ne_zero _, rfl, rfl,
        Nat.le_succ _, Nat.le.refl, ?_, ?_, ?_, ?_⟩
      · refine ⟨⟨sys0.rs.idCounter + 1, sys0.ext.writeFd, appEventOut, 0,
          cbWriteIo⟩, ?_, rfl, rfl⟩
        rw [hios]
        exact List.mem_append_right _ (List.mem_singleton.mpr rfl)
      · refine ⟨⟨sys0.rs.idCounter + 2, cbWriteTimeout,
          clk sys0.rs.clkIdx + ms⟩, ?_, rfl, rfl⟩
        rw [htms]
        exact List.mem_append_right _ (List.mem_singleton.mpr rfl)
      · intro he
        have hve : sys0.ext.readIoId = sys0.rs.idCounter + 1 := he
        omega
      · intro he
        have hve : sys0.ext.readTimeoutId = sys0.rs.idCounter + 2 := he
        omega

/-- C2: for every asynchronous stream read or write issued with a
timeout (on a reactor whose tables hold no other record wired to that
direction's callbacks, the other direction's handles being
previously-issued ids), across any sequence of subsequent
`app_event_poll` calls the caller's completion callback is invoked at
most once — and exactly once iff the operation completes — with exactly
one of the results `Ok`, `Hangup`, `IoError`, `TimedOut`; whichever of
the I/O readiness handler and the timeout handler runs first leaves both
the I/O interest and the timer retired (the competing handler is
cancelled and can never fire), and a completed operation stays
completed, so no duplicate callback occurs on later poll calls. -/
theorem stream_timeout_exactly_once (clk : Clk) (rdO wrO : Nat → RWOut)
    (polls : List (Bool × (Nat → Nat) × Nat)) (sys0 : Sys StreamSt)
    (n ms : Int) (hInv : Inv sys0.rs) :
    (∀ sys1, streamRead clk n (some ms) sys0 = some sys1 →
      (∀ r ∈ sys0.rs.ios, r.cb ≠ cbReadIo) →
      (∀ t ∈ sys0.rs.timers, t.cb ≠ cbReadTimeout) →
      sys0.ext.writeIoId ≤ sys0.rs.idCounter →
      sys0.ext.writeTimeoutId ≤ sys0.rs.idCounter →
      (streamDones true (runPolls (streamEnv rdO wrO) clk polls sys1).2).length ≤ 1 ∧
      (∀ pr ∈ streamDones true (runPolls (streamEnv rdO wrO) clk polls sys1).2,
        pr.1 = AppResult.ok ∨ pr.1 = AppResult.hup ∨ pr.1 = AppResult.ioError ∨
          pr.1 = AppResult.timeout) ∧
      (streamDones true (runPolls (streamEnv rdO wrO) clk polls sys1).2 = [] →
        ReadPending (sys0.rs.idCounter + 1) (sys0.rs.idCounter + 2)
          (runPolls (streamEnv rdO wrO) clk polls sys1).1) ∧
      (streamDones true (runPolls (streamEnv rdO wrO) clk polls sys1).2 ≠ [] →
        ReadDone (sys0.rs.idCounter + 1) (sys0.rs.idCounter + 2)
          (runPolls (streamEnv rdO wrO) clk polls sys1).1)) ∧
    (∀ sys1, streamWrite clk n (some ms) sys0 = some sys1 →
      (∀ r ∈ sys0.rs.ios, r.cb ≠ cbWriteIo) →
      (∀ t ∈ sys0.rs.timers, t.cb ≠ cbWriteTimeout) →
      sys0.ext.readIoId ≤ sys0.rs.idCounter →
      sys0.ext.readTimeoutId ≤ sys0.rs.idCounter →
      (streamDones false (runPolls (streamEnv rdO wrO) clk polls sys1).2).length ≤ 1 ∧
      (∀ pr ∈ streamDones false (runPolls (streamEnv rdO wrO) clk polls sys1).2,
        pr.1 = AppResult.ok ∨ pr.1 = AppResult.hup ∨ pr.1 = AppResult.ioError ∨
          pr.1 = AppResult.timeout) ∧
      (streamDones false (runPolls (streamEnv rdO wrO) clk polls sys1).2 = [] →
        WritePending (sys0.rs.idCounter + 1) (sys0.rs.idCounter + 2)
          (runPolls (streamEnv rdO wrO) clk polls sys1).1) ∧
      (streamDones false (runPolls (streamEnv rdO wrO) clk polls sys1).2 ≠ [] →
        WriteDone (sys0.rs.idCounter + 1) (sys0.rs.idCounter + 2)
          (runPolls (streamEnv rdO wrO) clk polls sys1).1)) := by
  constructor
  · intro sys1 hEq hNoR hNoT hb1 hb2
    obtain ⟨hI1, hW1, hP1⟩ :=
      streamRead_issues clk n ms sys0 sys1 hEq hInv hNoR hNoT hb1 hb2
    obtain ⟨rInv, rWf, rDone, rPend⟩ :=
      runPolls_read rdO wrO clk (sys0.rs.idCounter + 1) (sys0.rs.idCounter + 2)
        polls sys1 hI1 hW1
    rcases rPend hP1 with ⟨h0, hPf⟩ | ⟨res, nn, h1, hres, hDf⟩
    · refine ⟨?_, ?_, fun _ => hPf, ?_⟩
      · rw [h0]
        exact Nat.zero_le 1
      · intro pr hpr
        rw [h0] at hpr
        cases hpr
      · intro hne
        exact absurd h0 hne
    · refine ⟨?_, ?_, ?_, fun _ => hDf⟩
      · rw [h1]
        exact Nat.le.refl
      · intro pr hpr
        rw [h1] at hpr
        rcases List.mem_singleton.mp hpr with rfl
        exact hres
      · intro h0'
        rw [h1] at h0'
        simp at h0'
  · intro sys1 hEq hNoR hNoT hb1 hb2
    obtain ⟨hI1, hW1, hP1⟩ :=
      streamWrite_issues clk n ms sys0 sys1 hEq hInv hNoR hNoT hb1 hb2
    obtain ⟨rInv, rWf, rDone, rPend⟩ :=
      runPolls_write rdO wrO clk (sys0.rs.idCounter + 1) (sys0.rs.idCounter + 2)
        polls sys1 hI1 hW1
    rcases rPend hP1 with ⟨h0, hPf⟩ | ⟨res, nn, h1, hres, hDf⟩
    · refine ⟨?_, ?_, fun _ => hPf, ?_⟩
      · rw [h0]
        exact Nat.zero_le 1
      · intro pr hpr
        rw [h0] at hpr
        cases hpr
      · intro hne
        exact absurd h0 hne
    · refine ⟨?_, ?_, ?_, fun _ => hDf⟩
      · rw [h1]
        exact Nat.le.refl
      · intro pr hpr
        rw [h1] at hpr
        rcases List.mem_singleton.mp hpr with rfl
        exact hres
      · intro h0'
        rw [h1] at h0'
        simp at h0'

/-- Witness for C2: a concrete read with a 50 ms timeout on a fresh
reactor, followed by one blocking poll that reports the descriptor
readable; all hypotheses hold by computation. -/
theorem stream_timeout_exactly_once_witness :
    Inv (Sys.mk (RState.mk 0 [] [] 0) (streamCreate 3 4) : Sys StreamSt).rs ∧
    (streamDones true (runPolls
        (streamEnv (fun _ => RWOut.rwOk 5) (fun _ => RWOut.rwOk 5))
        (fun _ => 0) [(true, (fun _ => (1 : Nat)), 4)]
        (Sys.mk (RState.mk 2 [IORec.mk 1 3 1 0 1] [TimerRec.mk 2 2 50] 1)
          (StreamSt.mk 3 10 1 2 4 0 0 0 0 0))).2).length ≤ 1 :=
  ⟨by decide, ((stream_timeout_exactly_once (fun _ => 0)
      (fun _ => RWOut.rwOk 5) (fun _ => RWOut.rwOk 5)
      [(true, (fun _ => (1 : Nat)), 4)]
      (Sys.mk (RState.mk 0 [] [] 0) (streamCreate 3 4)) 10 50 (by decide)).1
    (Sys.mk (RState.mk 2 [IORec.mk 1 3 1 0 1] [TimerRec.mk 2 2 50] 1)
      (StreamSt.mk 3 10 1 2 4 0 0 0 0 0))
    (by decide) (by decide) (by decide) (by decide) (by decide)).1⟩

end X0



